import Mathlib

/-!
# A verification development for the textfsm template parser

This file gives a shallow embedding, in Lean 4, of the core of
`textfsm/parser.py` (template compiler, value/option protocol, FSM runtime),
and proves properties of that embedding.

Modelling conventions:

* Python strings are modelled as `List Char` (`PyStr`).  Template lines never
  contain a newline character (files are read line by line), so regex details
  that involve newlines are irrelevant; where a universally quantified string
  appears, theorems carry an explicit no-newline hypothesis when it matters.
* Python character classes (`\s`, `\w`) are modelled over their ASCII meaning.
* Calls into the `re` library are modelled as follows: the handful of fixed
  regexes used by the compiler itself (`^\s*#`, `^(\w+)$`, `^\(.*\)$`,
  `MATCH_ACTION`, the three `ACTION` regexes, `\w+`) are translated into
  executable scanners with the same behaviour on newline-free input; the
  *compilation* of user-supplied rule regexes (`CopyableRegexObject`) is
  modelled by an arbitrary success predicate `reOk : PyStr → Bool` that each
  definition takes as a parameter (Python regex compilation is deterministic,
  which is all the theorems need); and the *matching* of user-supplied rule
  regexes at runtime is modelled by an arbitrary match function carried by
  each compiled rule, returning the dictionary of named captures.
-/

namespace TextFSM

/-- Python strings, modelled as lists of characters. -/
abbrev PyStr := List Char

/-- Python `\s` on ASCII: space, tab, newline, carriage return, vertical tab,
form feed. -/
def isPySpace (c : Char) : Bool :=
  c = ' ' || c = '\t' || c = '\n' || c = '\r' || c = '\x0b' || c = '\x0c'

/-- Python `\w` on ASCII: letters, digits and underscore. -/
def isWordChar (c : Char) : Bool :=
  c.isAlpha || c.isDigit || c = '_'

/-- Python `str.rstrip()` (ASCII whitespace). -/
def pyRstrip (s : PyStr) : PyStr := (s.reverse.dropWhile isPySpace).reverse

/-- Python `str.lstrip()` (ASCII whitespace). -/
def pyLstrip (s : PyStr) : PyStr := s.dropWhile isPySpace

/-- Python `str.strip()` (ASCII whitespace). -/
def pyStrip (s : PyStr) : PyStr := pyRstrip (pyLstrip s)

/-- `s.count(c)` for a single character, as used by `TextFSMValue.Parse`. -/
def countChar (c : Char) (s : PyStr) : Nat := s.count c

/-- `s.startswith(p)`. -/
def pyStartsWith (p s : PyStr) : Bool := p.isPrefixOf s

/-- Convenience: turn a Lean string literal into a `PyStr`. -/
def pyStr (s : String) : PyStr := s.toList

/-- Python `str.split(sep)` for a one-character separator: splits at every
occurrence, keeping empty pieces (`''.split(sep) == ['']`). -/
def pySplitChar (sep : Char) : PyStr → List PyStr
  | [] => [[]]
  | c :: rest =>
    match pySplitChar sep rest with
    | [] => [[]]
    | h :: t => if c = sep then [] :: h :: t else (c :: h) :: t

/-- Drop a single trailing empty piece from a split, when present. -/
def dropTrailEmpty (ls : List PyStr) : List PyStr :=
  if ls.getLast? == some ([] : PyStr) then ls.dropLast else ls

/-- The comment regex `^\s*#`: the line starts with optional whitespace
followed by a hash. -/
def isCommentLine (s : PyStr) : Bool :=
  match s.dropWhile isPySpace with
  | c :: _ => c = '#'
  | [] => false

/-- The state-name regex `^(\w+)$`: non-empty and all word characters. -/
def isWordName (s : PyStr) : Bool := !s.isEmpty && s.all isWordChar

/-- Template errors.  The Python code raises `TextFSMTemplateError` with a
human-readable message; only the fact that an error is raised matters to the
properties proved here, so the message is kept as a bare string and the
template line numbers that Python interpolates into messages are not
reproduced. -/
abbrev TemplateErr := String

/-! ## Layer A: the template compiler (`TextFSMValue.Parse`, `TextFSMRule`,
`TextFSM._Parse`, `TextFSM.__str__`) -/

/-- A compiled `Value` declaration (`TextFSMValue`): compile-time fields only.
`options` holds the option *names* in declaration order, as produced by
`TextFSMValue.OptionNames`. -/
structure VValue where
  name : PyStr
  options : List PyStr
  regex : PyStr
  template : PyStr
deriving DecidableEq, Repr

/-- `TextFSMOptions.ValidOptions()`: the nested classes of `TextFSMOptions`
that are subclasses of `OptionBase` — including `OptionBase` itself, which
`issubclass` accepts (and whose `name` survives the case-sensitive
`replace('option', '')`). `dir()` returns them in alphabetical order. -/
def validOptionNames : List PyStr :=
  [pyStr "Filldown", pyStr "Fillup", pyStr "Key", pyStr "List",
   pyStr "OptionBase", pyStr "Required"]

/-- `TextFSMValue._AddOption`, iterated over the comma-separated option list:
reject duplicates and unknown names, keep declaration order. -/
def addOptions : List PyStr → List PyStr → Except TemplateErr (List PyStr)
  | acc, [] => .ok acc
  | acc, o :: rest =>
    if o ∈ acc then .error "Duplicate option"
    else if o ∈ validOptionNames then addOptions (acc ++ [o]) rest
    else .error "Unknown option"

/-- The check `re.match(r'^\(.*\)$', regex)` on newline-free input: at least
two characters, the first `(` and the last `)`. -/
def wrappedInParens (s : PyStr) : Bool :=
  match s with
  | c :: rest => c = '(' && rest.getLast? == some ')'
  | [] => false

/-- `re.sub(r'^\(', '(?P<name>', regex)`: rewrite a leading `(` into the
named-group opener. -/
def makeTemplate (name regex : PyStr) : PyStr :=
  match regex with
  | '(' :: rest => pyStr "(?P<" ++ name ++ [ '>' ] ++ rest
  | _ => regex

/-- The second half of `TextFSMValue.Parse`, applied once the option list,
the name and the re-joined pattern have been extracted from the tokens. -/
def valueParseChecks (maxNameLen : Nat) (options : List PyStr) (name regex : PyStr) :
    Except TemplateErr VValue :=
  if name.length > maxNameLen then
    .error "Invalid Value name or name too long."
  else if !(wrappedInParens regex && (countChar '(' regex == countChar ')' regex)) then
    .error "Value must be contained within a () pair."
  else
    .ok { name := name, options := options, regex := regex,
          template := makeTemplate name regex }

/-- `TextFSMValue.Parse` for a (rstripped) `Value ...` line.  The tokenization
(`value.split(' ')`), the option/no-option branch on whether the third token
opens with `(`, the name-length check and the parenthesis check follow the
source.  The `re.compile` performed on `List`-option values is not modelled:
its failure mode (an invalid regex inside a `List` value) is outside the
properties studied here. -/
def valueParse (maxNameLen : Nat) (line : PyStr) : Except TemplateErr VValue :=
  if (pySplitChar ' ' line).length < 3 then
    .error "Expect at least 3 tokens on line."
  else if !pyStartsWith (pyStr "(") ((pySplitChar ' ' line).getD 2 []) then
    match addOptions [] (pySplitChar ',' ((pySplitChar ' ' line).getD 1 [])) with
    | .error e => .error e
    | .ok opts =>
      valueParseChecks maxNameLen opts ((pySplitChar ' ' line).getD 2 [])
        (List.intercalate (pyStr " ") ((pySplitChar ' ' line).drop 3))
  else
    valueParseChecks maxNameLen [] ((pySplitChar ' ' line).getD 1 [])
      (List.intercalate (pyStr " ") ((pySplitChar ' ' line).drop 2))

/-! ### Rule parsing (`TextFSMRule.__init__`) -/

/-- The two-character arrow after the whitespace of a `\s->` occurrence. -/
def arrowSplit (rest : PyStr) : Option (PyStr × PyStr) :=
  match rest with
  | '-' :: '>' :: a => some ([], a)
  | _ => none

/-- One step of the `MATCH_ACTION` scan: a split found further right wins
(the greedy `.*`); otherwise a whitespace character directly followed by
`->` splits here. -/
def masStep (c : Char) (rest : PyStr) (below : Option (PyStr × PyStr)) :
    Option (PyStr × PyStr) :=
  match below with
  | some (m, a) => some (c :: m, a)
  | none => if isPySpace c then arrowSplit rest else none

/-- `MATCH_ACTION = re.compile(r'(?P<match>.*)(\s->(?P<action>.*))')`, applied
with `re.match` to a newline-free line: the greedy `.*` places the split at
the *last* occurrence of a whitespace character followed by `->`; everything
before the whitespace is `match`, everything after the `->` is `action`.
Returns `none` when no such occurrence exists. -/
def matchActionSplit : PyStr → Option (PyStr × PyStr)
  | [] => none
  | c :: rest => masStep c rest (matchActionSplit rest)

/-- `LINE_OP = ('Continue', 'Next', 'Error')`. -/
def lineOps : List PyStr := [pyStr "Continue", pyStr "Next", pyStr "Error"]

/-- `RECORD_OP = ('Clear', 'Clearall', 'Record', 'NoRecord')`. -/
def recordOps : List PyStr := [pyStr "Clear", pyStr "Clearall", pyStr "Record", pyStr "NoRecord"]

/-- If `p` is a prefix of `s`, return the remainder. -/
def dropPrefixQ : PyStr → PyStr → Option PyStr
  | [], s => some s
  | _ :: _, [] => none
  | p :: ps, c :: cs => if p = c then dropPrefixQ ps cs else none

/-- First alternative (in order) on which `f` succeeds — the semantics of a
regex alternation tried with backtracking over a full-anchored tail. -/
def firstSome {α β : Type} (f : α → Option β) : List α → Option β
  | [] => none
  | a :: rest =>
    match f a with
    | some b => some b
    | none => firstSome f rest

/-- `NEWSTATE_RE = r'(?P<new_state>\w+|\".*\")'` matched against the whole
remaining token (the enclosing regexes anchor it with `$`): either a
non-empty all-word-character token, or a quoted token of length at least two
beginning and ending with a double quote. -/
def nsTokenOk (s : PyStr) : Bool :=
  (!s.isEmpty && s.all isWordChar) ||
    (match s with
     | '"' :: rest => rest.getLast? == some '"'
     | _ => false)

/-- The suffix `(\s+NEWSTATE)?$` shared by the three action regexes: the
remainder is either empty, or one-or-more whitespace followed by a token
accepted by `NEWSTATE_RE`.  Returns the new state (`[]` when absent). -/
def tailNS (s : PyStr) : Option PyStr :=
  if s.isEmpty then some []
  else if (s.takeWhile isPySpace).isEmpty then none
  else if nsTokenOk (s.dropWhile isPySpace) then some (s.dropWhile isPySpace) else none

/-- One record-operator alternative of the `\.record_op` group: consume the
operator name, then the optional new-state suffix (the `$` anchor makes the
whole remainder participate, so a failing suffix backtracks into the next
alternative). -/
def dotAlt (r2 : PyStr) (rop : PyStr) : Option (PyStr × PyStr) :=
  match dropPrefixQ rop r2 with
  | none => none
  | some r3 => (tailNS r3).map (fun ns => (rop, ns))

/-- The optional `(\.record_op)?` part of `OPERATOR_RE`. -/
def actionDotPart (r1 : PyStr) : Option (PyStr × PyStr) :=
  match r1 with
  | '.' :: r2 => firstSome (dotAlt r2) recordOps
  | _ => none

/-- One line-operator alternative of `ACTION_RE`. -/
def fullAlt (a : PyStr) (lop : PyStr) : Option (PyStr × PyStr × PyStr) :=
  match dropPrefixQ lop (a.dropWhile isPySpace) with
  | none => none
  | some r1 =>
    match actionDotPart r1 with
    | some (rop, ns) => some (lop, rop, ns)
    | none => (tailNS r1).map (fun ns => (lop, [], ns))

/-- `ACTION_RE = re.compile(r'\s+%s(\s+%s)?$' % (OPERATOR_RE, NEWSTATE_RE))`:
whitespace, a line operator, an optional `.record_op`, an optional new state.
Returns `(line_op, record_op, new_state)` with `[]` for absent groups. -/
def parseActionFull (a : PyStr) : Option (PyStr × PyStr × PyStr) :=
  if (a.takeWhile isPySpace).isEmpty then none
  else firstSome (fullAlt a) lineOps

/-- One record-operator alternative of `ACTION2_RE`. -/
def recAlt (a : PyStr) (rop : PyStr) : Option (PyStr × PyStr) :=
  match dropPrefixQ rop (a.dropWhile isPySpace) with
  | none => none
  | some r => (tailNS r).map (fun ns => (rop, ns))

/-- `ACTION2_RE = re.compile(r'\s+%s(\s+%s)?$' % (RECORD_OP_RE, NEWSTATE_RE))`:
whitespace, a record operator, an optional new state. -/
def parseActionRec (a : PyStr) : Option (PyStr × PyStr) :=
  if (a.takeWhile isPySpace).isEmpty then none
  else firstSome (recAlt a) recordOps

/-- `ACTION3_RE = re.compile(r'(\s+%s)?$' % (NEWSTATE_RE))`: an optional new
state alone. -/
def parseActionDefault (a : PyStr) : Option PyStr := tailNS a

theorem length_dropWhile_le (p : Char → Bool) (l : PyStr) :
    (l.dropWhile p).length ≤ l.length :=
  List.Sublist.length_le (List.dropWhile_sublist _)

/-- The scanner of `string.Template.substitute`, with explicit fuel to make
the recursion structural: every recursive call consumes at least one input
character and one unit of fuel, so with fuel exceeding the input length the
fuel-exhausted branch (which returns the input unchanged) is unreachable. -/
def templateSubGo (vmap : List (PyStr × PyStr)) : Nat → PyStr → Except TemplateErr PyStr
  | 0, s => .ok s
  | _ + 1, [] => .ok []
  | fuel + 1, '$' :: rest =>
    match rest with
    | '$' :: rest2 =>
      match templateSubGo vmap fuel rest2 with
      | .error e => .error e
      | .ok t => .ok ('$' :: t)
    | '{' :: rest2 =>
      match rest2 with
      | c :: r =>
        if isWordChar c && !c.isDigit then
          if (r.dropWhile isWordChar).head? == some '}' then
            match vmap.find? (fun p => p.1 == (c :: r.takeWhile isWordChar)) with
            | some p =>
              match templateSubGo vmap fuel ((r.dropWhile isWordChar).drop 1) with
              | .error e => .error e
              | .ok t => .ok (p.2 ++ t)
            | none => .error "Duplicate or invalid variable substitution"
          else .error "Duplicate or invalid variable substitution"
        else .error "Duplicate or invalid variable substitution"
      | [] => .error "Duplicate or invalid variable substitution"
    | c :: rest2 =>
      if isWordChar c && !c.isDigit then
        match vmap.find? (fun p => p.1 == (c :: rest2.takeWhile isWordChar)) with
        | some p =>
          match templateSubGo vmap fuel (rest2.dropWhile isWordChar) with
          | .error e => .error e
          | .ok t => .ok (p.2 ++ t)
        | none => .error "Duplicate or invalid variable substitution"
      else .error "Duplicate or invalid variable substitution"
    | [] => .error "Duplicate or invalid variable substitution"
  | fuel + 1, c :: rest =>
    match templateSubGo vmap fuel rest with
    | .error e => .error e
    | .ok t => .ok (c :: t)

/-- `string.Template(m).substitute(vmap)` (ASCII identifier pattern):
`$$` is an escaped dollar, `$name` and `${name}` are looked up in the map
(a missing key raises `KeyError`), anything else after `$` raises
`ValueError`.  Both exceptions become template errors in `TextFSMRule`. -/
def templateSub (vmap : List (PyStr × PyStr)) (s : PyStr) : Except TemplateErr PyStr :=
  templateSubGo vmap (s.length + 1) s

/-- A compiled rule (`TextFSMRule`): compile-time fields.  The `line_num`
diagnostic field only feeds error messages, which this model does not
reproduce, so it is omitted. -/
structure SRule where
  rmatch : PyStr
  regex : PyStr
  line_op : PyStr
  record_op : PyStr
  new_state : PyStr
deriving DecidableEq, Repr

/-- The three-regex fallback chain for the action part of a rule
(`ACTION_RE`, then `ACTION2_RE`, then `ACTION3_RE`), yielding
`(line_op, record_op, new_state)`. -/
def parseActionChain (action : PyStr) : Except TemplateErr (PyStr × PyStr × PyStr) :=
  match parseActionFull action with
  | some r => .ok r
  | none =>
    match parseActionRec action with
    | some (rop, ns) => .ok (([] : PyStr), rop, ns)
    | none =>
      match parseActionDefault action with
      | some ns => .ok (([] : PyStr), ([] : PyStr), ns)
      | none => .error "Badly formatted rule."

/-- `re.match(r'\w+', new_state)`: the first character is a word character
(`re.match` anchors only the start, so nothing beyond the first character of
the shortest match is constrained). -/
def nsHeadWord (ns : PyStr) : Bool :=
  match ns with
  | c :: _ => isWordChar c
  | [] => false

/-- The operator-consistency checks at the end of `TextFSMRule.__init__`,
followed by construction of the rule. -/
def ruleChecks (m regex : PyStr) (lop rop ns : PyStr) : Except TemplateErr SRule :=
  if lop = pyStr "Continue" && !ns.isEmpty then
    .error "Action Continue with new state specified."
  else if lop ≠ pyStr "Error" && !ns.isEmpty && !nsHeadWord ns then
    .error "Alphanumeric characters only in state names."
  else
    .ok { rmatch := m, regex := regex, line_op := lop, record_op := rop, new_state := ns }

/-- The substitution step of `TextFSMRule.__init__`: `${varname}` entries
are replaced only when the value map is non-empty (`if var_map:`). -/
def ruleSub (vmap : List (PyStr × PyStr)) (m : PyStr) : Except TemplateErr PyStr :=
  if vmap.isEmpty then .ok m else templateSub vmap m

/-- `TextFSMRule.__init__` when the line carries no `->` action. -/
def ruleNoAction (reOk : PyStr → Bool) (vmap : List (PyStr × PyStr))
    (m : PyStr) : Except TemplateErr SRule :=
  match ruleSub vmap m with
  | .error e => .error e
  | .ok regex =>
    if !reOk regex then .error "Invalid regular expression."
    else
      .ok { rmatch := m, regex := regex, line_op := [], record_op := [], new_state := [] }

/-- `TextFSMRule.__init__` when the line splits into a match and an action. -/
def ruleWithAction (reOk : PyStr → Bool) (vmap : List (PyStr × PyStr))
    (m action : PyStr) : Except TemplateErr SRule :=
  match ruleSub vmap m with
  | .error e => .error e
  | .ok regex =>
    if !reOk regex then .error "Invalid regular expression."
    else
      match parseActionChain action with
      | .error e => .error e
      | .ok (lop, rop, ns) => ruleChecks m regex lop rop ns

/-- Dispatch on the `MATCH_ACTION` split of the stripped line. -/
def ruleFromSplit (reOk : PyStr → Bool) (vmap : List (PyStr × PyStr))
    (stripped : PyStr) : Except TemplateErr SRule :=
  match matchActionSplit stripped with
  | none => ruleNoAction reOk vmap stripped
  | some (m, action) => ruleWithAction reOk vmap m action

/-- `TextFSMRule.__init__`, for a raw rule line.  `reOk` models success of
`re.compile` on the substituted regex (`CopyableRegexObject`). -/
def ruleParse (reOk : PyStr → Bool) (vmap : List (PyStr × PyStr))
    (line : PyStr) : Except TemplateErr SRule :=
  if (pyStrip line).isEmpty then .error "Null data in FSMRule."
  else ruleFromSplit reOk vmap (pyStrip line)

/-! ### Whole-template compilation (`TextFSM._Parse` and friends) -/

/-- The compiled template structure: `values`, `value_map`, `states` (in
insertion order, as a Python 3.7+ dict preserves it) and `state_list`. -/
structure FSMStruct where
  values : List VValue
  value_map : List (PyStr × PyStr)
  states : List (PyStr × List SRule)
  state_list : List PyStr
deriving DecidableEq, Repr

/-- Look a state up in the state table. -/
def lookupState (states : List (PyStr × List SRule)) (name : PyStr) :
    Option (List SRule) :=
  (states.find? (fun p => p.1 == name)).map Prod.snd

/-- `TextFSM._ParseFSMVariables`: consume the leading `Value` block.  Each
line is rstripped; a blank line ends the block (and is consumed); comments
are skipped; a `Value ` line is parsed and checked against the names already
seen (`value.name in self.header`); any other line is an error, with a
distinct message when no `Value` has been seen yet.  Returns the values, the
value map and the unconsumed lines. -/
def parseVariables (maxNameLen : Nat) :
    List VValue → List (PyStr × PyStr) → List PyStr →
    Except TemplateErr (List VValue × List (PyStr × PyStr) × List PyStr)
  | values, vmap, [] => .ok (values, vmap, [])
  | values, vmap, line :: rest =>
    let l := pyRstrip line
    if l.isEmpty then .ok (values, vmap, rest)
    else if isCommentLine l then parseVariables maxNameLen values vmap rest
    else if pyStartsWith (pyStr "Value ") l then
      match valueParse maxNameLen l with
      | .error e => .error e
      | .ok v =>
        if (values.map VValue.name).contains v.name then
          .error "Duplicate declarations for Value."
        else
          parseVariables maxNameLen (values ++ [v]) (vmap ++ [(v.name, v.template)]) rest
    else if values.isEmpty then .error "No Value definitions found."
    else .error "Expected blank line after last Value entry."

/-- Append a parsed rule to the named state (`self.states[state_name].append`);
state names are unique, so updating the first matching entry is exact. -/
def addRule (name : PyStr) (r : SRule) :
    List (PyStr × List SRule) → List (PyStr × List SRule)
  | [] => []
  | (n, rs) :: rest =>
    if n == name then (n, rs ++ [r]) :: rest else (n, rs) :: addRule name r rest

/-- `TextFSM._ParseFSMState`, iterated by `while self._ParseFSMState(template)`.
The two inner loops sharing one file iterator are fused into a single
traversal with a mode: `none` = looking for the next state header (skipping
blank and comment lines), `some name` = collecting rules for `name` until a
blank line.  Checks follow the source: the header must match `^(\w+)$`, be at
most `maxNameLen` long, not be a reserved operator name and not already be
declared; a rule line must begin with one or two spaces or a tab followed by
`^`. -/
def parseStates (reOk : PyStr → Bool) (maxNameLen : Nat) (vmap : List (PyStr × PyStr)) :
    Option PyStr → List (PyStr × List SRule) → List PyStr → List PyStr →
    Except TemplateErr (List (PyStr × List SRule) × List PyStr)
  | _, states, slist, [] => .ok (states, slist)
  | none, states, slist, line :: rest =>
    let l := pyRstrip line
    if l.isEmpty || isCommentLine l then parseStates reOk maxNameLen vmap none states slist rest
    else if !isWordName l || l.length > maxNameLen
        || lineOps.contains l || recordOps.contains l then
      .error "Invalid state name."
    else if states.any (fun p => p.1 == l) then .error "Duplicate state name."
    else parseStates reOk maxNameLen vmap (some l) (states ++ [(l, [])]) (slist ++ [l]) rest
  | some cur, states, slist, line :: rest =>
    let l := pyRstrip line
    if l.isEmpty then parseStates reOk maxNameLen vmap none states slist rest
    else if isCommentLine l then parseStates reOk maxNameLen vmap (some cur) states slist rest
    else if !(pyStartsWith (pyStr " ^") l || pyStartsWith (pyStr "  ^") l
        || pyStartsWith (pyStr "\t^") l) then
      .error "Missing white space or carat before rule."
    else
      match ruleParse reOk vmap l with
      | .error e => .error e
      | .ok r => parseStates reOk maxNameLen vmap (some cur) (addRule cur r states) slist rest

/-- `TextFSM._ValidateFSM`: `Start` must exist, a declared `End`/`EOF` state
must be empty, a declared `End` is removed from the state table and the state
list, and every non-`Error` rule with a non-empty `new_state` other than
`End`/`EOF` must name a declared state. -/
def validateFSM (f : FSMStruct) : Except TemplateErr FSMStruct :=
  if !f.states.any (fun p => p.1 == pyStr "Start") then
    .error "Missing state Start."
  else if ((lookupState f.states (pyStr "End")).getD []) ≠ [] then
    .error "Non-Empty End state."
  else if ((lookupState f.states (pyStr "EOF")).getD []) ≠ [] then
    .error "Non-Empty EOF state."
  else
    let states := f.states.filter (fun p => p.1 ≠ pyStr "End")
    let slist := f.state_list.filter (fun s => s ≠ pyStr "End")
    let badJump := states.any (fun st =>
      st.2.any (fun r =>
        !(r.line_op == pyStr "Error") &&
        !(r.new_state.isEmpty || r.new_state == pyStr "End" || r.new_state == pyStr "EOF") &&
        !(states.any (fun p => p.1 == r.new_state))))
    if badJump then .error "State not found."
    else .ok { f with states := states, state_list := slist }

/-- `TextFSM._Parse` on a template given as a list of lines (a Python file is
read line by line; terminators are removed by the `rstrip` in each loop). -/
def compileLines (reOk : PyStr → Bool) (lines : List PyStr) :
    Except TemplateErr FSMStruct :=
  match parseVariables 48 [] [] lines with
  | .error e => .error e
  | .ok (values, vmap, rest) =>
    match parseStates reOk 48 vmap none [] [] rest with
    | .error e => .error e
    | .ok (states, slist) =>
      validateFSM { values := values, value_map := vmap, states := states, state_list := slist }

/-- Compilation from a whole template string: reading a `StringIO` line by
line is splitting on the newline character (each parse loop rstrips, so
whether terminators are kept makes no difference, and the extra final empty
line produced by `splitOn` after a trailing newline is skipped by every
loop). -/
def compileStr (reOk : PyStr → Bool) (src : PyStr) : Except TemplateErr FSMStruct :=
  compileLines reOk (pySplitChar '\n' src)

/-! ### Canonical serialization (`__str__` methods) -/

/-- `TextFSMValue.__str__`. -/
def serializeValue (v : VValue) : PyStr :=
  if v.options.isEmpty then
    pyStr "Value " ++ v.name ++ [' '] ++ v.regex
  else
    pyStr "Value " ++ List.intercalate [','] v.options ++ [' '] ++ v.name ++ [' '] ++ v.regex

/-- The `operation` string of `TextFSMRule.__str__`: the line operator, a
dot when both operators are present, and the record operator. -/
def ruleOperation (r : SRule) : PyStr :=
  r.line_op ++ (if !r.line_op.isEmpty && !r.record_op.isEmpty then ['.'] else []) ++ r.record_op

/-- The serialized new-state part of `TextFSMRule.__str__`: a leading space
separates it from a non-empty operation. -/
def ruleNewState (r : SRule) : PyStr :=
  if !(ruleOperation r).isEmpty && !r.new_state.isEmpty then [' '] ++ r.new_state
  else r.new_state

/-- `TextFSMRule.__str__`. -/
def serializeRule (r : SRule) : PyStr :=
  if (ruleOperation r).isEmpty && (ruleNewState r).isEmpty then
    pyStr "  " ++ r.rmatch
  else
    pyStr "  " ++ r.rmatch ++ pyStr " -> " ++ ruleOperation r ++ ruleNewState r

/-- The serialized rule block of one state in `TextFSM.__str__`. -/
def serializeRules (rules : List SRule) : PyStr :=
  if (List.intercalate ['\n'] (rules.map serializeRule)).isEmpty then []
  else List.intercalate ['\n'] (rules.map serializeRule) ++ ['\n']

/-- `TextFSM.__str__`. -/
def serializeFSM (f : FSMStruct) : PyStr :=
  List.intercalate ['\n'] (f.values.map serializeValue) ++ ['\n'] ++
  (f.state_list.map (fun s =>
    ['\n'] ++ s ++ ['\n'] ++
    serializeRules ((lookupState f.states s).getD []))).flatten

/-! ## Layer B: the FSM runtime

The runtime layer models `TextFSMValue`/`TextFSMOptions` mutable state and
the `TextFSM` parse loop.  Compiled rule regexes appear as abstract match
functions returning the dictionary of named captures (Python dicts preserve
insertion order, modelled as association lists in group order). -/

/-- A Python value held by a `TextFSMValue` or a result cell: `None`, a
string, or a list (of strings or group dictionaries, for `List` values). -/
inductive Entry
  | str (s : PyStr)
  | dict (d : List (PyStr × Option PyStr))
  | noneE
deriving DecidableEq, Repr

inductive PyVal
  | none
  | str (s : PyStr)
  | list (l : List Entry)
deriving DecidableEq, Repr

/-- Python truthiness of the values that can appear in a Value or a row. -/
def PyVal.truthy : PyVal → Bool
  | .none => false
  | .str s => !s.isEmpty
  | .list l => !l.isEmpty

/-- The value options (nested classes of `TextFSMOptions`). -/
inductive TOpt
  | OptionBase | Required | Filldown | Fillup | Key | ListOpt
deriving DecidableEq, Repr

/-- The internal control signals raised by option callbacks. -/
inductive Signal
  | SkipRecord | SkipValue
deriving DecidableEq, Repr

/-- A runtime `TextFSMValue`: static fields (`name`, `options`, the compiled
regex modelled by its group count and match function) and mutable fields
(`value`, the Filldown option's private `_myvar`, the List option's private
`_value` accumulator; the private fields are modelled as always-present, and
are read or written only by the option that owns them). -/
structure RValue where
  name : PyStr
  options : List TOpt
  regex : PyStr
  value : PyVal
  filldown_value : PyVal
  list_value : List Entry
  regex_groups : Nat
  regex_match : PyStr → Option (List (PyStr × Option PyStr))

/-- `OnClearVar` of a single option (`Filldown` restores the remembered
value; `List` resets its accumulator unless `Filldown` is also set). -/
def optOnClearVar (v : RValue) (o : TOpt) : RValue :=
  match o with
  | .Filldown => { v with value := v.filldown_value }
  | .ListOpt => if v.options.contains .Filldown then v else { v with list_value := [] }
  | _ => v

/-- `TextFSMValue.ClearVar`: set `value = None`, then run each option's
`OnClearVar` in order. -/
def RValue.ClearVar (v : RValue) : RValue :=
  v.options.foldl optOnClearVar { v with value := PyVal.none }

/-- `OnClearAllVar` of a single option. -/
def optOnClearAllVar (v : RValue) (o : TOpt) : RValue :=
  match o with
  | .Filldown => { v with filldown_value := PyVal.none }
  | .ListOpt => { v with list_value := [] }
  | _ => v

/-- `TextFSMValue.ClearAllVar`. -/
def RValue.ClearAllVar (v : RValue) : RValue :=
  v.options.foldl optOnClearAllVar { v with value := PyVal.none }

/-- `OnSaveRecord` of a single option: `Required` raises `SkipRecord` when
the value is falsy; `List` copies its accumulator into `value`. -/
def optOnSaveRecord (v : RValue) (o : TOpt) : RValue × Option Signal :=
  match o with
  | .Required => (v, if v.value.truthy then none else some .SkipRecord)
  | .ListOpt => ({ v with value := PyVal.list v.list_value }, none)
  | _ => (v, none)

/-- Run the options' `OnSaveRecord` callbacks in order; a raised signal
propagates immediately (the remaining callbacks do not run), keeping the
mutations already performed. -/
def saveRecordGo : List TOpt → RValue → RValue × Option Signal
  | [], v => (v, none)
  | o :: rest, v =>
    match optOnSaveRecord v o with
    | (v1, some sig) => (v1, some sig)
    | (v1, none) => saveRecordGo rest v1

/-- `TextFSMValue.OnSaveRecord`. -/
def RValue.OnSaveRecord (v : RValue) : RValue × Option Signal :=
  saveRecordGo v.options v

/-- The entry the `List` option appends when it appends the raw value: a
matched string or `None` (a non-participating named group).  The `.list`
branch is unreachable on the runtime paths, where an assignment always
carries a string or `None`. -/
def entryOfValue : PyVal → Entry
  | .str s => .str s
  | _ => .noneE

/-- Runtime errors: the `TextFSMError` raised by the `Error` operator, and
the `TypeError` CPython raises when `List.OnAssignVar` re-matches a
non-string value; the message text is not reproduced. -/
abbrev RunErr := String

/-- The re-match performed by `TextFSMOptions.List.OnAssignVar`: when the
value regex has more than one match group (named or not), the assigned value
is re-matched against it — `re.match` raises `TypeError` when that value is
`None` (a non-participating named group) or anything else that is not a
string; with at most one group no match is attempted. -/
def listMatchRes (v : RValue) : Except RunErr (Option (List (PyStr × Option PyStr))) :=
  if v.regex_groups > 1 then
    match v.value with
    | .str s => .ok (v.regex_match s)
    | _ => .error "expected string or bytes-like object"
  else .ok Option.none

/-- The entry `List.OnAssignVar` appends, given the re-match result: the
groupdict when the match succeeded with a non-empty groupdict, the assigned
value itself otherwise. -/
def listEntry (v : RValue) (matchRes : Option (List (PyStr × Option PyStr))) : Entry :=
  match matchRes with
  | some gd => if !gd.isEmpty then .dict gd else entryOfValue v.value
  | none => entryOfValue v.value

/-- `TextFSMOptions.List.OnAssignVar`. -/
def listOnAssignVar (v : RValue) : Except RunErr RValue :=
  match listMatchRes v with
  | .error e => .error e
  | .ok matchRes => .ok { v with list_value := v.list_value ++ [listEntry v matchRes] }

/-- A runtime rule: operators plus the compiled regex, modelled by a match
function from an input line to the dictionary of named captures (`None` when
the rule does not match). -/
structure RRule where
  line_op : PyStr
  record_op : PyStr
  new_state : PyStr
  regex_match : PyStr → Option (List (PyStr × Option PyStr))

/-- The runtime FSM state: values, state table, current state (Python keeps
both the rule-list pointer `_cur_state` and the name `_cur_state_name`),
and the accumulated `_result`. -/
structure RFSM where
  values : List RValue
  states : List (PyStr × List RRule)
  cur_state : List RRule
  cur_state_name : PyStr
  result : List (List PyVal)

def lookupRState (states : List (PyStr × List RRule)) (name : PyStr) :
    Option (List RRule) :=
  (states.find? (fun p => p.1 == name)).map Prod.snd

/-- `TextFSM._ClearRecord`. -/
def RFSM.ClearRecord (fsm : RFSM) : RFSM :=
  { fsm with values := fsm.values.map RValue.ClearVar }

/-- `TextFSM._ClearAllRecord`. -/
def RFSM.ClearAllRecord (fsm : RFSM) : RFSM :=
  { fsm with values := fsm.values.map RValue.ClearAllVar }

/-- `TextFSM.Reset`: current state becomes `Start`, the result table is
cleared, and every value is cleared along the clear-all path. -/
def RFSM.Reset (fsm : RFSM) : RFSM :=
  { fsm with
      cur_state := (lookupRState fsm.states (pyStr "Start")).getD [],
      cur_state_name := pyStr "Start",
      result := [],
      values := fsm.values.map RValue.ClearAllVar }

/-- The loop body of `TextFSM._AppendRecord`: run each value's
`OnSaveRecord`, collecting `value.value` into the record; `SkipValue` skips
only the value; `SkipRecord` aborts, returning (in the `error` branch) the
whole values list as it stands at the raise — the values before the raise
fully processed, the raising value with its partial mutations, the rest
untouched. -/
def saveLoop : List RValue → Except (List RValue) (List RValue × List PyVal)
  | [] => .ok ([], [])
  | v :: rest =>
    match v.OnSaveRecord with
    | (v1, some .SkipRecord) => .error (v1 :: rest)
    | (v1, some .SkipValue) =>
      match saveLoop rest with
      | .error vs => .error (v1 :: vs)
      | .ok (vs, row) => .ok (v1 :: vs, row)
    | (v1, none) =>
      match saveLoop rest with
      | .error vs => .error (v1 :: vs)
      | .ok (vs, row) => .ok (v1 :: vs, v1.value :: row)

/-- `None` entries become empty strings when a record is emitted. -/
def noneToEmpty : PyVal → PyVal
  | .none => .str []
  | pv => pv

/-- `len(cur_record) == cur_record.count(None) + cur_record.count([])`:
every element is `None` or the empty list. -/
def rowIsEmpty (row : List PyVal) : Bool :=
  row.all (fun pv => pv == PyVal.none || pv == PyVal.list [])

/-- `TextFSM._AppendRecord`. -/
def RFSM.AppendRecord (fsm : RFSM) : RFSM :=
  if fsm.values.isEmpty then fsm
  else
    match saveLoop fsm.values with
    | .error vs => { fsm with values := vs.map RValue.ClearVar }
    | .ok (vs, row) =>
      if rowIsEmpty row then { fsm with values := vs }
      else
        { fsm with values := vs.map RValue.ClearVar,
                   result := fsm.result ++ [row.map noneToEmpty] }

/-- Truthiness of a result cell, as tested by `Fillup` (`if result[idx]:`). -/
def truthyAt (row : List PyVal) (i : Nat) : Bool := (row.getD i PyVal.none).truthy

/-- The `Fillup` walk over the reversed result rows: fill column `i` of each
row from the end until a row already has a truthy entry there. -/
def fillupGo (i : Nat) (pv : PyVal) : List (List PyVal) → List (List PyVal)
  | [] => []
  | row :: rest =>
    if truthyAt row i then row :: rest
    else row.set i pv :: fillupGo i pv rest

/-- `TextFSMOptions.Fillup.OnAssignVar` body (the walk is guarded by the
truthiness of the just-assigned value at the call site). -/
def fillup (i : Nat) (pv : PyVal) (result : List (List PyVal)) : List (List PyVal) :=
  (fillupGo i pv result.reverse).reverse

/-- A left fold whose step can raise: the Python `for` loops over option
callbacks and over captured groups stop at the first raised exception. -/
def foldlE {α β : Type} (f : α → β → Except RunErr α) : α → List β → Except RunErr α
  | a, [] => .ok a
  | a, b :: rest =>
    match f a b with
    | .error e => .error e
    | .ok a1 => foldlE f a1 rest

/-- A single option's `OnAssignVar` callback, acting on the value being
assigned and the result table (`Filldown` remembers the value; `Fillup`
back-fills the result table; `List` appends to its accumulator, raising
`TypeError` when it re-matches a non-string value). -/
def assignStep (i : Nat) (acc : RValue × List (List PyVal)) (o : TOpt) :
    Except RunErr (RValue × List (List PyVal)) :=
  match o with
  | TOpt.Filldown => .ok ({ acc.1 with filldown_value := acc.1.value }, acc.2)
  | TOpt.ListOpt =>
    match listOnAssignVar acc.1 with
    | .error e => .error e
    | .ok v1 => .ok (v1, acc.2)
  | TOpt.Fillup =>
    .ok (acc.1, if acc.1.value.truthy then fillup i acc.1.value acc.2 else acc.2)
  | _ => .ok acc

/-- `TextFSMValue.AssignVar` on the value at index `i` of the FSM: set
`value`, then run each option's `OnAssignVar` in order; an exception raised
by a callback propagates. -/
def RFSM.AssignVarAt (fsm : RFSM) (i : Nat) (pv : PyVal) : Except RunErr RFSM :=
  match fsm.values.get? i with
  | none => .ok fsm
  | some v =>
    match foldlE (assignStep i) ({ v with value := pv }, fsm.result) v.options with
    | .error e => .error e
    | .ok acc =>
      .ok { fsm with values := fsm.values.set i acc.1, result := acc.2 }

/-- `TextFSM._AssignVar`: look the captured group's name up among the values
(`_GetValue` returns the first value of that name, or `None`, in which case
the capture is ignored) and assign the captured text (possibly `None` for a
non-participating group). -/
def RFSM.PyAssignVar (fsm : RFSM) (name : PyStr) (g : Option PyStr) :
    Except RunErr RFSM :=
  match fsm.values.findIdx? (fun v => v.name == name) with
  | some i =>
    fsm.AssignVarAt i (match g with | some s => PyVal.str s | none => PyVal.none)
  | none => .ok fsm

/-- The record-operator half of `TextFSM._Operations` (`Record`, `Clear`,
`Clearall`; anything else is a no-op). -/
def RFSM.RecordAction (fsm : RFSM) (rule : RRule) : RFSM :=
  if rule.record_op == pyStr "Record" then fsm.AppendRecord
  else if rule.record_op == pyStr "Clear" then fsm.ClearRecord
  else if rule.record_op == pyStr "Clearall" then fsm.ClearAllRecord
  else fsm

/-- `TextFSM._Operations`: record operator first, then line operator
(`Error` raises; `Continue` returns `false`; anything else returns
`true`). -/
def RFSM.Operations (fsm : RFSM) (rule : RRule) : Except RunErr (RFSM × Bool) :=
  if rule.line_op == pyStr "Error" then .error "State Error raised."
  else if rule.line_op == pyStr "Continue" then .ok (fsm.RecordAction rule, false)
  else .ok (fsm.RecordAction rule, true)

/-- Assign every named capture of a match, in group order
(`for value, value_match in match.groupdict().items(): self._AssignVar`);
an exception raised by an assignment propagates. -/
def assignCaps (gd : List (PyStr × Option PyStr)) (fsm : RFSM) : Except RunErr RFSM :=
  foldlE (fun f p => f.PyAssignVar p.1 p.2) fsm gd

/-- The rule loop of `TextFSM._CheckLine`: try each rule of the current
state in order; on a match assign every named capture, run the operators;
a non-`Continue` operator breaks out (after an optional state transition —
`End`/`EOF` update only the state name); `Continue` keeps iterating. -/
def checkLineGo (line : PyStr) : RFSM → List RRule → Except RunErr RFSM
  | fsm, [] => .ok fsm
  | fsm, rule :: rest =>
    match rule.regex_match line with
    | none => checkLineGo line fsm rest
    | some gd =>
      match assignCaps gd fsm with
      | .error e => .error e
      | .ok fsmA =>
        match fsmA.Operations rule with
        | .error e => .error e
        | .ok (fsm2, true) =>
          if rule.new_state.isEmpty then .ok fsm2
          else if rule.new_state == pyStr "End" || rule.new_state == pyStr "EOF" then
            .ok { fsm2 with cur_state_name := rule.new_state }
          else
            .ok { fsm2 with
                    cur_state := (lookupRState fsm2.states rule.new_state).getD [],
                    cur_state_name := rule.new_state }
        | .ok (fsm2, false) => checkLineGo line fsm2 rest

/-- `TextFSM._CheckLine`. -/
def RFSM.CheckLine (fsm : RFSM) (line : PyStr) : Except RunErr RFSM :=
  checkLineGo line fsm fsm.cur_state

/-- The line loop of `TextFSM.ParseText`: feed each line to `_CheckLine`,
stopping early when the current state has become `End` or `EOF`. -/
def runLines : RFSM → List PyStr → Except RunErr RFSM
  | fsm, [] => .ok fsm
  | fsm, l :: rest =>
    match fsm.CheckLine l with
    | .error e => .error e
    | .ok fsm1 =>
      if fsm1.cur_state_name == pyStr "End" || fsm1.cur_state_name == pyStr "EOF" then
        .ok fsm1
      else runLines fsm1 rest

/-- Python `str.splitlines()` boundaries (over the BMP characters the model
covers): `\n`, `\r` (with `\r\n` counting once), `\v`, `\f`, and the file,
group and record separators, next-line and the Unicode line/paragraph
separators. -/
def lineBoundary (c : Char) : Bool :=
  c = '\n' || c = '\r' || c = '\x0b' || c = '\x0c' ||
  c = '\x1c' || c = '\x1d' || c = '\x1e' || c = '\x85' ||
  c = '\u2028' || c = '\u2029'

/-- Fuse the two-character boundary `\r\n` into a single `\n`, so that the
boundary scan below can treat every boundary as one character. -/
def normCRLF : PyStr → PyStr
  | [] => []
  | '\r' :: '\n' :: rest => '\n' :: normCRLF rest
  | c :: rest => c :: normCRLF rest

def splitlinesGo (cur : PyStr) : PyStr → List PyStr
  | [] => if cur.isEmpty then [] else [cur.reverse]
  | c :: rest =>
    if lineBoundary c then cur.reverse :: splitlinesGo [] rest
    else splitlinesGo (c :: cur) rest

/-- Python `str.splitlines()`. -/
def pySplitlines (s : PyStr) : List PyStr := splitlinesGo [] (normCRLF s)

/-- `'EOF' in self.states`. -/
def RFSM.hasEOFState (fsm : RFSM) : Bool :=
  fsm.states.any (fun p => p.1 == pyStr "EOF")

/-- `TextFSM.ParseText` (returning the full post-state; the Python method
returns `self._result`, the `result` field of that state): split the text
with `splitlines` (an empty text yields no lines), run the line loop, then
perform the implicit EOF `Record` when the final state is not `End`, no
`EOF` state is declared, and `eof` is set. -/
def RFSM.ParseTextF (fsm : RFSM) (text : PyStr) (eof : Bool) : Except RunErr RFSM :=
  match runLines fsm (if text.isEmpty then [] else pySplitlines text) with
  | .error e => .error e
  | .ok f1 =>
    if !(f1.cur_state_name == pyStr "End") && !f1.hasEOFState && eof then
      .ok f1.AppendRecord
    else
      .ok f1

/-- `ParseText` given an explicit list of lines: the line loop followed by
the conditional implicit EOF record.  `ParseTextF` is this applied to the
`splitlines` of the text. -/
def RFSM.ParseLinesF (fsm : RFSM) (lines : List PyStr) (eof : Bool) : Except RunErr RFSM :=
  match runLines fsm lines with
  | .error e => .error e
  | .ok f1 =>
    if !(f1.cur_state_name == pyStr "End") && !f1.hasEOFState && eof then
      .ok f1.AppendRecord
    else
      .ok f1

/-! ### The constructor's file handling (`TextFSM.__init__`), for C10 -/

/-- A minimal readable template source: its lines and a read position. -/
structure Reader where
  lines : List PyStr
  pos : Nat

/-- `TextFSM.__init__`'s read of the template: parsing consumes the reader
from its current position; the `try/finally` around `self._Parse(template)`
seeks back to offset 0 on both the success and the error path. -/
def TextFSMInit (reOk : PyStr → Bool) (r : Reader) :
    Except TemplateErr FSMStruct × Reader :=
  (compileLines reOk (r.lines.drop r.pos), { r with pos := 0 })

/-! ## Specification-side definitions

The definitions below transcribe the *words of the specification claims*
(not the source).  Each is compared against the corresponding source-derived
definition in the theorems. -/

/-- Spec wording of the `Record` operation (claim C1): first `OnSaveRecord`
runs on every Value in order; if any signals skip-this-record, the row is
cleared (`ClearVar` on all Values) and nothing is appended; otherwise a row
is built in header order from each Value's current value (skipping values
that signal skip-value), the append is aborted when every element is `None`
or the empty list, remaining `None`s become empty strings, the row is
appended, and `ClearVar` then runs on all Values. -/
def RFSM.AppendRecordSpec (fsm : RFSM) : RFSM :=
  if ((fsm.values.map RValue.OnSaveRecord).map Prod.snd).contains (some Signal.SkipRecord) then
    { fsm with
        values := ((fsm.values.map RValue.OnSaveRecord).map Prod.fst).map RValue.ClearVar }
  else if rowIsEmpty ((fsm.values.map RValue.OnSaveRecord).filterMap (fun p =>
      if p.2 == some Signal.SkipValue then Option.none else some p.1.value)) then
    { fsm with values := (fsm.values.map RValue.OnSaveRecord).map Prod.fst }
  else
    { fsm with
        values := ((fsm.values.map RValue.OnSaveRecord).map Prod.fst).map RValue.ClearVar,
        result := fsm.result ++
          [((fsm.values.map RValue.OnSaveRecord).filterMap (fun p =>
            if p.2 == some Signal.SkipValue then Option.none else some p.1.value)).map
              noneToEmpty] }

/-- Spec wording of the pattern acceptance condition (claim C5), scanned as
the claim describes: a backslash escapes the following character, square
bracket character classes hide the parentheses inside them, and the whole
pattern must be one outermost unescaped `(...)` pair (so the depth of
unescaped parentheses outside classes first returns to zero exactly at the
final character, which also forces the unescaped `(`/`)` counts to be
equal).  The arguments are the remaining input, the current depth and the
in-class flag. -/
def specOuterScan : PyStr → Nat → Bool → Bool
  | [], _, _ => false
  | '\\' :: rest, d, inC =>
    match rest with
    | [] => false
    | _ :: rest2 => specOuterScan rest2 d inC
  | '[' :: rest, d, false => specOuterScan rest d true
  | ']' :: rest, d, true => specOuterScan rest d false
  | '(' :: rest, d, false => specOuterScan rest (d + 1) false
  | ')' :: rest, d, false =>
    if d = 1 then rest.isEmpty else specOuterScan rest (d - 1) false
  | _ :: rest, d, inC => specOuterScan rest d inC

/-- Claim C5's acceptance condition for a value pattern. -/
def specAccepted (s : PyStr) : Bool :=
  match s with
  | '(' :: rest => specOuterScan rest 1 false
  | _ => false

/-- The number of named groups `(?P<` in a regex source (claim C4 speaks of
"more than one named group"). -/
def countNamedGroups : PyStr → Nat
  | [] => 0
  | c :: rest =>
    (if pyStartsWith (pyStr "(?P<") (c :: rest) then 1 else 0) + countNamedGroups rest

/-- The amended wording of claim C4, transcribed: when the compiled pattern
has more than one group in total and the assigned value is not a string (the
`None` of a non-participating group), the assignment raises `TypeError`;
otherwise the `List` option appends the groupdict exactly when the total
group count (named or unnamed) exceeds one, the stored string re-matches the
pattern, and the match's groupdict is non-empty — in every other case it
appends the stored value itself. -/
def listOnAssignVarAmended (v : RValue) : Except RunErr RValue :=
  match v.value with
  | .str s =>
    let gdQ : Option (List (PyStr × Option PyStr)) :=
      if v.regex_groups > 1 then (v.regex_match s).filter (fun gd => !gd.isEmpty)
      else Option.none
    .ok { v with list_value := v.list_value ++
      [match gdQ with
       | some gd => .dict gd
       | none => entryOfValue v.value] }
  | _ =>
    if v.regex_groups > 1 then .error "expected string or bytes-like object"
    else .ok { v with list_value := v.list_value ++ [entryOfValue v.value] }

/-- Claim C7's reading of line splitting: split on the newline character,
with no trailing line terminator producing a trailing empty line. -/
def specSplitNL (s : PyStr) : List PyStr := dropTrailEmpty (pySplitChar '\n' s)

/-- The characters other than `'\n'` that `str.splitlines` treats as line
boundaries. -/
def otherBoundary (c : Char) : Bool := lineBoundary c && !(c = '\n')

/-- The part of a runtime value that determines it after a clear-all:
the mutable fields are canonicalized, except those private option fields
that are inert (never read or written) because their owning option is
absent. -/
def RValue.resetCore (v : RValue) : RValue :=
  { v with
      value := PyVal.none,
      filldown_value :=
        if v.options.contains TOpt.Filldown then PyVal.none else v.filldown_value,
      list_value := if v.options.contains TOpt.ListOpt then [] else v.list_value }

/-- The part of a runtime FSM that survives `Reset`: the values up to
clearing, and the state table. -/
def coreEq (f g : RFSM) : Prop :=
  f.values.map RValue.resetCore = g.values.map RValue.resetCore ∧ f.states = g.states

/-- A quoted new-state token (`\".*\"`, the second disjunct of
`NEWSTATE_RE`). -/
def quotedTok (s : PyStr) : Bool :=
  match s with
  | '"' :: rest => rest.getLast? == some '"'
  | _ => false

/-- The invariants of a compiled rule under which its canonical
serialization parses back to the rule itself (part of the amendment of
claim C8): the match starts with a caret (as `_ParseFSMState` requires) and
contains no newline; the operators are canonical operator names or absent;
the new state is absent, a word, or (under `Error`) a quoted token free of
newlines and of whitespace-`->` occurrences; `Continue` carries no new
state; a rule whose operators and new state are all absent (serialized with
no `->` action) has a match with no whitespace-`->` occurrence and no
trailing whitespace; a new state standing alone is not spelled like an
operator; and the stored compiled regex is the substitution of the match
under the value map (as `TextFSMRule.__init__` computes it), accepted by
`re.compile`. -/
def WFRule (vmap : List (PyStr × PyStr)) (reOk : PyStr → Bool) (r : SRule) : Prop :=
  r.rmatch.head? = some '^' ∧
  '\n' ∉ r.rmatch ∧
  (r.line_op = [] ∨ r.line_op ∈ lineOps) ∧
  (r.record_op = [] ∨ r.record_op ∈ recordOps) ∧
  (r.new_state = [] ∨ isWordName r.new_state = true ∨
    (r.line_op = pyStr "Error" ∧ quotedTok r.new_state = true ∧
      matchActionSplit r.new_state = none ∧ '\n' ∉ r.new_state)) ∧
  (r.line_op = pyStr "Continue" → r.new_state = []) ∧
  (r.line_op = [] → r.record_op = [] → r.new_state ≠ [] →
    r.new_state ∉ lineOps ∧ r.new_state ∉ recordOps) ∧
  (r.line_op = [] → r.record_op = [] → r.new_state = [] →
    matchActionSplit r.rmatch = none ∧ pyRstrip r.rmatch = r.rmatch) ∧
  (if vmap.isEmpty then Except.ok r.rmatch
   else templateSub vmap r.rmatch).toOption = some r.regex ∧
  reOk r.regex = true

/-- The invariants of a compiled value under which its canonical
serialization parses back to the value itself: a name free of spaces and
newlines, of length at most 48, not opening with `(` when options are
present; a newline-free parenthesized regex with balanced raw parenthesis
counts; the stored template as `TextFSMValue.Parse` computes it; and valid,
duplicate-free option names. -/
def WFValue (v : VValue) : Prop :=
  ' ' ∉ v.name ∧ '\n' ∉ v.name ∧ v.name.length ≤ 48 ∧
  '\n' ∉ v.regex ∧
  wrappedInParens v.regex = true ∧ countChar '(' v.regex = countChar ')' v.regex ∧
  v.template = makeTemplate v.name v.regex ∧
  (∀ o ∈ v.options, o ∈ validOptionNames) ∧ v.options.Nodup ∧
  (v.options ≠ [] → pyStartsWith (pyStr "(") v.name = false)

/-- The well-formedness invariants of a compiled template under which its
canonical serialization compiles back to the same structure (the amendment
of claim C8): well-formed values with distinct names and the matching value
map; states and state list aligned, duplicate-free, word-named, of bounded
length, not named after an operator; `Start` declared, `End` absent (the
validator removed it), a declared `EOF` state empty; and well-formed rules
whose explicit jump targets are declared. -/
def WFFSM (reOk : PyStr → Bool) (f : FSMStruct) : Prop :=
  (∀ v ∈ f.values, WFValue v) ∧
  (f.values.map VValue.name).Nodup ∧
  f.value_map = f.values.map (fun v => (v.name, v.template)) ∧
  f.states.map Prod.fst = f.state_list ∧
  f.state_list.Nodup ∧
  (∀ s ∈ f.state_list,
    isWordName s = true ∧ s.length ≤ 48 ∧ s ∉ lineOps ∧ s ∉ recordOps) ∧
  pyStr "Start" ∈ f.state_list ∧
  pyStr "End" ∉ f.state_list ∧
  (lookupState f.states (pyStr "EOF")).getD [] = [] ∧
  (∀ p ∈ f.states, ∀ r ∈ p.2,
    WFRule f.value_map reOk r ∧
    (r.line_op ≠ pyStr "Error" → r.new_state ≠ [] → r.new_state ≠ pyStr "End" →
      r.new_state ≠ pyStr "EOF" → r.new_state ∈ f.state_list))

/-- The serialized template (`TextFSM.__str__`), as the list of its lines:
the value lines (one blank line when there is no value), then, per state, a
blank line, the state header and the rule lines; a final empty piece
follows when the string is split, since it ends with a newline. -/
def serialLines (f : FSMStruct) : List PyStr :=
  (if f.values.isEmpty then [[]] else f.values.map serializeValue) ++
  (f.state_list.map (fun s =>
    [] :: s :: ((lookupState f.states s).getD []).map serializeRule)).flatten

/-! ## Concrete instances used by witnesses and counterexamples -/

/-- The trivially-true regex-compilation oracle: every regex appearing in
the concrete templates below compiles in Python. -/
def reAllOk : PyStr → Bool := fun _ => true

/-- The match function of the compiled rule regex `^(?P<boo>.*)`: it matches
every newline-free line, capturing the whole line as `boo`. -/
def matchAllBoo : PyStr → Option (List (PyStr × Option PyStr)) :=
  fun l => some [(pyStr "boo", some l)]

/-- A runtime value `Value boo (.*)`. -/
def exBoo : RValue :=
  { name := pyStr "boo", options := [], regex := pyStr "(.*)",
    value := PyVal.none, filldown_value := PyVal.none, list_value := [],
    regex_groups := 1, regex_match := fun _ => none }

/-- The runtime rule `^$boo -> Next.Record`. -/
def exRuleRec : RRule :=
  { line_op := pyStr "Next", record_op := pyStr "Record", new_state := [],
    regex_match := matchAllBoo }

/-- The compiled runtime FSM of the template
`Value boo (.*)` / `Start` / `  ^$boo -> Next.Record`. -/
def exFSM : RFSM :=
  { values := [exBoo], states := [(pyStr "Start", [exRuleRec])],
    cur_state := [exRuleRec], cur_state_name := pyStr "Start", result := [] }

/-- A `List` value `Value List v ((?P<x>\w+))`: the compiled regex
`((?P<x>\w+))` has two groups in total and one named group; on an all-word
non-empty string it matches with groupdict `{'x': s}` (the concrete C4
counterexample evaluates it only on such a string). -/
def exC4v : RValue :=
  { name := pyStr "v", options := [TOpt.ListOpt],
    regex := pyStr "((?P<x>\\w+))",
    value := PyVal.str (pyStr "ab"), filldown_value := PyVal.none,
    list_value := [], regex_groups := 2,
    regex_match := fun s =>
      if !s.isEmpty && s.all isWordChar then some [(pyStr "x", some s)]
      else Option.none }

/-- The post-line-loop state of `exFSM` on the single input line `a`
(used to instantiate the C2 theorem at a concrete input). -/
def exC2f1 : RFSM := (runLines exFSM [pyStr "a"]).toOption.getD exFSM

/-- The post-`ParseText` state of `exFSM` on the input `boo` (used to
instantiate the C3 theorem at a concrete input). -/
def exC3f1 : RFSM := (RFSM.ParseTextF exFSM (pyStr "boo") true).toOption.getD exFSM

/-- The template source of the C8 counterexample. -/
def exC8src : PyStr := pyStr "Value v (.*)\n\nStart\n  ^a -> b ->\n"

/-- The template source of the C6 counterexample: its value name `foo-bar`
does not match `^\w+$`. -/
def exC6src : PyStr := pyStr "Value foo-bar (.*)\n\nStart\n  ^.*\n"

/-- A template whose compiled form is well-formed and clean (the C8
witness). -/
def exC8good : PyStr :=
  pyStr "Value Required boo (\\d+)\n\nStart\n  ^$boo -> Next.Record End\n\nEnd\n"

/-- The compiled form of `exC8good`. -/
def exC8fsm : FSMStruct :=
  (compileStr reAllOk exC8good).toOption.getD
    { values := [], value_map := [], states := [], state_list := [] }

/-! ## Helper lemmas -/

theorem pySplitChar_ne_nil (sep : Char) (s : PyStr) : pySplitChar sep s ≠ [] := by
  cases s with
  | nil => simp [pySplitChar]
  | cons c rest =>
    unfold pySplitChar
    cases pySplitChar sep rest with
    | nil => simp
    | cons x t => by_cases hc : c = sep <;> simp [hc]

theorem pySplitChar_sep_cons (sep : Char) (b : PyStr) :
    pySplitChar sep (sep :: b) = [] :: pySplitChar sep b := by
  simp only [pySplitChar]
  cases h : pySplitChar sep b with
  | nil => exact absurd h (pySplitChar_ne_nil sep b)
  | cons x t => simp

theorem pySplitChar_cons_ne (sep c : Char) (b : PyStr) (hc : c ≠ sep) :
    pySplitChar sep (c :: b) =
      (c :: (pySplitChar sep b).headD []) :: (pySplitChar sep b).tail := by
  simp only [pySplitChar]
  cases h : pySplitChar sep b with
  | nil => exact absurd h (pySplitChar_ne_nil sep b)
  | cons x t => simp [hc]

theorem pySplitChar_append_sep (sep : Char) (a b : PyStr) (ha : ∀ c ∈ a, c ≠ sep) :
    pySplitChar sep (a ++ sep :: b) = a :: pySplitChar sep b := by
  induction a with
  | nil => simpa using pySplitChar_sep_cons sep b
  | cons c a ih =>
    have hc : c ≠ sep := ha c (by simp)
    have ih2 := ih (fun x hx => ha x (by simp [hx]))
    simp only [List.cons_append]
    rw [pySplitChar_cons_ne sep c _ hc, ih2]
    simp

theorem intercalate_cons₂ (s a b : PyStr) (t : List PyStr) :
    List.intercalate s (a :: b :: t) = a ++ s ++ List.intercalate s (b :: t) := by
  simp [List.intercalate]

theorem intercalate_pySplitChar (sep : Char) (s : PyStr) :
    List.intercalate [sep] (pySplitChar sep s) = s := by
  induction s with
  | nil => simp [pySplitChar, List.intercalate]
  | cons c rest ih =>
    by_cases hc : c = sep
    · subst hc
      rw [pySplitChar_sep_cons]
      cases h : pySplitChar c rest with
      | nil => exact absurd h (pySplitChar_ne_nil c rest)
      | cons x t =>
        rw [h] at ih
        rw [intercalate_cons₂, ih]
        simp
    · rw [pySplitChar_cons_ne sep c rest hc]
      cases h : pySplitChar sep rest with
      | nil => exact absurd h (pySplitChar_ne_nil sep rest)
      | cons x t =>
        rw [h] at ih
        simp only [List.headD_cons, List.tail_cons]
        cases t with
        | nil => simpa [List.intercalate] using congrArg (c :: ·) ih
        | cons y t2 =>
          rw [intercalate_cons₂] at ih ⊢
          simpa using congrArg (c :: ·) ih

theorem pySplitChar_headD (sep : Char) (s : PyStr) :
    (pySplitChar sep s).headD [] = s.takeWhile (fun c => !(c == sep)) := by
  induction s with
  | nil => simp [pySplitChar]
  | cons c rest ih =>
    by_cases hc : c = sep
    · subst hc; rw [pySplitChar_sep_cons]; simp [List.takeWhile_cons]
    · rw [pySplitChar_cons_ne sep c rest hc]
      cases h : pySplitChar sep rest with
      | nil => exact absurd h (pySplitChar_ne_nil sep rest)
      | cons x t =>
        rw [h] at ih
        simp only [List.headD_cons, List.tail_cons] at ih ⊢
        simp [List.takeWhile_cons, hc, ← ih]

theorem pyStartsWith_append (p r : PyStr) : pyStartsWith p (p ++ r) = true := by
  rw [pyStartsWith, List.isPrefixOf_iff_prefix]
  exact List.prefix_append p r

theorem pyRstrip_eq_self (s : PyStr) (h : ∀ c, s.getLast? = some c → isPySpace c = false) :
    pyRstrip s = s := by
  unfold pyRstrip
  cases hs : s.reverse with
  | nil =>
    have h0 : s = [] := by simpa using congrArg List.reverse hs
    subst h0
    rfl
  | cons c t =>
    have hlast : s.getLast? = some c := by
      rw [← List.head?_reverse, hs]; rfl
    rw [List.dropWhile_cons, h c hlast]
    simp only [Bool.false_eq_true, if_false]
    have h1 : s = (c :: t).reverse := by simpa using congrArg List.reverse hs
    rw [← h1]

/-! ## C10: the constructor restores the read position -/

/-- C10: constructing a `TextFSM` restores the template source's read
position to offset 0 on every exit path — the pair returned by the model of
`__init__` carries the parse outcome of reading from the current position
(success or template error alike) together with a reader whose position is
0. -/
theorem c10_init_restores_position (reOk : PyStr → Bool) (r : Reader) :
    (TextFSMInit reOk r).2.pos = 0 ∧
    (TextFSMInit reOk r).1 = compileLines reOk (r.lines.drop r.pos) :=
  ⟨rfl, rfl⟩

/-! ## C2: the implicit EOF record -/

/-- C2: `ParseText(text, eof)` performs exactly one implicit `Record`
(`_AppendRecord`) after the line loop if and only if the state after the
loop is not `End`, no `EOF` state is declared, and `eof` is true; otherwise
the post-loop state is returned unchanged. -/
theorem c2_implicit_eof_record (fsm : RFSM) (text : PyStr) (eof : Bool) (f1 : RFSM)
    (h : runLines fsm (if text.isEmpty then [] else pySplitlines text) = .ok f1) :
    fsm.ParseTextF text eof =
      .ok (if !(f1.cur_state_name == pyStr "End") && !f1.hasEOFState && eof
           then f1.AppendRecord else f1) := by
  unfold RFSM.ParseTextF
  rw [h]
  show (if !(f1.cur_state_name == pyStr "End") && !f1.hasEOFState && eof
        then Except.ok f1.AppendRecord else Except.ok f1) = _
  cases hb : !(f1.cur_state_name == pyStr "End") && !f1.hasEOFState && eof <;> simp

theorem c2_implicit_eof_record_witness :
    exFSM.ParseTextF (pyStr "a") true =
      .ok (if !(exC2f1.cur_state_name == pyStr "End") && !exC2f1.hasEOFState && true
           then exC2f1.AppendRecord else exC2f1) :=
  c2_implicit_eof_record exFSM (pyStr "a") true exC2f1 (by rfl)

/-! ## C9: Reset -/

theorem foldClearAll_value (opts : List TOpt) (w : RValue) (h : w.value = PyVal.none) :
    (opts.foldl optOnClearAllVar w).value = PyVal.none := by
  induction opts generalizing w with
  | nil => exact h
  | cons o rest ih =>
    apply ih
    cases o <;> simp [optOnClearAllVar, h]

theorem foldClearAll_options (opts : List TOpt) (w : RValue) :
    (opts.foldl optOnClearAllVar w).options = w.options := by
  induction opts generalizing w with
  | nil => rfl
  | cons o rest ih =>
    rw [List.foldl_cons, ih]
    cases o <;> simp [optOnClearAllVar]

theorem optClearAll_filldown_ne (w : RValue) (o : TOpt) (ho : o ≠ TOpt.Filldown) :
    (optOnClearAllVar w o).filldown_value = w.filldown_value := by
  cases o <;> first | exact absurd rfl ho | simp [optOnClearAllVar]

theorem optClearAll_list_ne (w : RValue) (o : TOpt) (ho : o ≠ TOpt.ListOpt) :
    (optOnClearAllVar w o).list_value = w.list_value := by
  cases o <;> first | exact absurd rfl ho | simp [optOnClearAllVar]

theorem foldClearAll_filldown (opts : List TOpt) (w : RValue)
    (h : TOpt.Filldown ∈ opts ∨ w.filldown_value = PyVal.none) :
    (opts.foldl optOnClearAllVar w).filldown_value = PyVal.none := by
  induction opts generalizing w with
  | nil => simpa using h
  | cons o rest ih =>
    rw [List.foldl_cons]
    by_cases ho : o = TOpt.Filldown
    · subst ho
      exact ih _ (Or.inr (by simp [optOnClearAllVar]))
    · refine ih _ ?_
      rcases h with h | h
      · rcases List.mem_cons.mp h with h1 | h1
        · exact absurd h1.symm ho
        · exact Or.inl h1
      · exact Or.inr (by rw [optClearAll_filldown_ne w o (fun he => ho he), h])

theorem foldClearAll_list (opts : List TOpt) (w : RValue)
    (h : TOpt.ListOpt ∈ opts ∨ w.list_value = []) :
    (opts.foldl optOnClearAllVar w).list_value = [] := by
  induction opts generalizing w with
  | nil => simpa using h
  | cons o rest ih =>
    rw [List.foldl_cons]
    by_cases ho : o = TOpt.ListOpt
    · subst ho
      exact ih _ (Or.inr (by simp [optOnClearAllVar]))
    · refine ih _ ?_
      rcases h with h | h
      · rcases List.mem_cons.mp h with h1 | h1
        · exact absurd h1.symm ho
        · exact Or.inl h1
      · exact Or.inr (by rw [optClearAll_list_ne w o (fun he => ho he), h])

theorem clearAllVar_fields (v : RValue) :
    (v.ClearAllVar).value = PyVal.none ∧
    (v.ClearAllVar).options = v.options ∧
    (TOpt.Filldown ∈ v.options → (v.ClearAllVar).filldown_value = PyVal.none) ∧
    (TOpt.ListOpt ∈ v.options → (v.ClearAllVar).list_value = []) := by
  unfold RValue.ClearAllVar
  refine ⟨foldClearAll_value _ _ rfl, foldClearAll_options _ _, ?_, ?_⟩
  · intro hmem; exact foldClearAll_filldown _ _ (Or.inl hmem)
  · intro hmem; exact foldClearAll_list _ _ (Or.inl hmem)

/-- C9: after `Reset()`, the current state is `Start` (both the name and the
rule-list pointer), the result list is empty, and every value has been
cleared along its clear-all path: `value` is `None`, the Filldown
previous-value memory is `None` (when the value has the option), and List
accumulators are empty (when the value has the option). -/
theorem c9_reset (fsm : RFSM) :
    (fsm.Reset).cur_state_name = pyStr "Start" ∧
    (fsm.Reset).cur_state = (lookupRState fsm.states (pyStr "Start")).getD [] ∧
    (fsm.Reset).result = [] ∧
    ∀ v ∈ (fsm.Reset).values,
      v.value = PyVal.none ∧
      (TOpt.Filldown ∈ v.options → v.filldown_value = PyVal.none) ∧
      (TOpt.ListOpt ∈ v.options → v.list_value = []) := by
  refine ⟨rfl, rfl, rfl, ?_⟩
  intro v hv
  have hv2 : v ∈ fsm.values.map RValue.ClearAllVar := hv
  rw [List.mem_map] at hv2
  obtain ⟨w, _, rfl⟩ := hv2
  obtain ⟨h1, h2, h3, h4⟩ := clearAllVar_fields w
  rw [h2]
  exact ⟨h1, h3, h4⟩

theorem c9_reset_witness :
    (exFSM.Reset).result = [] ∧ (exBoo.ClearAllVar).value = PyVal.none := by
  refine ⟨(c9_reset exFSM).2.2.1, ?_⟩
  have h := (c9_reset exFSM).2.2.2 exBoo.ClearAllVar ?_
  · exact h.1
  · show exBoo.ClearAllVar ∈ (exFSM.Reset).values
    exact List.mem_singleton_self _

/-! ## C1: the Record operation -/

theorem optSave_erase (v : RValue) (o : TOpt) :
    ({ (optOnSaveRecord v o).1 with value := PyVal.none } : RValue)
      = { v with value := PyVal.none } := by
  cases o <;> rfl

theorem saveGo_erase (opts : List TOpt) (v : RValue) :
    ({ (saveRecordGo opts v).1 with value := PyVal.none } : RValue)
      = { v with value := PyVal.none } := by
  induction opts generalizing v with
  | nil => rfl
  | cons o rest ih =>
    unfold saveRecordGo
    rcases hso : optOnSaveRecord v o with ⟨v1, sig⟩
    have h1 : ({ v1 with value := PyVal.none } : RValue) = { v with value := PyVal.none } := by
      have h2 := optSave_erase v o
      rw [hso] at h2
      exact h2
    cases sig with
    | none => exact (ih v1).trans h1
    | some s => exact h1

theorem clearVar_congr {v w : RValue}
    (h : ({ v with value := PyVal.none } : RValue) = { w with value := PyVal.none }) :
    v.ClearVar = w.ClearVar := by
  show ({ v with value := PyVal.none } : RValue).options.foldl optOnClearVar
        { v with value := PyVal.none } = _
  rw [h]
  rfl

/-- After `OnSaveRecord`, clearing a value gives the same result as clearing
the original: the save callbacks only mutate the `value` field, which
`ClearVar` overwrites. -/
theorem save_clearVar (v : RValue) :
    ((v.OnSaveRecord).1).ClearVar = v.ClearVar :=
  clearVar_congr (saveGo_erase v.options v)

theorem saveLoop_error (l : List RValue) (vs : List RValue) (h : saveLoop l = .error vs) :
    (l.map (fun v => (v.OnSaveRecord).2)).contains (some Signal.SkipRecord) = true ∧
    vs.map RValue.ClearVar = (l.map (fun v => (v.OnSaveRecord).1)).map RValue.ClearVar := by
  induction l generalizing vs with
  | nil => simp [saveLoop] at h
  | cons v rest ih =>
    unfold saveLoop at h
    rcases hso : v.OnSaveRecord with ⟨v1, sig⟩
    rw [hso] at h
    cases sig with
    | some s =>
      cases s with
      | SkipRecord =>
        simp only at h
        injection h with h
        subst h
        constructor
        · simp [hso]
        · simp only [List.map_cons, List.map_map]
          have hv1 : v1 = (v.OnSaveRecord).1 := by rw [hso]
          rw [hv1]
          exact congrArg (List.cons _)
            (List.map_congr_left (fun w _ => (save_clearVar w).symm))
      | SkipValue =>
        simp only at h
        cases hsl : saveLoop rest with
        | error vs2 =>
          rw [hsl] at h
          injection h with h
          subst h
          obtain ⟨ih1, ih2⟩ := ih vs2 hsl
          constructor
          · simp only [List.map_cons, List.contains_cons]
            rw [ih1]; simp
          · simp only [List.map_cons]
            rw [show v1 = (v.OnSaveRecord).1 by rw [hso]]
            rw [ih2]
        | ok p =>
          rw [hsl] at h
          simp at h
    | none =>
      simp only at h
      cases hsl : saveLoop rest with
      | error vs2 =>
        rw [hsl] at h
        injection h with h
        subst h
        obtain ⟨ih1, ih2⟩ := ih vs2 hsl
        constructor
        · simp only [List.map_cons, List.contains_cons]
          rw [ih1]; simp
        · simp only [List.map_cons]
          rw [show v1 = (v.OnSaveRecord).1 by rw [hso]]
          rw [ih2]
      | ok p =>
        rw [hsl] at h
        simp at h

theorem saveLoop_ok (l : List RValue) (vs : List RValue) (row : List PyVal)
    (h : saveLoop l = .ok (vs, row)) :
    (l.map (fun v => (v.OnSaveRecord).2)).contains (some Signal.SkipRecord) = false ∧
    vs = l.map (fun v => (v.OnSaveRecord).1) ∧
    row = (l.map RValue.OnSaveRecord).filterMap (fun p =>
      if p.2 == some Signal.SkipValue then Option.none else some p.1.value) := by
  induction l generalizing vs row with
  | nil =>
    simp [saveLoop] at h
    simp [h.1, h.2]
  | cons v rest ih =>
    unfold saveLoop at h
    rcases hso : v.OnSaveRecord with ⟨v1, sig⟩
    rw [hso] at h
    cases sig with
    | some s =>
      cases s with
      | SkipRecord => simp at h
      | SkipValue =>
        simp only at h
        cases hsl : saveLoop rest with
        | error vs2 => rw [hsl] at h; simp at h
        | ok p =>
          rw [hsl] at h
          injection h with h
          obtain ⟨vs2, row2⟩ := p
          injection h with h1 h2
          subst h1; subst h2
          obtain ⟨ih1, ih2, ih3⟩ := ih vs2 row2 hsl
          refine ⟨?_, ?_, ?_⟩
          · simp only [List.map_cons, List.contains_cons, hso, ih1]
            rfl
          · simp [hso, ih2]
          · simp [hso, List.filterMap_cons, ih3]
    | none =>
      simp only at h
      cases hsl : saveLoop rest with
      | error vs2 => rw [hsl] at h; simp at h
      | ok p =>
        rw [hsl] at h
        injection h with h
        obtain ⟨vs2, row2⟩ := p
        injection h with h1 h2
        subst h1; subst h2
        obtain ⟨ih1, ih2, ih3⟩ := ih vs2 row2 hsl
        refine ⟨?_, ?_, ?_⟩
        · simp only [List.map_cons, List.contains_cons, hso, ih1]
          rfl
        · simp [hso, ih2]
        · simp [hso, List.filterMap_cons, ih3]

/-- C1: `_AppendRecord` behaves exactly as the specification describes the
`Record` operation, for every template with at least one Value: the
interleaved loop of the source (which stops running `OnSaveRecord` at the
first skip-record signal) is equivalent to the specification reading that
runs `OnSaveRecord` on every Value first and then clears or emits. -/
theorem c1_append_record (fsm : RFSM) (h : fsm.values ≠ []) :
    fsm.AppendRecord = fsm.AppendRecordSpec := by
  unfold RFSM.AppendRecord RFSM.AppendRecordSpec
  rw [if_neg (by simpa using h)]
  cases hsl : saveLoop fsm.values with
  | error vs =>
    obtain ⟨h1, h2⟩ := saveLoop_error fsm.values vs hsl
    have hcontains :
        ((fsm.values.map RValue.OnSaveRecord).map Prod.snd).contains
          (some Signal.SkipRecord) = true := by
      rw [List.map_map]; exact h1
    rw [hcontains]
    simp only [if_true]
    rw [h2, List.map_map]
    simp [List.map_map, Function.comp_def]
  | ok p =>
    obtain ⟨vs, row⟩ := p
    obtain ⟨h1, h2, h3⟩ := saveLoop_ok fsm.values vs row hsl
    have hcontains :
        ((fsm.values.map RValue.OnSaveRecord).map Prod.snd).contains
          (some Signal.SkipRecord) = false := by
      rw [List.map_map]; exact h1
    rw [hcontains]
    simp only [Bool.false_eq_true, if_false]
    rw [h3, h2, List.map_map]
    simp [List.map_map, Function.comp_def]

theorem c1_append_record_witness :
    exFSM.AppendRecord = exFSM.AppendRecordSpec :=
  c1_append_record exFSM (by simp [exFSM])

/-! ## C3: successive ParseText calls accumulate (counterexample) -/

/-- C3 counterexample: on the FSM compiled from
`Value boo (.*)` / `Start` / `  ^$boo -> Next.Record`, parsing `"a"` and
then `"b"` with two successive whole-text `ParseText` calls returns
`[["a"], ["b"]]` — the second call begins in the state left by the first
and appends to the same result buffer — while a restarted FSM returns
`[["b"]]`; so the second call's rows are not those produced from its own
input alone. -/
theorem c3_counterexample :
    ((exFSM.ParseTextF (pyStr "a") true).bind
        (fun f1 => f1.ParseTextF (pyStr "b") true)).map RFSM.result =
      .ok [[PyVal.str (pyStr "a")], [PyVal.str (pyStr "b")]] ∧
    (exFSM.ParseTextF (pyStr "b") true).map RFSM.result =
      .ok [[PyVal.str (pyStr "b")]] ∧
    ([[PyVal.str (pyStr "a")], [PyVal.str (pyStr "b")]] : List (List PyVal)) ≠
      [[PyVal.str (pyStr "b")]] :=
  ⟨rfl, rfl, by decide⟩

/-! ## C7: line splitting (counterexample) -/

/-- C7 counterexample: the claim says only `'\n'` separates lines, but
`ParseText` uses `str.splitlines`, for which `'\r'` is also a boundary: on
the input `"a\rb"` the code feeds `CheckLine` the two lines `a` and `b`
(two records), while splitting on `'\n'` alone would feed the single line
`a\rb` (one record). -/
theorem c7_counterexample :
    (exFSM.ParseTextF (pyStr "a\rb") true).map RFSM.result =
      .ok [[PyVal.str (pyStr "a")], [PyVal.str (pyStr "b")]] ∧
    (exFSM.ParseLinesF (specSplitNL (pyStr "a\rb")) true).map RFSM.result =
      .ok [[PyVal.str (pyStr "a\rb")]] ∧
    ([[PyVal.str (pyStr "a")], [PyVal.str (pyStr "b")]] : List (List PyVal)) ≠
      [[PyVal.str (pyStr "a\rb")]] :=
  ⟨rfl, rfl, by decide⟩

/-! ## C4: List option assignment -/

/-- C4 counterexample: the value `Value List v ((?P<x>\w+))` has exactly one
named group, so by the claim an assignment should append the matched string
itself; but the code tests `compiled_regex.groups > 1` — the *total* group
count, here 2 — and appends the groupdict. -/
theorem c4_counterexample :
    countNamedGroups exC4v.regex = 1 ∧
    (listOnAssignVar exC4v).map (fun v => v.list_value) =
      .ok [Entry.dict [(pyStr "x", some (pyStr "ab"))]] ∧
    Entry.dict [(pyStr "x", some (pyStr "ab"))] ≠ Entry.str (pyStr "ab") :=
  ⟨by decide, rfl, by decide⟩

/-- C4 amended: on each assignment the `List` option raises `TypeError` when
the pattern's total group count exceeds one and the assigned value is not a
string; otherwise it appends the groupdict exactly when the total group
count (named or unnamed) exceeds one, the stored string re-matches the
pattern, and the match's groupdict is non-empty, and in every other case it
appends the stored value itself. -/
theorem c4_amended (v : RValue) : listOnAssignVar v = listOnAssignVarAmended v := by
  unfold listOnAssignVar listMatchRes listEntry listOnAssignVarAmended
  cases hv : v.value with
  | str s =>
    by_cases hg : v.regex_groups > 1
    · simp only [hg, if_true]
      cases hm : v.regex_match s with
      | none => simp [Option.filter, hm]
      | some gd =>
        by_cases hgd : gd.isEmpty
        · simp [Option.filter, hm, hgd, hv, entryOfValue]
        · simp [Option.filter, hm, hgd]
    · simp [hg]
  | none =>
    by_cases hg : v.regex_groups > 1
    · simp [hg]
    · simp [hg, entryOfValue]
  | list l =>
    by_cases hg : v.regex_groups > 1
    · simp [hg]
    · simp [hg, entryOfValue]

/-! ## C7 amended: splitlines versus splitting on the newline character -/

theorem normCRLF_cons_ne (c : Char) (rest : PyStr) (hc : c ≠ '\r') :
    normCRLF (c :: rest) = c :: normCRLF rest := by
  rw [normCRLF.eq_def]
  split
  · rename_i heq
    exact absurd heq (by simp)
  · rename_i heq
    injection heq with h1 _
    exact absurd h1 hc
  · rename_i heq
    injection heq with h1 h2
    rw [← h1, ← h2]

theorem normCRLF_eq_self (s : PyStr) (h : ∀ c ∈ s, c ≠ '\r') : normCRLF s = s := by
  induction s with
  | nil => rfl
  | cons c rest ih =>
    rw [normCRLF_cons_ne c rest (h c (by simp))]
    rw [ih (fun x hx => h x (by simp [hx]))]

theorem dropTrailEmpty_cons₂ (a b : PyStr) (t : List PyStr) :
    dropTrailEmpty (a :: b :: t) = a :: dropTrailEmpty (b :: t) := by
  unfold dropTrailEmpty
  rw [List.getLast?_cons_cons]
  split <;> simp

theorem splitlinesGo_split (s : PyStr) (cur : PyStr)
    (h : ∀ c ∈ s, otherBoundary c = false) :
    splitlinesGo cur s =
      dropTrailEmpty ((cur.reverse ++ (pySplitChar '\n' s).headD []) ::
        (pySplitChar '\n' s).tail) := by
  induction s generalizing cur with
  | nil =>
    show (if cur.isEmpty then [] else [cur.reverse]) = _
    cases cur with
    | nil => rfl
    | cons a as =>
      show [(a :: as).reverse] = _
      simp [dropTrailEmpty, pySplitChar]
  | cons c rest ih =>
    have hco : otherBoundary c = false := h c (by simp)
    have hrest : ∀ x ∈ rest, otherBoundary x = false := fun x hx => h x (by simp [hx])
    by_cases hc : c = '\n'
    · subst hc
      have hb : lineBoundary '\n' = true := by decide
      show (if lineBoundary '\n' then cur.reverse :: splitlinesGo [] rest
            else splitlinesGo ('\n' :: cur) rest) = _
      rw [hb, if_pos rfl]
      rw [ih [] hrest]
      rw [pySplitChar_sep_cons]
      cases hsp : pySplitChar '\n' rest with
      | nil => exact absurd hsp (pySplitChar_ne_nil _ _)
      | cons x t =>
        simp only [List.headD_cons, List.tail_cons, List.reverse_nil, List.nil_append,
          List.append_nil]
        exact (dropTrailEmpty_cons₂ cur.reverse x t).symm
    · have hb : lineBoundary c = false := by
        have := hco
        unfold otherBoundary at this
        cases hlb : lineBoundary c with
        | false => rfl
        | true => simp [hlb, hc] at this
      show (if lineBoundary c then cur.reverse :: splitlinesGo [] rest
            else splitlinesGo (c :: cur) rest) = _
      rw [hb]
      simp only [Bool.false_eq_true, if_false]
      rw [ih (c :: cur) hrest]
      rw [pySplitChar_cons_ne '\n' c rest hc]
      cases hsp : pySplitChar '\n' rest with
      | nil => exact absurd hsp (pySplitChar_ne_nil _ _)
      | cons x t =>
        simp only [List.headD_cons, List.tail_cons, List.reverse_cons]
        rw [List.append_assoc]
        rfl

/-- Under the no-other-boundary hypothesis, `str.splitlines` agrees with the
claim's newline splitting. -/
theorem pySplitlines_eq_specSplitNL (s : PyStr)
    (h : ∀ c ∈ s, otherBoundary c = false) :
    pySplitlines s = specSplitNL s := by
  unfold pySplitlines specSplitNL
  have hr : ∀ c ∈ s, c ≠ '\r' := by
    intro c hc he
    have := h c hc
    rw [he] at this
    simp [otherBoundary, lineBoundary] at this
  rw [normCRLF_eq_self s hr, splitlinesGo_split s [] h]
  cases hsp : pySplitChar '\n' s with
  | nil => exact absurd hsp (pySplitChar_ne_nil _ _)
  | cons x t => simp

/-- C7 amended: `ParseText` feeds `CheckLine` the `str.splitlines` pieces of
the text; when the text contains no line-boundary character other than
`'\n'`, these are exactly the pieces obtained by splitting on the newline
character with no trailing terminator kept — in general (see the
counterexample) `'\r'` and the other `splitlines` boundaries also separate
lines. -/
theorem c7_amended (fsm : RFSM) (text : PyStr) (eof : Bool)
    (h : ∀ c ∈ text, otherBoundary c = false) :
    fsm.ParseTextF text eof = fsm.ParseLinesF (specSplitNL text) eof := by
  unfold RFSM.ParseTextF RFSM.ParseLinesF
  have hlines : (if text.isEmpty then [] else pySplitlines text) = specSplitNL text := by
    cases text with
    | nil => rfl
    | cons c rest =>
      show pySplitlines (c :: rest) = _
      exact pySplitlines_eq_specSplitNL _ h
  rw [hlines]

theorem c7_amended_witness :
    exFSM.ParseTextF (pyStr "a") true = exFSM.ParseLinesF (specSplitNL (pyStr "a")) true :=
  c7_amended exFSM (pyStr "a") true (by decide)

/-! ## C5 and C6: Value declaration parsing -/

theorem pySplitChar_single (sep : Char) (s : PyStr) (h : ∀ c ∈ s, c ≠ sep) :
    pySplitChar sep s = [s] := by
  induction s with
  | nil => rfl
  | cons c rest ih =>
    rw [pySplitChar_cons_ne sep c rest (h c (by simp))]
    rw [ih (fun x hx => h x (by simp [hx]))]
    rfl

theorem valueLine_toks (name pat : PyStr) (hn : ∀ c ∈ name, c ≠ ' ') :
    pySplitChar ' ' (pyStr "Value " ++ name ++ [' '] ++ pat) =
      pyStr "Value" :: name :: pySplitChar ' ' pat := by
  have e1 : pyStr "Value " ++ name ++ [' '] ++ pat =
      pyStr "Value" ++ (' ' :: (name ++ (' ' :: pat))) := by
    rw [show pyStr "Value " = pyStr "Value" ++ [' '] from rfl]
    simp [List.append_assoc]
  rw [e1]
  rw [pySplitChar_append_sep ' ' (pyStr "Value") _ (by decide)]
  rw [pySplitChar_append_sep ' ' name pat hn]

theorem valueParse_noopt (maxNameLen : Nat) (name pat pr : PyStr)
    (hn : ∀ c ∈ name, c ≠ ' ') (hpat : pat = '(' :: pr) :
    valueParse maxNameLen (pyStr "Value " ++ name ++ [' '] ++ pat) =
      valueParseChecks maxNameLen [] name pat := by
  unfold valueParse
  rw [valueLine_toks name pat hn]
  have hsp := pySplitChar_ne_nil ' ' pat
  have hlen : ¬ ((pyStr "Value" :: name :: pySplitChar ' ' pat).length < 3) := by
    cases h : pySplitChar ' ' pat with
    | nil => exact absurd h hsp
    | cons x t => simp [h]
  rw [if_neg hlen]
  have hg2 : (pyStr "Value" :: name :: pySplitChar ' ' pat).getD 2 [] =
      (pySplitChar ' ' pat).headD [] := by
    cases pySplitChar ' ' pat <;> simp [List.getD]
  have hstart : pyStartsWith (pyStr "(") ((pySplitChar ' ' pat).headD []) = true := by
    rw [pySplitChar_headD, hpat, List.takeWhile_cons]
    simp [pyStartsWith, List.isPrefixOf]
  rw [hg2, hstart]
  simp only [Bool.not_true, Bool.false_eq_true, if_false]
  have hg1 : (pyStr "Value" :: name :: pySplitChar ' ' pat).getD 1 [] = name := rfl
  have hd2 : (pyStr "Value" :: name :: pySplitChar ' ' pat).drop 2 = pySplitChar ' ' pat := rfl
  rw [hg1, hd2, show pyStr " " = [' '] from rfl, intercalate_pySplitChar]

theorem valueParse_opt_err (maxNameLen : Nat) (name pat : PyStr)
    (hn : ∀ c ∈ name, c ≠ ' ') (hcm : ∀ c ∈ name, c ≠ ',')
    (hopt : name ∉ validOptionNames)
    (hstart : pyStartsWith (pyStr "(") ((pySplitChar ' ' pat).headD []) = false) :
    valueParse maxNameLen (pyStr "Value " ++ name ++ [' '] ++ pat) =
      .error "Unknown option" := by
  unfold valueParse
  rw [valueLine_toks name pat hn]
  have hsp := pySplitChar_ne_nil ' ' pat
  have hlen : ¬ ((pyStr "Value" :: name :: pySplitChar ' ' pat).length < 3) := by
    cases h : pySplitChar ' ' pat with
    | nil => exact absurd h hsp
    | cons x t => simp [h]
  rw [if_neg hlen]
  have hg2 : (pyStr "Value" :: name :: pySplitChar ' ' pat).getD 2 [] =
      (pySplitChar ' ' pat).headD [] := by
    cases pySplitChar ' ' pat <;> simp [List.getD]
  rw [hg2, hstart]
  simp only [Bool.not_false, if_true]
  have hg1 : (pyStr "Value" :: name :: pySplitChar ' ' pat).getD 1 [] = name := rfl
  rw [hg1, pySplitChar_single ',' name hcm]
  unfold addOptions
  rw [if_neg (by simp)]
  rw [if_neg hopt]

theorem wrappedInParens_not_lparen (pat : PyStr)
    (h : ∀ pr, pat ≠ '(' :: pr) : wrappedInParens pat = false := by
  cases pat with
  | nil => rfl
  | cons c pr =>
    have hc : c ≠ '(' := fun he => h pr (by rw [he])
    show (decide (c = '(') && pr.getLast? == some ')') = false
    simp [hc]

theorem wrappedInParens_dest (pat : PyStr) (h : wrappedInParens pat = true) :
    ∃ pr, pat = '(' :: pr ∧ pr.getLast? = some ')' := by
  cases pat with
  | nil => simp [wrappedInParens] at h
  | cons c pr =>
    have h2 : (decide (c = '(') && pr.getLast? == some ')') = true := h
    simp only [Bool.and_eq_true, decide_eq_true_eq, beq_iff_eq] at h2
    exact ⟨pr, by rw [h2.1], h2.2⟩

/-- C5 counterexample: `Value v (a)(b)` is accepted by `TextFSMValue.Parse`
(first character `(`, last character `)`, equal raw parenthesis counts) even
though `(a)(b)` is not surrounded by a single outermost `(...)` pair, so the
claim's acceptance condition rejects it. -/
theorem c5_counterexample :
    (valueParse 48 (pyStr "Value v (a)(b)")).isOk = true ∧
    specAccepted (pyStr "(a)(b)") = false :=
  ⟨by decide, by decide⟩

/-- C5 amended: for a non-option declaration `Value NAME PATTERN` (word-char
name that is not an option name), `TextFSMValue.Parse` accepts the pattern
iff the pattern starts with `(`, ends with `)`, and the raw counts of `(`
and `)` are equal — escaped parentheses and parentheses inside character
classes are counted like any others, and no single-outermost-pair condition
is enforced. -/
theorem c5_amended (name pat : PyStr) (hword : name.all isWordChar = true)
    (hopt : name ∉ validOptionNames) (hlen : name.length ≤ 48)
    (_hnl : ∀ c ∈ pat, c ≠ '\n') :
    (valueParse 48 (pyStr "Value " ++ name ++ [' '] ++ pat)).isOk =
      (wrappedInParens pat && (countChar '(' pat == countChar ')' pat)) := by
  have hn : ∀ c ∈ name, c ≠ ' ' := by
    intro c hc he
    have hw := List.all_eq_true.mp hword c hc
    rw [he] at hw
    exact absurd hw (by decide)
  have hcm : ∀ c ∈ name, c ≠ ',' := by
    intro c hc he
    have hw := List.all_eq_true.mp hword c hc
    rw [he] at hw
    exact absurd hw (by decide)
  by_cases hp : ∃ pr, pat = '(' :: pr
  · obtain ⟨pr, hpr⟩ := hp
    rw [valueParse_noopt 48 name pat pr hn hpr]
    unfold valueParseChecks
    rw [if_neg (by omega)]
    cases hcond : (wrappedInParens pat && (countChar '(' pat == countChar ')' pat)) <;>
      simp [hcond, Except.isOk, Except.toBool]
  · have hstart : pyStartsWith (pyStr "(") ((pySplitChar ' ' pat).headD []) = false := by
      rw [pySplitChar_headD]
      cases hpat : pat with
      | nil => rfl
      | cons c pr =>
        have hc : c ≠ '(' := by
          intro he
          exact hp ⟨pr, by rw [hpat, he]⟩
        rw [List.takeWhile_cons]
        by_cases hsp2 : c = ' '
        · simp [hsp2, pyStartsWith, List.isPrefixOf]
        · simp [hsp2, pyStartsWith, List.isPrefixOf, Ne.symm hc]
    rw [valueParse_opt_err 48 name pat hn hcm hopt hstart]
    have hw : wrappedInParens pat = false := by
      apply wrappedInParens_not_lparen
      intro pr he
      exact hp ⟨pr, he⟩
    rw [hw]
    rfl

theorem c5_amended_witness :
    ((pyStr "v").all isWordChar = true ∧ (pyStr "v") ∉ validOptionNames ∧
      (pyStr "v").length ≤ 48 ∧ (∀ c ∈ pyStr "(a)", c ≠ '\n')) ∧
    (valueParse 48 (pyStr "Value " ++ pyStr "v" ++ [' '] ++ pyStr "(a)")).isOk =
      (wrappedInParens (pyStr "(a)") &&
        (countChar '(' (pyStr "(a)") == countChar ')' (pyStr "(a)"))) :=
  ⟨⟨by decide, by decide, by decide, by decide⟩,
   c5_amended (pyStr "v") (pyStr "(a)") (by decide) (by decide) (by decide) (by decide)⟩

theorem valueLine_rstrip (name pat pr : PyStr) (hpat : pat = '(' :: pr)
    (hpr : pr.getLast? = some ')') :
    pyRstrip (pyStr "Value " ++ name ++ [' '] ++ pat) =
      pyStr "Value " ++ name ++ [' '] ++ pat := by
  apply pyRstrip_eq_self
  intro c hc
  have hpatne : pat ≠ [] := by rw [hpat]; simp
  have h1 : (pyStr "Value " ++ name ++ [' '] ++ pat).getLast? = pat.getLast? :=
    List.getLast?_append_of_ne_nil _ hpatne
  have h2 : pat.getLast? = some ')' := by
    rw [hpat]
    cases pr with
    | nil => simp at hpr
    | cons a as => rw [List.getLast?_cons_cons]; exact hpr
  rw [h1, h2] at hc
  injection hc with hc
  rw [← hc]
  decide

theorem valueLine_not_comment (name pat : PyStr) :
    isCommentLine (pyStr "Value " ++ name ++ [' '] ++ pat) = false := by
  show isCommentLine ('V' :: (pyStr "alue " ++ name ++ [' '] ++ pat)) = false
  unfold isCommentLine
  rw [List.dropWhile_cons]
  rw [show isPySpace 'V' = false from by decide]
  simp

theorem valueLine_not_empty (name pat : PyStr) :
    (pyStr "Value " ++ name ++ [' '] ++ pat).isEmpty = false := rfl

theorem valueLine_startswith (name pat : PyStr) :
    pyStartsWith (pyStr "Value ") (pyStr "Value " ++ name ++ [' '] ++ pat) = true := by
  have e1 : pyStr "Value " ++ name ++ [' '] ++ pat =
      pyStr "Value " ++ (name ++ ([' '] ++ pat)) := by simp [List.append_assoc]
  rw [e1]
  exact pyStartsWith_append _ _

theorem parseVariables_cons (maxNameLen : Nat) (values : List VValue)
    (vmap : List (PyStr × PyStr)) (line : PyStr) (rest : List PyStr) :
    parseVariables maxNameLen values vmap (line :: rest) =
      (if (pyRstrip line).isEmpty then .ok (values, vmap, rest)
       else if isCommentLine (pyRstrip line) then parseVariables maxNameLen values vmap rest
       else if pyStartsWith (pyStr "Value ") (pyRstrip line) then
         match valueParse maxNameLen (pyRstrip line) with
         | .error e => .error e
         | .ok v =>
           if (values.map VValue.name).contains v.name then
             .error "Duplicate declarations for Value."
           else
             parseVariables maxNameLen (values ++ [v]) (vmap ++ [(v.name, v.template)]) rest
       else if values.isEmpty then .error "No Value definitions found."
       else .error "Expected blank line after last Value entry.") := rfl

/-- C6 counterexample: the whole template
`Value foo-bar (.*)` / `Start` / `  ^.*` compiles successfully even though
the value name `foo-bar` does not match `^\w+$` — the code checks only a
maximum length for value names, never the character set. -/
theorem c6_counterexample :
    (compileStr reAllOk exC6src).isOk = true ∧
    isWordName (pyStr "foo-bar") = false ∧
    (compileStr reAllOk exC6src).toOption.map (fun f => f.values.map VValue.name) =
      some [pyStr "foo-bar"] :=
  ⟨by decide, by decide, rfl⟩

/-- C6 amended: for `Value NAME PATTERN` declarations (no option token,
valid parenthesized pattern), the compiler rejects a name longer than 48
characters and rejects a duplicate name; a name of length at most 48 that
is unique is accepted — the `^\w+$` character-set condition of the claim is
not enforced (see the counterexample). -/
theorem c6_amended (name pat pat2 : PyStr)
    (hword : name.all isWordChar = true) (_hne : name ≠ [])
    (hpat : (wrappedInParens pat && (countChar '(' pat == countChar ')' pat)) = true)
    (hpat2 : (wrappedInParens pat2 && (countChar '(' pat2 == countChar ')' pat2)) = true) :
    (48 < name.length →
      (valueParse 48 (pyStr "Value " ++ name ++ [' '] ++ pat)).isOk = false) ∧
    (name.length ≤ 48 →
      (valueParse 48 (pyStr "Value " ++ name ++ [' '] ++ pat)).isOk = true) ∧
    (name.length ≤ 48 →
      (parseVariables 48 [] []
        [pyStr "Value " ++ name ++ [' '] ++ pat,
         pyStr "Value " ++ name ++ [' '] ++ pat2]).isOk = false) := by
  have hn : ∀ c ∈ name, c ≠ ' ' := by
    intro c hc he
    have hw := List.all_eq_true.mp hword c hc
    rw [he] at hw
    exact absurd hw (by decide)
  obtain ⟨pr, hpr, hprl⟩ := wrappedInParens_dest pat (by
    cases h : wrappedInParens pat
    · rw [h] at hpat; simp at hpat
    · rfl)
  obtain ⟨pr2, hpr2, hprl2⟩ := wrappedInParens_dest pat2 (by
    cases h : wrappedInParens pat2
    · rw [h] at hpat2; simp at hpat2
    · rfl)
  have hv1 := valueParse_noopt 48 name pat pr hn hpr
  have hv2 := valueParse_noopt 48 name pat2 pr2 hn hpr2
  refine ⟨?_, ?_, ?_⟩
  · intro hlong
    rw [hv1]
    unfold valueParseChecks
    rw [if_pos (by omega)]
    rfl
  · intro hshort
    rw [hv1]
    unfold valueParseChecks
    rw [if_neg (by omega)]
    rw [hpat]
    rfl
  · intro hshort
    have hlen_n : ¬ (name.length > 48) := by omega
    simp only [parseVariables_cons, valueLine_rstrip name pat pr hpr hprl,
      valueLine_rstrip name pat2 pr2 hpr2 hprl2, valueLine_not_comment,
      valueLine_startswith, valueLine_not_empty, hv1, hv2,
      Bool.false_eq_true, if_false, if_true]
    unfold valueParseChecks
    simp [hlen_n, hpat, hpat2, Except.isOk, Except.toBool]

theorem c6_amended_witness :
    ((pyStr "boo").all isWordChar = true ∧ (pyStr "boo") ≠ [] ∧
      (wrappedInParens (pyStr "(x)") &&
        (countChar '(' (pyStr "(x)") == countChar ')' (pyStr "(x)"))) = true) ∧
    ((pyStr "boo").length ≤ 48 →
      (valueParse 48 (pyStr "Value " ++ pyStr "boo" ++ [' '] ++ pyStr "(x)")).isOk = true) :=
  ⟨⟨by decide, by decide, by decide⟩,
   (c6_amended (pyStr "boo") (pyStr "(x)") (pyStr "(y)")
      (by decide) (by decide) (by decide) (by decide)).2.1⟩

/-! ## C3: Reset-independence of successive parses (amended)

The runtime only ever mutates the fields that `Reset` canonicalizes
(`value`, the Filldown memory when `Filldown` is present, the List
accumulator when `List` is present, the current state and the result
table), so after a successful `ParseText` a `Reset` restores exactly the
state a fresh `Reset` would give. -/

theorem contains_of_mem {o : TOpt} {l : List TOpt} (h : o ∈ l) : l.contains o = true := by
  induction l with
  | nil => cases h
  | cons a t ih =>
    rcases List.mem_cons.mp h with h1 | h1
    · simp [List.contains_cons, h1]
    · simp only [List.contains_cons, Bool.or_eq_true, ih h1, or_true]

theorem resetCore_idem (v : RValue) : v.resetCore.resetCore = v.resetCore := by
  unfold RValue.resetCore
  by_cases hf : TOpt.Filldown ∈ v.options <;>
    by_cases hl : TOpt.ListOpt ∈ v.options <;> simp [hf, hl]

theorem foldClearAll_closed (opts : List TOpt) (w : RValue) :
    opts.foldl optOnClearAllVar w =
      { w with
          filldown_value :=
            if opts.contains TOpt.Filldown then PyVal.none else w.filldown_value,
          list_value := if opts.contains TOpt.ListOpt then [] else w.list_value } := by
  induction opts generalizing w with
  | nil => rfl
  | cons o rest ih =>
    rw [List.foldl_cons, ih]
    cases o <;> simp [optOnClearAllVar, List.contains_cons]

theorem clearAllVar_eq_resetCore (v : RValue) : v.ClearAllVar = v.resetCore := by
  unfold RValue.ClearAllVar RValue.resetCore
  rw [foldClearAll_closed]

theorem resetCore_congr_erase {v w : RValue}
    (h : ({ v with value := PyVal.none } : RValue) = { w with value := PyVal.none }) :
    v.resetCore = w.resetCore :=
  calc v.resetCore = ({ v with value := PyVal.none } : RValue).resetCore := rfl
    _ = ({ w with value := PyVal.none } : RValue).resetCore := by rw [h]
    _ = w.resetCore := rfl

theorem resetCore_save (v : RValue) : ((v.OnSaveRecord).1).resetCore = v.resetCore := by
  unfold RValue.OnSaveRecord
  exact resetCore_congr_erase (saveGo_erase v.options v)

theorem optOnClearVar_options (w : RValue) (o : TOpt) :
    (optOnClearVar w o).options = w.options := by
  cases o with
  | ListOpt =>
    show (if w.options.contains TOpt.Filldown then w
          else { w with list_value := [] }).options = w.options
    split <;> rfl
  | _ => rfl

theorem optOnClearVar_core (w : RValue) (o : TOpt) (h : o ∈ w.options) :
    (optOnClearVar w o).resetCore = w.resetCore := by
  cases o with
  | ListOpt =>
    have hl : TOpt.ListOpt ∈ w.options := h
    show (if w.options.contains TOpt.Filldown then w
          else { w with list_value := [] }).resetCore = w.resetCore
    split
    · rfl
    · unfold RValue.resetCore
      simp [hl]
  | _ => rfl

theorem clearFold_core (opts : List TOpt) (w : RValue) (h : ∀ o ∈ opts, o ∈ w.options) :
    (opts.foldl optOnClearVar w).resetCore = w.resetCore := by
  induction opts generalizing w with
  | nil => rfl
  | cons o rest ih =>
    rw [List.foldl_cons]
    have hsub : ∀ p ∈ rest, p ∈ (optOnClearVar w o).options := by
      rw [optOnClearVar_options]
      exact fun p hp => h p (List.mem_cons_of_mem o hp)
    rw [ih _ hsub, optOnClearVar_core w o (h o (List.mem_cons_self o rest))]

theorem resetCore_clearVar (v : RValue) : (v.ClearVar).resetCore = v.resetCore := by
  unfold RValue.ClearVar
  exact clearFold_core v.options _ (fun o ho => ho)

theorem coreEq_refl (f : RFSM) : coreEq f f := ⟨rfl, rfl⟩

theorem coreEq_trans {a b c : RFSM} (h1 : coreEq a b) (h2 : coreEq b c) : coreEq a c :=
  ⟨h1.1.trans h2.1, h1.2.trans h2.2⟩

theorem map_resetCore_clearVar (l : List RValue) :
    (l.map RValue.ClearVar).map RValue.resetCore = l.map RValue.resetCore := by
  simp [List.map_map, Function.comp_def, resetCore_clearVar]

theorem map_resetCore_clearAll (l : List RValue) :
    (l.map RValue.ClearAllVar).map RValue.resetCore = l.map RValue.resetCore := by
  simp [List.map_map, Function.comp_def, clearAllVar_eq_resetCore, resetCore_idem]

theorem map_resetCore_save (l : List RValue) :
    (l.map (fun v => (v.OnSaveRecord).1)).map RValue.resetCore = l.map RValue.resetCore := by
  simp [List.map_map, Function.comp_def, resetCore_save]

theorem clearRecord_core (fsm : RFSM) : coreEq fsm.ClearRecord fsm :=
  ⟨map_resetCore_clearVar fsm.values, rfl⟩

theorem clearAllRecord_core (fsm : RFSM) : coreEq fsm.ClearAllRecord fsm :=
  ⟨map_resetCore_clearAll fsm.values, rfl⟩

theorem appendRecord_core (fsm : RFSM) : coreEq fsm.AppendRecord fsm := by
  unfold RFSM.AppendRecord
  split
  · exact coreEq_refl fsm
  · split
    · next vs hvs =>
      refine ⟨?_, rfl⟩
      have h := (saveLoop_error fsm.values vs hvs).2
      calc (vs.map RValue.ClearVar).map RValue.resetCore
          = ((fsm.values.map (fun v => (v.OnSaveRecord).1)).map RValue.ClearVar).map
              RValue.resetCore := by rw [h]
        _ = (fsm.values.map (fun v => (v.OnSaveRecord).1)).map RValue.resetCore :=
              map_resetCore_clearVar _
        _ = fsm.values.map RValue.resetCore := map_resetCore_save _
    · next vs row hvs =>
      obtain ⟨-, hvs2, -⟩ := saveLoop_ok fsm.values vs row hvs
      subst hvs2
      split
      · exact ⟨map_resetCore_save _, rfl⟩
      · exact ⟨(map_resetCore_clearVar _).trans (map_resetCore_save _), rfl⟩

theorem listOnAssignVar_ok {v v1 : RValue} (h : listOnAssignVar v = .ok v1) :
    ∃ e, v1 = { v with list_value := v.list_value ++ [e] } := by
  unfold listOnAssignVar at h
  cases hm : listMatchRes v with
  | error e =>
    rw [hm] at h
    exact Except.noConfusion h
  | ok mr =>
    rw [hm] at h
    have h2 : ({ v with list_value := v.list_value ++ [listEntry v mr] } : RValue) = v1 := by
      simpa using h
    exact ⟨listEntry v mr, h2.symm⟩

theorem assignStep_options {i : Nat} {acc acc2 : RValue × List (List PyVal)} {o : TOpt}
    (h : assignStep i acc o = .ok acc2) : acc2.1.options = acc.1.options := by
  cases o with
  | Filldown =>
    have h2 : ({ acc.1 with filldown_value := acc.1.value }, acc.2) = acc2 := by
      simpa [assignStep] using h
    rw [← h2]
  | ListOpt =>
    cases hl : listOnAssignVar acc.1 with
    | error e =>
      unfold assignStep at h
      rw [hl] at h
      exact Except.noConfusion h
    | ok v1 =>
      unfold assignStep at h
      rw [hl] at h
      have h2 : (v1, acc.2) = acc2 := by simpa using h
      obtain ⟨e, he⟩ := listOnAssignVar_ok hl
      rw [← h2, he]
  | Fillup =>
    have h2 : (acc.1, if acc.1.value.truthy then fillup i acc.1.value acc.2 else acc.2) =
        acc2 := by simpa [assignStep] using h
    rw [← h2]
  | OptionBase =>
    have h2 : acc = acc2 := by simpa [assignStep] using h
    rw [← h2]
  | Required =>
    have h2 : acc = acc2 := by simpa [assignStep] using h
    rw [← h2]
  | Key =>
    have h2 : acc = acc2 := by simpa [assignStep] using h
    rw [← h2]

theorem assignStep_core {i : Nat} {acc acc2 : RValue × List (List PyVal)} {o : TOpt}
    (ho : o ∈ acc.1.options) (h : assignStep i acc o = .ok acc2) :
    acc2.1.resetCore = acc.1.resetCore := by
  cases o with
  | Filldown =>
    have h2 : ({ acc.1 with filldown_value := acc.1.value }, acc.2) = acc2 := by
      simpa [assignStep] using h
    rw [← h2]
    unfold RValue.resetCore
    simp [ho]
  | ListOpt =>
    cases hl : listOnAssignVar acc.1 with
    | error e =>
      unfold assignStep at h
      rw [hl] at h
      exact Except.noConfusion h
    | ok v1 =>
      unfold assignStep at h
      rw [hl] at h
      have h2 : (v1, acc.2) = acc2 := by simpa using h
      obtain ⟨e, he⟩ := listOnAssignVar_ok hl
      rw [← h2, he]
      unfold RValue.resetCore
      simp [ho]
  | Fillup =>
    have h2 : (acc.1, if acc.1.value.truthy then fillup i acc.1.value acc.2 else acc.2) =
        acc2 := by simpa [assignStep] using h
    rw [← h2]
  | OptionBase =>
    have h2 : acc = acc2 := by simpa [assignStep] using h
    rw [← h2]
  | Required =>
    have h2 : acc = acc2 := by simpa [assignStep] using h
    rw [← h2]
  | Key =>
    have h2 : acc = acc2 := by simpa [assignStep] using h
    rw [← h2]

theorem assignFold_core {i : Nat} {opts : List TOpt} {acc acc2 : RValue × List (List PyVal)}
    (hsub : ∀ o ∈ opts, o ∈ acc.1.options)
    (h : foldlE (assignStep i) acc opts = .ok acc2) :
    acc2.1.resetCore = acc.1.resetCore := by
  induction opts generalizing acc with
  | nil =>
    have h2 : acc = acc2 := by simpa [foldlE] using h
    rw [← h2]
  | cons o rest ih =>
    unfold foldlE at h
    cases hs : assignStep i acc o with
    | error e =>
      rw [hs] at h
      exact Except.noConfusion h
    | ok acc1 =>
      rw [hs] at h
      have hopts : acc1.1.options = acc.1.options := assignStep_options hs
      have hsub2 : ∀ p ∈ rest, p ∈ acc1.1.options := by
        intro p hp
        rw [hopts]
        exact hsub p (List.mem_cons_of_mem o hp)
      have hcore := assignStep_core (hsub o (List.mem_cons_self o rest)) hs
      rw [ih hsub2 h, hcore]

theorem map_set_congr {α β : Type} (f : α → β) (l : List α) :
    ∀ (i : Nat) (a v : α), l.get? i = some v → f a = f v → (l.set i a).map f = l.map f := by
  induction l with
  | nil => intro i a v h _; simp at h
  | cons b t ih =>
    intro i a v h hf
    cases i with
    | zero =>
      obtain rfl : v = b := by simpa using h.symm
      simp [List.set, hf]
    | succ i =>
      have h2 : t.get? i = some v := by simpa using h
      simp [List.set, ih i a v h2 hf]

theorem assignVarAt_core {fsm : RFSM} {i : Nat} {pv : PyVal} {f2 : RFSM}
    (h : fsm.AssignVarAt i pv = .ok f2) : coreEq f2 fsm := by
  unfold RFSM.AssignVarAt at h
  split at h
  · obtain rfl : fsm = f2 := by simpa using h
    exact coreEq_refl _
  · next v hv =>
    cases hf : foldlE (assignStep i) ({ v with value := pv }, fsm.result) v.options with
    | error e =>
      rw [hf] at h
      exact Except.noConfusion h
    | ok acc =>
      rw [hf] at h
      have h2 : ({ fsm with
          values := fsm.values.set i acc.1,
          result := acc.2 } : RFSM) = f2 := by
        simpa using h
      rw [← h2]
      refine ⟨?_, rfl⟩
      have hcore : acc.1.resetCore = v.resetCore :=
        assignFold_core (fun o ho => ho) hf
      exact map_set_congr RValue.resetCore fsm.values i _ v hv hcore

theorem pyAssignVar_core {fsm : RFSM} {name : PyStr} {g : Option PyStr} {f2 : RFSM}
    (h : fsm.PyAssignVar name g = .ok f2) : coreEq f2 fsm := by
  unfold RFSM.PyAssignVar at h
  split at h
  · exact assignVarAt_core h
  · obtain rfl : fsm = f2 := by simpa using h
    exact coreEq_refl _

theorem assignCaps_core (gd : List (PyStr × Option PyStr)) :
    ∀ (fsm f2 : RFSM), assignCaps gd fsm = .ok f2 → coreEq f2 fsm := by
  induction gd with
  | nil =>
    intro fsm f2 h
    obtain rfl : fsm = f2 := by simpa [assignCaps, foldlE] using h
    exact coreEq_refl _
  | cons p rest ih =>
    intro fsm f2 h
    cases hp : fsm.PyAssignVar p.1 p.2 with
    | error e =>
      simp only [assignCaps, foldlE, hp] at h
      exact Except.noConfusion h
    | ok fsm1 =>
      simp only [assignCaps, foldlE, hp] at h
      exact coreEq_trans (ih fsm1 f2 h) (pyAssignVar_core hp)

theorem recordAction_core (fsm : RFSM) (rule : RRule) :
    coreEq (fsm.RecordAction rule) fsm := by
  unfold RFSM.RecordAction
  split
  · exact appendRecord_core fsm
  · split
    · exact clearRecord_core fsm
    · split
      · exact clearAllRecord_core fsm
      · exact coreEq_refl fsm

theorem operations_core {fsm : RFSM} {rule : RRule} {f2 : RFSM} {b : Bool}
    (h : fsm.Operations rule = .ok (f2, b)) : coreEq f2 fsm := by
  unfold RFSM.Operations at h
  split at h
  · cases h
  · split at h
    · obtain ⟨h1, -⟩ : fsm.RecordAction rule = f2 ∧ False = b := by simpa using h
      rw [← h1]
      exact recordAction_core fsm rule
    · obtain ⟨h1, -⟩ : fsm.RecordAction rule = f2 ∧ True = b := by simpa using h
      rw [← h1]
      exact recordAction_core fsm rule

theorem checkLineGo_core (line : PyStr) (rules : List RRule) :
    ∀ (fsm f2 : RFSM), checkLineGo line fsm rules = .ok f2 → coreEq f2 fsm := by
  induction rules with
  | nil =>
    intro fsm f2 h
    obtain rfl : fsm = f2 := by simpa [checkLineGo] using h
    exact coreEq_refl _
  | cons rule rest ih =>
    intro fsm f2 h
    cases hm : rule.regex_match line with
    | none =>
      simp only [checkLineGo, hm] at h
      exact ih fsm f2 h
    | some gd =>
      cases hca : assignCaps gd fsm with
      | error e =>
        simp only [checkLineGo, hm, hca] at h
        exact Except.noConfusion h
      | ok fsmA =>
        have hcaq : coreEq fsmA fsm := assignCaps_core gd fsm fsmA hca
        cases ho : fsmA.Operations rule with
        | error e =>
          simp only [checkLineGo, hm, hca, ho] at h
          exact Except.noConfusion h
        | ok p =>
          obtain ⟨fsm2, b⟩ := p
          have hc2 : coreEq fsm2 fsm := coreEq_trans (operations_core ho) hcaq
          cases b with
          | false =>
            simp only [checkLineGo, hm, hca, ho] at h
            exact coreEq_trans (ih fsm2 f2 h) hc2
          | true =>
            simp only [checkLineGo, hm, hca, ho] at h
            split at h
            · obtain rfl : fsm2 = f2 := by simpa using h
              exact hc2
            · split at h
              · obtain rfl : ({ fsm2 with
                    cur_state_name := rule.new_state } : RFSM) = f2 := by
                  simpa using h
                exact coreEq_trans ⟨rfl, rfl⟩ hc2
              · obtain rfl : ({ fsm2 with
                    cur_state := (lookupRState fsm2.states rule.new_state).getD [],
                    cur_state_name := rule.new_state } : RFSM) = f2 := by
                  simpa using h
                exact coreEq_trans ⟨rfl, rfl⟩ hc2

theorem runLines_core (lines : List PyStr) :
    ∀ (fsm f2 : RFSM), runLines fsm lines = .ok f2 → coreEq f2 fsm := by
  induction lines with
  | nil =>
    intro fsm f2 h
    obtain rfl : fsm = f2 := by simpa [runLines] using h
    exact coreEq_refl _
  | cons l rest ih =>
    intro fsm f2 h
    cases hc : fsm.CheckLine l with
    | error e =>
      simp only [runLines, hc] at h
      exact Except.noConfusion h
    | ok fsm1 =>
      simp only [runLines, hc] at h
      have h1 : coreEq fsm1 fsm := checkLineGo_core l fsm.cur_state fsm fsm1 hc
      split at h
      · obtain rfl : fsm1 = f2 := by simpa using h
        exact h1
      · exact coreEq_trans (ih fsm1 f2 h) h1

theorem parseTextF_core {fsm : RFSM} {text : PyStr} {eof : Bool} {f1 : RFSM}
    (h : fsm.ParseTextF text eof = .ok f1) : coreEq f1 fsm := by
  unfold RFSM.ParseTextF at h
  split at h
  · cases h
  · next fo hfo =>
    have h0 : coreEq fo fsm := runLines_core _ fsm fo hfo
    split at h
    · obtain rfl : fo.AppendRecord = f1 := by simpa using h
      exact coreEq_trans (appendRecord_core fo) h0
    · obtain rfl : fo = f1 := by simpa using h
      exact h0

theorem reset_congr {f g : RFSM} (h : coreEq f g) : f.Reset = g.Reset := by
  obtain ⟨hv, hs⟩ := h
  have hca : RValue.ClearAllVar = RValue.resetCore := funext clearAllVar_eq_resetCore
  unfold RFSM.Reset
  rw [hca, hs, show f.values.map RValue.resetCore = g.values.map RValue.resetCore from hv]

/-- C3 (amended): `ParseText` does not restart the FSM — the counterexample
exhibits a second whole-text call continuing in the state left by the first
and returning the accumulated rows — but the calls are independent once
`Reset` is invoked between them: if a first `ParseText` call succeeds, a
`Reset` erases its effect completely, and a subsequent parse behaves exactly
as it would after `Reset` on an instance that never parsed at all. -/
theorem c3_amended (fsm : RFSM) (t1 t2 : PyStr) (e1 e2 : Bool) (f1 : RFSM)
    (h : fsm.ParseTextF t1 e1 = .ok f1) :
    (f1.Reset).ParseTextF t2 e2 = (fsm.Reset).ParseTextF t2 e2 := by
  rw [reset_congr (parseTextF_core h)]

/-- The C3 theorem instantiated at the concrete FSM of the counterexample:
the hypothesis (a successful first parse) holds by evaluation. -/
theorem c3_amended_witness :
    exFSM.ParseTextF (pyStr "boo") true = .ok exC3f1 ∧
    (exC3f1.Reset).ParseTextF (pyStr "x") true = (exFSM.Reset).ParseTextF (pyStr "x") true :=
  ⟨rfl, c3_amended exFSM (pyStr "boo") (pyStr "x") true true exC3f1 rfl⟩

/-! ## C8: round-trip of the canonical serialization (amended)

Supporting lemmas: prefix consumption, character classes, splitting the
serialized template back into its lines. -/

theorem dropPrefixQ_self_append (p t : PyStr) : dropPrefixQ p (p ++ t) = some t := by
  induction p with
  | nil => rfl
  | cons c ps ih => simp [dropPrefixQ, ih]

theorem dropPrefixQ_eq_append {p : PyStr} : ∀ {s t : PyStr},
    dropPrefixQ p s = some t → s = p ++ t := by
  induction p with
  | nil =>
    intro s t h
    simpa [dropPrefixQ] using h
  | cons c ps ih =>
    intro s t h
    cases s with
    | nil => simp [dropPrefixQ] at h
    | cons d ds =>
      unfold dropPrefixQ at h
      split at h
      · next hcd => rw [List.cons_append, hcd, ih h]
      · cases h

theorem wordChar_not_space {c : Char} (h : isWordChar c = true) : isPySpace c = false := by
  by_contra hs
  rw [Bool.not_eq_false] at hs
  unfold isPySpace at hs
  simp only [Bool.or_eq_true, decide_eq_true_eq] at hs
  rcases hs with ((((h1 | h1) | h1) | h1) | h1) | h1 <;> subst h1 <;>
    exact absurd h (by decide)

theorem word_no_char {s : PyStr} {c : Char} (hs : s.all isWordChar = true)
    (hc : isWordChar c = false) : c ∉ s := by
  intro hm
  have h2 := List.all_eq_true.mp hs c hm
  rw [hc] at h2
  cases h2

theorem getLast?_mem : ∀ {s : PyStr} {c : Char}, s.getLast? = some c → c ∈ s := by
  intro s
  induction s with
  | nil => intro c h; cases h
  | cons a t ih =>
    intro c h
    cases t with
    | nil =>
      simp only [List.getLast?_singleton, Option.some.injEq] at h
      simp [h]
    | cons b t2 =>
      rw [List.getLast?_cons_cons] at h
      exact List.mem_cons_of_mem a (ih h)

theorem pyRstrip_word (s : PyStr) (h : s.all isWordChar = true) : pyRstrip s = s := by
  apply pyRstrip_eq_self
  intro c hc
  exact wordChar_not_space (List.all_eq_true.mp h c (getLast?_mem hc))

theorem isWordName_parts {s : PyStr} (h : isWordName s = true) :
    s ≠ [] ∧ s.all isWordChar = true := by
  unfold isWordName at h
  simp only [Bool.and_eq_true] at h
  refine ⟨?_, h.2⟩
  intro he
  subst he
  simpa using h.1

theorem isCommentLine_nonspace (s : PyStr) (c : Char) (t : PyStr) (hs : s = c :: t)
    (hc : isPySpace c = false) (hh : c ≠ '#') : isCommentLine s = false := by
  subst hs
  unfold isCommentLine
  rw [List.dropWhile_cons, hc]
  simpa using hh

theorem pySplitChar_intercalate (sep : Char) (ls : List PyStr) (hne : ls ≠ [])
    (h : ∀ l ∈ ls, sep ∉ l) :
    pySplitChar sep (List.intercalate [sep] ls) = ls := by
  induction ls with
  | nil => cases hne rfl
  | cons a rest ih =>
    cases rest with
    | nil =>
      show pySplitChar sep (List.intercalate [sep] [a]) = [a]
      rw [show List.intercalate [sep] [a] = a by simp [List.intercalate]]
      exact pySplitChar_single sep a (fun c hc he => (h a (by simp)) (he ▸ hc))
    | cons b rest2 =>
      rw [intercalate_cons₂]
      rw [show a ++ [sep] ++ List.intercalate [sep] (b :: rest2) =
            a ++ (sep :: List.intercalate [sep] (b :: rest2)) by simp]
      rw [pySplitChar_append_sep sep a _ (fun c hc he => (h a (by simp)) (he ▸ hc))]
      rw [ih (by simp) (fun l hl => h l (by simp [hl]))]

theorem mem_intercalate_char {c x : Char} {ls : List PyStr}
    (h : ∀ l ∈ ls, x ∉ l) (hx : x ≠ c) : x ∉ List.intercalate [c] ls := by
  induction ls with
  | nil => simp [List.intercalate]
  | cons a rest ih =>
    cases rest with
    | nil =>
      rw [show List.intercalate [c] [a] = a by simp [List.intercalate]]
      exact h a (by simp)
    | cons b rest2 =>
      rw [intercalate_cons₂]
      intro hm
      rcases List.mem_append.mp hm with hm1 | hm1
      · rcases List.mem_append.mp hm1 with hm2 | hm2
        · exact h a (by simp) hm2
        · simp only [List.mem_singleton] at hm2
          exact hx hm2
      · exact ih (fun l hl => h l (by simp [hl])) hm1

theorem flatLines_split (ls : List PyStr) (h : ∀ l ∈ ls, '\n' ∉ l) :
    pySplitChar '\n' ((ls.map (fun l => l ++ ['\n'])).flatten) = ls ++ [[]] := by
  induction ls with
  | nil => rfl
  | cons a rest ih =>
    simp only [List.map_cons, List.flatten_cons]
    rw [show (a ++ ['\n']) ++ ((rest.map (fun l => l ++ ['\n'])).flatten) =
          a ++ ('\n' :: (rest.map (fun l => l ++ ['\n'])).flatten) by simp]
    rw [pySplitChar_append_sep '\n' a _ (fun c hc he => (h a (by simp)) (he ▸ hc))]
    rw [ih (fun l hl => h l (by simp [hl]))]
    rfl

theorem intercalate_flat (c : Char) (ls : List PyStr) (hne : ls ≠ []) :
    List.intercalate [c] ls ++ [c] = (ls.map (fun l => l ++ [c])).flatten := by
  induction ls with
  | nil => cases hne rfl
  | cons a rest ih =>
    cases rest with
    | nil => simp [List.intercalate]
    | cons b r2 =>
      rw [intercalate_cons₂]
      simp only [List.map_cons, List.flatten_cons] at ih ⊢
      rw [show a ++ [c] ++ List.intercalate [c] (b :: r2) ++ [c] =
            a ++ [c] ++ (List.intercalate [c] (b :: r2) ++ [c]) by simp]
      rw [ih (by simp)]

theorem serializeRule_ne_nil (r : SRule) : serializeRule r ≠ [] := by
  unfold serializeRule
  split
  · simp [pyStr]
  · simp [pyStr]

theorem arrowSplit_none (t : PyStr) (h : ∀ a, t ≠ '-' :: '>' :: a) :
    arrowSplit t = none := by
  unfold arrowSplit
  split
  · next a => exact absurd rfl (h a)
  · rfl

theorem matchActionSplit_cons (c : Char) (t : PyStr) :
    matchActionSplit (c :: t) = masStep c t (matchActionSplit t) := rfl

theorem matchActionSplit_none_cons (c : Char) (t : PyStr)
    (h : matchActionSplit t = none)
    (h2 : isPySpace c = false ∨ ∀ a, t ≠ '-' :: '>' :: a) :
    matchActionSplit (c :: t) = none := by
  rw [matchActionSplit_cons, h]
  unfold masStep
  rcases h2 with h2 | h2
  · rw [h2]
    simp
  · rw [arrowSplit_none t h2]
    simp

theorem matchActionSplit_none_append (xs t : PyStr)
    (hx : ∀ c ∈ xs, isPySpace c = false) (ht : matchActionSplit t = none) :
    matchActionSplit (xs ++ t) = none := by
  induction xs with
  | nil => simpa using ht
  | cons c rest ih =>
    rw [List.cons_append]
    exact matchActionSplit_none_cons c _ (ih (fun d hd => hx d (by simp [hd])))
      (Or.inl (hx c (by simp)))

theorem matchActionSplit_word (s : PyStr) (h : s.all isWordChar = true) :
    matchActionSplit s = none := by
  have h2 := matchActionSplit_none_append s []
    (fun c hc => wordChar_not_space (List.all_eq_true.mp h c hc)) rfl
  simpa using h2

theorem matchActionSplit_append (m a : PyStr) (h : matchActionSplit a = none) :
    matchActionSplit (m ++ ' ' :: '-' :: '>' :: a) = some (m, a) := by
  induction m with
  | nil =>
    have h1 : matchActionSplit ('>' :: a) = none :=
      matchActionSplit_none_cons '>' a h (Or.inl rfl)
    have h2 : matchActionSplit ('-' :: '>' :: a) = none :=
      matchActionSplit_none_cons '-' _ h1 (Or.inl rfl)
    show matchActionSplit (' ' :: '-' :: '>' :: a) = some ([], a)
    rw [matchActionSplit_cons, h2]
    rfl
  | cons c m ih =>
    show matchActionSplit (c :: (m ++ ' ' :: '-' :: '>' :: a)) = some (c :: m, a)
    rw [matchActionSplit_cons, ih]
    rfl

theorem tailNS_nil : tailNS [] = some [] := rfl

theorem tailNS_space_cons (c : Char) (t : PyStr) (hc : isPySpace c = false)
    (hok : nsTokenOk (c :: t) = true) : tailNS (' ' :: c :: t) = some (c :: t) := by
  have h1 : (' ' :: c :: t).dropWhile isPySpace = c :: t := by
    rw [List.dropWhile_cons]
    rw [show isPySpace ' ' = true from rfl]
    simp [List.dropWhile_cons, hc]
  have h2 : ((' ' :: c :: t).takeWhile isPySpace).isEmpty = false := by
    rw [List.takeWhile_cons]
    simp [show isPySpace ' ' = true from rfl]
  unfold tailNS
  rw [h1, h2, hok]
  simp

theorem tailNS_space_word (ns : PyStr) (h : isWordName ns = true) :
    tailNS (' ' :: ns) = some ns := by
  obtain ⟨hne, hall⟩ := isWordName_parts h
  cases ns with
  | nil => cases hne rfl
  | cons c t =>
    have hcw : isWordChar c = true := List.all_eq_true.mp hall c (by simp)
    refine tailNS_space_cons c t (wordChar_not_space hcw) ?_
    unfold nsTokenOk
    rw [show (!(c :: t).isEmpty && (c :: t).all isWordChar) = true from h]
    simp

theorem quotedTok_head {ns : PyStr} (hq : quotedTok ns = true) :
    ∃ t, ns = '"' :: t := by
  cases ns with
  | nil => simp [quotedTok] at hq
  | cons c t =>
    refine ⟨t, ?_⟩
    by_cases hc : c = '"'
    · rw [hc]
    · exfalso
      unfold quotedTok at hq
      split at hq
      · next heq =>
        injection heq with h1 h2
        exact hc h1
      · cases hq

theorem tailNS_space_quoted (ns : PyStr) (hq : quotedTok ns = true) :
    tailNS (' ' :: ns) = some ns := by
  obtain ⟨t, rfl⟩ := quotedTok_head hq
  have hq2 : (t.getLast? == some '"') = true := hq
  have e : nsTokenOk ('"' :: t) =
      ((!('"' :: t : PyStr).isEmpty && ('"' :: t : PyStr).all isWordChar) ||
        (t.getLast? == some '"')) := rfl
  refine tailNS_space_cons '"' t (by decide) ?_
  rw [e, hq2]
  simp

theorem firstSome_cons_none {α β : Type} (f : α → Option β) (a : α) (l : List α)
    (h : f a = none) : firstSome f (a :: l) = firstSome f l := by
  show (match f a with
        | some b => some b
        | none => firstSome f l) = firstSome f l
  rw [h]

theorem firstSome_cons_some {α β : Type} (f : α → Option β) (a : α) (l : List α)
    (b : β) (h : f a = some b) : firstSome f (a :: l) = some b := by
  show (match f a with
        | some b => some b
        | none => firstSome f l) = some b
  rw [h]

theorem fullAlt_none_word (a : PyStr) (ns : PyStr) (lop : PyStr)
    (hdrop : a.dropWhile isPySpace = ns) (hw : ns.all isWordChar = true)
    (hne : ns ≠ lop) : fullAlt a lop = none := by
  unfold fullAlt
  rw [hdrop]
  cases hdp : dropPrefixQ lop ns with
  | none => rfl
  | some w =>
    have hns : ns = lop ++ w := dropPrefixQ_eq_append hdp
    have hww : w.all isWordChar = true := by
      rw [hns, List.all_append] at hw
      simp only [Bool.and_eq_true] at hw
      exact hw.2
    cases w with
    | nil =>
      exact absurd (by simpa using hns) hne
    | cons c t =>
      have hcw : isWordChar c = true := by
        rw [List.all_cons] at hww
        simp only [Bool.and_eq_true] at hww
        exact hww.1
      have hdot : actionDotPart (c :: t) = none := by
        unfold actionDotPart
        split
        · next heq =>
          exfalso
          injection heq with h1 h2
          rw [h1] at hcw
          exact absurd hcw (by decide)
        · rfl
      have htail : tailNS (c :: t) = none := by
        unfold tailNS
        rw [List.takeWhile_cons]
        rw [wordChar_not_space hcw]
        simp
      show (match actionDotPart (c :: t) with
            | some (rop, x) => some (lop, rop, x)
            | none => (tailNS (c :: t)).map (fun x => (lop, [], x))) = none
      rw [hdot, htail]
      rfl

theorem recAlt_none_word (a : PyStr) (ns : PyStr) (rop : PyStr)
    (hdrop : a.dropWhile isPySpace = ns) (hw : ns.all isWordChar = true)
    (hne : ns ≠ rop) : recAlt a rop = none := by
  unfold recAlt
  rw [hdrop]
  cases hdp : dropPrefixQ rop ns with
  | none => rfl
  | some w =>
    have hns : ns = rop ++ w := dropPrefixQ_eq_append hdp
    have hww : w.all isWordChar = true := by
      rw [hns, List.all_append] at hw
      simp only [Bool.and_eq_true] at hw
      exact hw.2
    cases w with
    | nil =>
      exact absurd (by simpa using hns) hne
    | cons c t =>
      have hcw : isWordChar c = true := by
        rw [List.all_cons] at hww
        simp only [Bool.and_eq_true] at hww
        exact hww.1
      have htail : tailNS (c :: t) = none := by
        unfold tailNS
        rw [List.takeWhile_cons]
        rw [wordChar_not_space hcw]
        simp
      show ((tailNS (c :: t)).map (fun x => (rop, x))) = none
      rw [htail]
      rfl

theorem chainContinueClear (ns ns2 : PyStr) (h : tailNS ns2 = some ns) :
    parseActionChain (' ' :: (pyStr "Continue.Clear" ++ ns2)) =
      .ok (pyStr "Continue", pyStr "Clear", ns) := by
  have hdot : actionDotPart ('.' :: (pyStr "Clear" ++ ns2)) = some (pyStr "Clear", ns) := by
    have e1 : actionDotPart ('.' :: (pyStr "Clear" ++ ns2)) =
        firstSome (dotAlt (pyStr "Clear" ++ ns2)) recordOps := rfl
    rw [e1]
    unfold recordOps

    refine firstSome_cons_some _ _ _ _ ?_
    have e2 : dotAlt (pyStr "Clear" ++ ns2) (pyStr "Clear") =
        (tailNS ns2).map (fun x => (pyStr "Clear", x)) := rfl
    rw [e2, h]
    rfl
  have hfull : parseActionFull (' ' :: (pyStr "Continue.Clear" ++ ns2)) =
      some (pyStr "Continue", pyStr "Clear", ns) := by
    have e0 : parseActionFull (' ' :: (pyStr "Continue.Clear" ++ ns2)) =
        firstSome (fullAlt (' ' :: (pyStr "Continue.Clear" ++ ns2))) lineOps := rfl
    rw [e0]
    unfold lineOps

    refine firstSome_cons_some _ _ _ _ ?_
    have e3 : fullAlt (' ' :: (pyStr "Continue.Clear" ++ ns2)) (pyStr "Continue") =
        (match actionDotPart ('.' :: (pyStr "Clear" ++ ns2)) with
         | some (rop, x) => some (pyStr "Continue", rop, x)
         | none => (tailNS ('.' :: (pyStr "Clear" ++ ns2))).map
             (fun x => (pyStr "Continue", [], x))) := rfl
    rw [e3, hdot]
  unfold parseActionChain
  rw [hfull]

theorem chainContinueClearall (ns ns2 : PyStr) (h : tailNS ns2 = some ns) :
    parseActionChain (' ' :: (pyStr "Continue.Clearall" ++ ns2)) =
      .ok (pyStr "Continue", pyStr "Clearall", ns) := by
  have hdot : actionDotPart ('.' :: (pyStr "Clearall" ++ ns2)) = some (pyStr "Clearall", ns) := by
    have e1 : actionDotPart ('.' :: (pyStr "Clearall" ++ ns2)) =
        firstSome (dotAlt (pyStr "Clearall" ++ ns2)) recordOps := rfl
    rw [e1]
    unfold recordOps
    rw [firstSome_cons_none _ _ _ rfl]
    refine firstSome_cons_some _ _ _ _ ?_
    have e2 : dotAlt (pyStr "Clearall" ++ ns2) (pyStr "Clearall") =
        (tailNS ns2).map (fun x => (pyStr "Clearall", x)) := rfl
    rw [e2, h]
    rfl
  have hfull : parseActionFull (' ' :: (pyStr "Continue.Clearall" ++ ns2)) =
      some (pyStr "Continue", pyStr "Clearall", ns) := by
    have e0 : parseActionFull (' ' :: (pyStr "Continue.Clearall" ++ ns2)) =
        firstSome (fullAlt (' ' :: (pyStr "Continue.Clearall" ++ ns2))) lineOps := rfl
    rw [e0]
    unfold lineOps

    refine firstSome_cons_some _ _ _ _ ?_
    have e3 : fullAlt (' ' :: (pyStr "Continue.Clearall" ++ ns2)) (pyStr "Continue") =
        (match actionDotPart ('.' :: (pyStr "Clearall" ++ ns2)) with
         | some (rop, x) => some (pyStr "Continue", rop, x)
         | none => (tailNS ('.' :: (pyStr "Clearall" ++ ns2))).map
             (fun x => (pyStr "Continue", [], x))) := rfl
    rw [e3, hdot]
  unfold parseActionChain
  rw [hfull]

theorem chainContinueRecord (ns ns2 : PyStr) (h : tailNS ns2 = some ns) :
    parseActionChain (' ' :: (pyStr "Continue.Record" ++ ns2)) =
      .ok (pyStr "Continue", pyStr "Record", ns) := by
  have hdot : actionDotPart ('.' :: (pyStr "Record" ++ ns2)) = some (pyStr "Record", ns) := by
    have e1 : actionDotPart ('.' :: (pyStr "Record" ++ ns2)) =
        firstSome (dotAlt (pyStr "Record" ++ ns2)) recordOps := rfl
    rw [e1]
    unfold recordOps
    rw [firstSome_cons_none _ _ _ rfl]
    rw [firstSome_cons_none _ _ _ rfl]
    refine firstSome_cons_some _ _ _ _ ?_
    have e2 : dotAlt (pyStr "Record" ++ ns2) (pyStr "Record") =
        (tailNS ns2).map (fun x => (pyStr "Record", x)) := rfl
    rw [e2, h]
    rfl
  have hfull : parseActionFull (' ' :: (pyStr "Continue.Record" ++ ns2)) =
      some (pyStr "Continue", pyStr "Record", ns) := by
    have e0 : parseActionFull (' ' :: (pyStr "Continue.Record" ++ ns2)) =
        firstSome (fullAlt (' ' :: (pyStr "Continue.Record" ++ ns2))) lineOps := rfl
    rw [e0]
    unfold lineOps

    refine firstSome_cons_some _ _ _ _ ?_
    have e3 : fullAlt (' ' :: (pyStr "Continue.Record" ++ ns2)) (pyStr "Continue") =
        (match actionDotPart ('.' :: (pyStr "Record" ++ ns2)) with
         | some (rop, x) => some (pyStr "Continue", rop, x)
         | none => (tailNS ('.' :: (pyStr "Record" ++ ns2))).map
             (fun x => (pyStr "Continue", [], x))) := rfl
    rw [e3, hdot]
  unfold parseActionChain
  rw [hfull]

theorem chainContinueNoRecord (ns ns2 : PyStr) (h : tailNS ns2 = some ns) :
    parseActionChain (' ' :: (pyStr "Continue.NoRecord" ++ ns2)) =
      .ok (pyStr "Continue", pyStr "NoRecord", ns) := by
  have hdot : actionDotPart ('.' :: (pyStr "NoRecord" ++ ns2)) = some (pyStr "NoRecord", ns) := by
    have e1 : actionDotPart ('.' :: (pyStr "NoRecord" ++ ns2)) =
        firstSome (dotAlt (pyStr "NoRecord" ++ ns2)) recordOps := rfl
    rw [e1]
    unfold recordOps
    rw [firstSome_cons_none _ _ _ rfl]
    rw [firstSome_cons_none _ _ _ rfl]
    rw [firstSome_cons_none _ _ _ rfl]
    refine firstSome_cons_some _ _ _ _ ?_
    have e2 : dotAlt (pyStr "NoRecord" ++ ns2) (pyStr "NoRecord") =
        (tailNS ns2).map (fun x => (pyStr "NoRecord", x)) := rfl
    rw [e2, h]
    rfl
  have hfull : parseActionFull (' ' :: (pyStr "Continue.NoRecord" ++ ns2)) =
      some (pyStr "Continue", pyStr "NoRecord", ns) := by
    have e0 : parseActionFull (' ' :: (pyStr "Continue.NoRecord" ++ ns2)) =
        firstSome (fullAlt (' ' :: (pyStr "Continue.NoRecord" ++ ns2))) lineOps := rfl
    rw [e0]
    unfold lineOps

    refine firstSome_cons_some _ _ _ _ ?_
    have e3 : fullAlt (' ' :: (pyStr "Continue.NoRecord" ++ ns2)) (pyStr "Continue") =
        (match actionDotPart ('.' :: (pyStr "NoRecord" ++ ns2)) with
         | some (rop, x) => some (pyStr "Continue", rop, x)
         | none => (tailNS ('.' :: (pyStr "NoRecord" ++ ns2))).map
             (fun x => (pyStr "Continue", [], x))) := rfl
    rw [e3, hdot]
  unfold parseActionChain
  rw [hfull]

theorem chainNextClear (ns ns2 : PyStr) (h : tailNS ns2 = some ns) :
    parseActionChain (' ' :: (pyStr "Next.Clear" ++ ns2)) =
      .ok (pyStr "Next", pyStr "Clear", ns) := by
  have hdot : actionDotPart ('.' :: (pyStr "Clear" ++ ns2)) = some (pyStr "Clear", ns) := by
    have e1 : actionDotPart ('.' :: (pyStr "Clear" ++ ns2)) =
        firstSome (dotAlt (pyStr "Clear" ++ ns2)) recordOps := rfl
    rw [e1]
    unfold recordOps

    refine firstSome_cons_some _ _ _ _ ?_
    have e2 : dotAlt (pyStr "Clear" ++ ns2) (pyStr "Clear") =
        (tailNS ns2).map (fun x => (pyStr "Clear", x)) := rfl
    rw [e2, h]
    rfl
  have hfull : parseActionFull (' ' :: (pyStr "Next.Clear" ++ ns2)) =
      some (pyStr "Next", pyStr "Clear", ns) := by
    have e0 : parseActionFull (' ' :: (pyStr "Next.Clear" ++ ns2)) =
        firstSome (fullAlt (' ' :: (pyStr "Next.Clear" ++ ns2))) lineOps := rfl
    rw [e0]
    unfold lineOps
    rw [firstSome_cons_none _ _ _ rfl]
    refine firstSome_cons_some _ _ _ _ ?_
    have e3 : fullAlt (' ' :: (pyStr "Next.Clear" ++ ns2)) (pyStr "Next") =
        (match actionDotPart ('.' :: (pyStr "Clear" ++ ns2)) with
         | some (rop, x) => some (pyStr "Next", rop, x)
         | none => (tailNS ('.' :: (pyStr "Clear" ++ ns2))).map
             (fun x => (pyStr "Next", [], x))) := rfl
    rw [e3, hdot]
  unfold parseActionChain
  rw [hfull]

theorem chainNextClearall (ns ns2 : PyStr) (h : tailNS ns2 = some ns) :
    parseActionChain (' ' :: (pyStr "Next.Clearall" ++ ns2)) =
      .ok (pyStr "Next", pyStr "Clearall", ns) := by
  have hdot : actionDotPart ('.' :: (pyStr "Clearall" ++ ns2)) = some (pyStr "Clearall", ns) := by
    have e1 : actionDotPart ('.' :: (pyStr "Clearall" ++ ns2)) =
        firstSome (dotAlt (pyStr "Clearall" ++ ns2)) recordOps := rfl
    rw [e1]
    unfold recordOps
    rw [firstSome_cons_none _ _ _ rfl]
    refine firstSome_cons_some _ _ _ _ ?_
    have e2 : dotAlt (pyStr "Clearall" ++ ns2) (pyStr "Clearall") =
        (tailNS ns2).map (fun x => (pyStr "Clearall", x)) := rfl
    rw [e2, h]
    rfl
  have hfull : parseActionFull (' ' :: (pyStr "Next.Clearall" ++ ns2)) =
      some (pyStr "Next", pyStr "Clearall", ns) := by
    have e0 : parseActionFull (' ' :: (pyStr "Next.Clearall" ++ ns2)) =
        firstSome (fullAlt (' ' :: (pyStr "Next.Clearall" ++ ns2))) lineOps := rfl
    rw [e0]
    unfold lineOps
    rw [firstSome_cons_none _ _ _ rfl]
    refine firstSome_cons_some _ _ _ _ ?_
    have e3 : fullAlt (' ' :: (pyStr "Next.Clearall" ++ ns2)) (pyStr "Next") =
        (match actionDotPart ('.' :: (pyStr "Clearall" ++ ns2)) with
         | some (rop, x) => some (pyStr "Next", rop, x)
         | none => (tailNS ('.' :: (pyStr "Clearall" ++ ns2))).map
             (fun x => (pyStr "Next", [], x))) := rfl
    rw [e3, hdot]
  unfold parseActionChain
  rw [hfull]

theorem chainNextRecord (ns ns2 : PyStr) (h : tailNS ns2 = some ns) :
    parseActionChain (' ' :: (pyStr "Next.Record" ++ ns2)) =
      .ok (pyStr "Next", pyStr "Record", ns) := by
  have hdot : actionDotPart ('.' :: (pyStr "Record" ++ ns2)) = some (pyStr "Record", ns) := by
    have e1 : actionDotPart ('.' :: (pyStr "Record" ++ ns2)) =
        firstSome (dotAlt (pyStr "Record" ++ ns2)) recordOps := rfl
    rw [e1]
    unfold recordOps
    rw [firstSome_cons_none _ _ _ rfl]
    rw [firstSome_cons_none _ _ _ rfl]
    refine firstSome_cons_some _ _ _ _ ?_
    have e2 : dotAlt (pyStr "Record" ++ ns2) (pyStr "Record") =
        (tailNS ns2).map (fun x => (pyStr "Record", x)) := rfl
    rw [e2, h]
    rfl
  have hfull : parseActionFull (' ' :: (pyStr "Next.Record" ++ ns2)) =
      some (pyStr "Next", pyStr "Record", ns) := by
    have e0 : parseActionFull (' ' :: (pyStr "Next.Record" ++ ns2)) =
        firstSome (fullAlt (' ' :: (pyStr "Next.Record" ++ ns2))) lineOps := rfl
    rw [e0]
    unfold lineOps
    rw [firstSome_cons_none _ _ _ rfl]
    refine firstSome_cons_some _ _ _ _ ?_
    have e3 : fullAlt (' ' :: (pyStr "Next.Record" ++ ns2)) (pyStr "Next") =
        (match actionDotPart ('.' :: (pyStr "Record" ++ ns2)) with
         | some (rop, x) => some (pyStr "Next", rop, x)
         | none => (tailNS ('.' :: (pyStr "Record" ++ ns2))).map
             (fun x => (pyStr "Next", [], x))) := rfl
    rw [e3, hdot]
  unfold parseActionChain
  rw [hfull]

theorem chainNextNoRecord (ns ns2 : PyStr) (h : tailNS ns2 = some ns) :
    parseActionChain (' ' :: (pyStr "Next.NoRecord" ++ ns2)) =
      .ok (pyStr "Next", pyStr "NoRecord", ns) := by
  have hdot : actionDotPart ('.' :: (pyStr "NoRecord" ++ ns2)) = some (pyStr "NoRecord", ns) := by
    have e1 : actionDotPart ('.' :: (pyStr "NoRecord" ++ ns2)) =
        firstSome (dotAlt (pyStr "NoRecord" ++ ns2)) recordOps := rfl
    rw [e1]
    unfold recordOps
    rw [firstSome_cons_none _ _ _ rfl]
    rw [firstSome_cons_none _ _ _ rfl]
    rw [firstSome_cons_none _ _ _ rfl]
    refine firstSome_cons_some _ _ _ _ ?_
    have e2 : dotAlt (pyStr "NoRecord" ++ ns2) (pyStr "NoRecord") =
        (tailNS ns2).map (fun x => (pyStr "NoRecord", x)) := rfl
    rw [e2, h]
    rfl
  have hfull : parseActionFull (' ' :: (pyStr "Next.NoRecord" ++ ns2)) =
      some (pyStr "Next", pyStr "NoRecord", ns) := by
    have e0 : parseActionFull (' ' :: (pyStr "Next.NoRecord" ++ ns2)) =
        firstSome (fullAlt (' ' :: (pyStr "Next.NoRecord" ++ ns2))) lineOps := rfl
    rw [e0]
    unfold lineOps
    rw [firstSome_cons_none _ _ _ rfl]
    refine firstSome_cons_some _ _ _ _ ?_
    have e3 : fullAlt (' ' :: (pyStr "Next.NoRecord" ++ ns2)) (pyStr "Next") =
        (match actionDotPart ('.' :: (pyStr "NoRecord" ++ ns2)) with
         | some (rop, x) => some (pyStr "Next", rop, x)
         | none => (tailNS ('.' :: (pyStr "NoRecord" ++ ns2))).map
             (fun x => (pyStr "Next", [], x))) := rfl
    rw [e3, hdot]
  unfold parseActionChain
  rw [hfull]

theorem chainErrorClear (ns ns2 : PyStr) (h : tailNS ns2 = some ns) :
    parseActionChain (' ' :: (pyStr "Error.Clear" ++ ns2)) =
      .ok (pyStr "Error", pyStr "Clear", ns) := by
  have hdot : actionDotPart ('.' :: (pyStr "Clear" ++ ns2)) = some (pyStr "Clear", ns) := by
    have e1 : actionDotPart ('.' :: (pyStr "Clear" ++ ns2)) =
        firstSome (dotAlt (pyStr "Clear" ++ ns2)) recordOps := rfl
    rw [e1]
    unfold recordOps

    refine firstSome_cons_some _ _ _ _ ?_
    have e2 : dotAlt (pyStr "Clear" ++ ns2) (pyStr "Clear") =
        (tailNS ns2).map (fun x => (pyStr "Clear", x)) := rfl
    rw [e2, h]
    rfl
  have hfull : parseActionFull (' ' :: (pyStr "Error.Clear" ++ ns2)) =
      some (pyStr "Error", pyStr "Clear", ns) := by
    have e0 : parseActionFull (' ' :: (pyStr "Error.Clear" ++ ns2)) =
        firstSome (fullAlt (' ' :: (pyStr "Error.Clear" ++ ns2))) lineOps := rfl
    rw [e0]
    unfold lineOps
    rw [firstSome_cons_none _ _ _ rfl]
    rw [firstSome_cons_none _ _ _ rfl]
    refine firstSome_cons_some _ _ _ _ ?_
    have e3 : fullAlt (' ' :: (pyStr "Error.Clear" ++ ns2)) (pyStr "Error") =
        (match actionDotPart ('.' :: (pyStr "Clear" ++ ns2)) with
         | some (rop, x) => some (pyStr "Error", rop, x)
         | none => (tailNS ('.' :: (pyStr "Clear" ++ ns2))).map
             (fun x => (pyStr "Error", [], x))) := rfl
    rw [e3, hdot]
  unfold parseActionChain
  rw [hfull]

theorem chainErrorClearall (ns ns2 : PyStr) (h : tailNS ns2 = some ns) :
    parseActionChain (' ' :: (pyStr "Error.Clearall" ++ ns2)) =
      .ok (pyStr "Error", pyStr "Clearall", ns) := by
  have hdot : actionDotPart ('.' :: (pyStr "Clearall" ++ ns2)) = some (pyStr "Clearall", ns) := by
    have e1 : actionDotPart ('.' :: (pyStr "Clearall" ++ ns2)) =
        firstSome (dotAlt (pyStr "Clearall" ++ ns2)) recordOps := rfl
    rw [e1]
    unfold recordOps
    rw [firstSome_cons_none _ _ _ rfl]
    refine firstSome_cons_some _ _ _ _ ?_
    have e2 : dotAlt (pyStr "Clearall" ++ ns2) (pyStr "Clearall") =
        (tailNS ns2).map (fun x => (pyStr "Clearall", x)) := rfl
    rw [e2, h]
    rfl
  have hfull : parseActionFull (' ' :: (pyStr "Error.Clearall" ++ ns2)) =
      some (pyStr "Error", pyStr "Clearall", ns) := by
    have e0 : parseActionFull (' ' :: (pyStr "Error.Clearall" ++ ns2)) =
        firstSome (fullAlt (' ' :: (pyStr "Error.Clearall" ++ ns2))) lineOps := rfl
    rw [e0]
    unfold lineOps
    rw [firstSome_cons_none _ _ _ rfl]
    rw [firstSome_cons_none _ _ _ rfl]
    refine firstSome_cons_some _ _ _ _ ?_
    have e3 : fullAlt (' ' :: (pyStr "Error.Clearall" ++ ns2)) (pyStr "Error") =
        (match actionDotPart ('.' :: (pyStr "Clearall" ++ ns2)) with
         | some (rop, x) => some (pyStr "Error", rop, x)
         | none => (tailNS ('.' :: (pyStr "Clearall" ++ ns2))).map
             (fun x => (pyStr "Error", [], x))) := rfl
    rw [e3, hdot]
  unfold parseActionChain
  rw [hfull]

theorem chainErrorRecord (ns ns2 : PyStr) (h : tailNS ns2 = some ns) :
    parseActionChain (' ' :: (pyStr "Error.Record" ++ ns2)) =
      .ok (pyStr "Error", pyStr "Record", ns) := by
  have hdot : actionDotPart ('.' :: (pyStr "Record" ++ ns2)) = some (pyStr "Record", ns) := by
    have e1 : actionDotPart ('.' :: (pyStr "Record" ++ ns2)) =
        firstSome (dotAlt (pyStr "Record" ++ ns2)) recordOps := rfl
    rw [e1]
    unfold recordOps
    rw [firstSome_cons_none _ _ _ rfl]
    rw [firstSome_cons_none _ _ _ rfl]
    refine firstSome_cons_some _ _ _ _ ?_
    have e2 : dotAlt (pyStr "Record" ++ ns2) (pyStr "Record") =
        (tailNS ns2).map (fun x => (pyStr "Record", x)) := rfl
    rw [e2, h]
    rfl
  have hfull : parseActionFull (' ' :: (pyStr "Error.Record" ++ ns2)) =
      some (pyStr "Error", pyStr "Record", ns) := by
    have e0 : parseActionFull (' ' :: (pyStr "Error.Record" ++ ns2)) =
        firstSome (fullAlt (' ' :: (pyStr "Error.Record" ++ ns2))) lineOps := rfl
    rw [e0]
    unfold lineOps
    rw [firstSome_cons_none _ _ _ rfl]
    rw [firstSome_cons_none _ _ _ rfl]
    refine firstSome_cons_some _ _ _ _ ?_
    have e3 : fullAlt (' ' :: (pyStr "Error.Record" ++ ns2)) (pyStr "Error") =
        (match actionDotPart ('.' :: (pyStr "Record" ++ ns2)) with
         | some (rop, x) => some (pyStr "Error", rop, x)
         | none => (tailNS ('.' :: (pyStr "Record" ++ ns2))).map
             (fun x => (pyStr "Error", [], x))) := rfl
    rw [e3, hdot]
  unfold parseActionChain
  rw [hfull]

theorem chainErrorNoRecord (ns ns2 : PyStr) (h : tailNS ns2 = some ns) :
    parseActionChain (' ' :: (pyStr "Error.NoRecord" ++ ns2)) =
      .ok (pyStr "Error", pyStr "NoRecord", ns) := by
  have hdot : actionDotPart ('.' :: (pyStr "NoRecord" ++ ns2)) = some (pyStr "NoRecord", ns) := by
    have e1 : actionDotPart ('.' :: (pyStr "NoRecord" ++ ns2)) =
        firstSome (dotAlt (pyStr "NoRecord" ++ ns2)) recordOps := rfl
    rw [e1]
    unfold recordOps
    rw [firstSome_cons_none _ _ _ rfl]
    rw [firstSome_cons_none _ _ _ rfl]
    rw [firstSome_cons_none _ _ _ rfl]
    refine firstSome_cons_some _ _ _ _ ?_
    have e2 : dotAlt (pyStr "NoRecord" ++ ns2) (pyStr "NoRecord") =
        (tailNS ns2).map (fun x => (pyStr "NoRecord", x)) := rfl
    rw [e2, h]
    rfl
  have hfull : parseActionFull (' ' :: (pyStr "Error.NoRecord" ++ ns2)) =
      some (pyStr "Error", pyStr "NoRecord", ns) := by
    have e0 : parseActionFull (' ' :: (pyStr "Error.NoRecord" ++ ns2)) =
        firstSome (fullAlt (' ' :: (pyStr "Error.NoRecord" ++ ns2))) lineOps := rfl
    rw [e0]
    unfold lineOps
    rw [firstSome_cons_none _ _ _ rfl]
    rw [firstSome_cons_none _ _ _ rfl]
    refine firstSome_cons_some _ _ _ _ ?_
    have e3 : fullAlt (' ' :: (pyStr "Error.NoRecord" ++ ns2)) (pyStr "Error") =
        (match actionDotPart ('.' :: (pyStr "NoRecord" ++ ns2)) with
         | some (rop, x) => some (pyStr "Error", rop, x)
         | none => (tailNS ('.' :: (pyStr "NoRecord" ++ ns2))).map
             (fun x => (pyStr "Error", [], x))) := rfl
    rw [e3, hdot]
  unfold parseActionChain
  rw [hfull]

theorem chainContinue (ns ns2 : PyStr) (h : tailNS ns2 = some ns)
    (hd : actionDotPart ns2 = none) :
    parseActionChain (' ' :: (pyStr "Continue" ++ ns2)) =
      .ok (pyStr "Continue", [], ns) := by
  have hfull : parseActionFull (' ' :: (pyStr "Continue" ++ ns2)) =
      some (pyStr "Continue", [], ns) := by
    have e0 : parseActionFull (' ' :: (pyStr "Continue" ++ ns2)) =
        firstSome (fullAlt (' ' :: (pyStr "Continue" ++ ns2))) lineOps := rfl
    rw [e0]
    unfold lineOps

    refine firstSome_cons_some _ _ _ _ ?_
    have e3 : fullAlt (' ' :: (pyStr "Continue" ++ ns2)) (pyStr "Continue") =
        (match actionDotPart ns2 with
         | some (rop, x) => some (pyStr "Continue", rop, x)
         | none => (tailNS ns2).map (fun x => (pyStr "Continue", [], x))) := rfl
    rw [e3, hd, h]
    rfl
  unfold parseActionChain
  rw [hfull]

theorem chainNext (ns ns2 : PyStr) (h : tailNS ns2 = some ns)
    (hd : actionDotPart ns2 = none) :
    parseActionChain (' ' :: (pyStr "Next" ++ ns2)) =
      .ok (pyStr "Next", [], ns) := by
  have hfull : parseActionFull (' ' :: (pyStr "Next" ++ ns2)) =
      some (pyStr "Next", [], ns) := by
    have e0 : parseActionFull (' ' :: (pyStr "Next" ++ ns2)) =
        firstSome (fullAlt (' ' :: (pyStr "Next" ++ ns2))) lineOps := rfl
    rw [e0]
    unfold lineOps
    rw [firstSome_cons_none _ _ _ rfl]
    refine firstSome_cons_some _ _ _ _ ?_
    have e3 : fullAlt (' ' :: (pyStr "Next" ++ ns2)) (pyStr "Next") =
        (match actionDotPart ns2 with
         | some (rop, x) => some (pyStr "Next", rop, x)
         | none => (tailNS ns2).map (fun x => (pyStr "Next", [], x))) := rfl
    rw [e3, hd, h]
    rfl
  unfold parseActionChain
  rw [hfull]

theorem chainError (ns ns2 : PyStr) (h : tailNS ns2 = some ns)
    (hd : actionDotPart ns2 = none) :
    parseActionChain (' ' :: (pyStr "Error" ++ ns2)) =
      .ok (pyStr "Error", [], ns) := by
  have hfull : parseActionFull (' ' :: (pyStr "Error" ++ ns2)) =
      some (pyStr "Error", [], ns) := by
    have e0 : parseActionFull (' ' :: (pyStr "Error" ++ ns2)) =
        firstSome (fullAlt (' ' :: (pyStr "Error" ++ ns2))) lineOps := rfl
    rw [e0]
    unfold lineOps
    rw [firstSome_cons_none _ _ _ rfl]
    rw [firstSome_cons_none _ _ _ rfl]
    refine firstSome_cons_some _ _ _ _ ?_
    have e3 : fullAlt (' ' :: (pyStr "Error" ++ ns2)) (pyStr "Error") =
        (match actionDotPart ns2 with
         | some (rop, x) => some (pyStr "Error", rop, x)
         | none => (tailNS ns2).map (fun x => (pyStr "Error", [], x))) := rfl
    rw [e3, hd, h]
    rfl
  unfold parseActionChain
  rw [hfull]

theorem chainRecClear (ns ns2 : PyStr) (h : tailNS ns2 = some ns) :
    parseActionChain (' ' :: (pyStr "Clear" ++ ns2)) =
      .ok ([], pyStr "Clear", ns) := by
  have hfull : parseActionFull (' ' :: (pyStr "Clear" ++ ns2)) = none := by
    have e0 : parseActionFull (' ' :: (pyStr "Clear" ++ ns2)) =
        firstSome (fullAlt (' ' :: (pyStr "Clear" ++ ns2))) lineOps := rfl
    rw [e0]
    unfold lineOps
    rw [firstSome_cons_none _ _ _ rfl]
    rw [firstSome_cons_none _ _ _ rfl]
    rw [firstSome_cons_none _ _ _ rfl]
    rfl
  have hrec : parseActionRec (' ' :: (pyStr "Clear" ++ ns2)) = some (pyStr "Clear", ns) := by
    have e0 : parseActionRec (' ' :: (pyStr "Clear" ++ ns2)) =
        firstSome (recAlt (' ' :: (pyStr "Clear" ++ ns2))) recordOps := rfl
    rw [e0]
    unfold recordOps

    refine firstSome_cons_some _ _ _ _ ?_
    have e1 : recAlt (' ' :: (pyStr "Clear" ++ ns2)) (pyStr "Clear") =
        (tailNS ns2).map (fun x => (pyStr "Clear", x)) := rfl
    rw [e1, h]
    rfl
  unfold parseActionChain
  rw [hfull, hrec]

theorem chainRecClearall (ns ns2 : PyStr) (h : tailNS ns2 = some ns) :
    parseActionChain (' ' :: (pyStr "Clearall" ++ ns2)) =
      .ok ([], pyStr "Clearall", ns) := by
  have hfull : parseActionFull (' ' :: (pyStr "Clearall" ++ ns2)) = none := by
    have e0 : parseActionFull (' ' :: (pyStr "Clearall" ++ ns2)) =
        firstSome (fullAlt (' ' :: (pyStr "Clearall" ++ ns2))) lineOps := rfl
    rw [e0]
    unfold lineOps
    rw [firstSome_cons_none _ _ _ rfl]
    rw [firstSome_cons_none _ _ _ rfl]
    rw [firstSome_cons_none _ _ _ rfl]
    rfl
  have hrec : parseActionRec (' ' :: (pyStr "Clearall" ++ ns2)) = some (pyStr "Clearall", ns) := by
    have e0 : parseActionRec (' ' :: (pyStr "Clearall" ++ ns2)) =
        firstSome (recAlt (' ' :: (pyStr "Clearall" ++ ns2))) recordOps := rfl
    rw [e0]
    unfold recordOps
    rw [firstSome_cons_none _ _ _ rfl]
    refine firstSome_cons_some _ _ _ _ ?_
    have e1 : recAlt (' ' :: (pyStr "Clearall" ++ ns2)) (pyStr "Clearall") =
        (tailNS ns2).map (fun x => (pyStr "Clearall", x)) := rfl
    rw [e1, h]
    rfl
  unfold parseActionChain
  rw [hfull, hrec]

theorem chainRecRecord (ns ns2 : PyStr) (h : tailNS ns2 = some ns) :
    parseActionChain (' ' :: (pyStr "Record" ++ ns2)) =
      .ok ([], pyStr "Record", ns) := by
  have hfull : parseActionFull (' ' :: (pyStr "Record" ++ ns2)) = none := by
    have e0 : parseActionFull (' ' :: (pyStr "Record" ++ ns2)) =
        firstSome (fullAlt (' ' :: (pyStr "Record" ++ ns2))) lineOps := rfl
    rw [e0]
    unfold lineOps
    rw [firstSome_cons_none _ _ _ rfl]
    rw [firstSome_cons_none _ _ _ rfl]
    rw [firstSome_cons_none _ _ _ rfl]
    rfl
  have hrec : parseActionRec (' ' :: (pyStr "Record" ++ ns2)) = some (pyStr "Record", ns) := by
    have e0 : parseActionRec (' ' :: (pyStr "Record" ++ ns2)) =
        firstSome (recAlt (' ' :: (pyStr "Record" ++ ns2))) recordOps := rfl
    rw [e0]
    unfold recordOps
    rw [firstSome_cons_none _ _ _ rfl]
    rw [firstSome_cons_none _ _ _ rfl]
    refine firstSome_cons_some _ _ _ _ ?_
    have e1 : recAlt (' ' :: (pyStr "Record" ++ ns2)) (pyStr "Record") =
        (tailNS ns2).map (fun x => (pyStr "Record", x)) := rfl
    rw [e1, h]
    rfl
  unfold parseActionChain
  rw [hfull, hrec]

theorem chainRecNoRecord (ns ns2 : PyStr) (h : tailNS ns2 = some ns) :
    parseActionChain (' ' :: (pyStr "NoRecord" ++ ns2)) =
      .ok ([], pyStr "NoRecord", ns) := by
  have hfull : parseActionFull (' ' :: (pyStr "NoRecord" ++ ns2)) = none := by
    have e0 : parseActionFull (' ' :: (pyStr "NoRecord" ++ ns2)) =
        firstSome (fullAlt (' ' :: (pyStr "NoRecord" ++ ns2))) lineOps := rfl
    rw [e0]
    unfold lineOps
    rw [firstSome_cons_none _ _ _ rfl]
    rw [firstSome_cons_none _ _ _ rfl]
    rw [firstSome_cons_none _ _ _ rfl]
    rfl
  have hrec : parseActionRec (' ' :: (pyStr "NoRecord" ++ ns2)) = some (pyStr "NoRecord", ns) := by
    have e0 : parseActionRec (' ' :: (pyStr "NoRecord" ++ ns2)) =
        firstSome (recAlt (' ' :: (pyStr "NoRecord" ++ ns2))) recordOps := rfl
    rw [e0]
    unfold recordOps
    rw [firstSome_cons_none _ _ _ rfl]
    rw [firstSome_cons_none _ _ _ rfl]
    rw [firstSome_cons_none _ _ _ rfl]
    refine firstSome_cons_some _ _ _ _ ?_
    have e1 : recAlt (' ' :: (pyStr "NoRecord" ++ ns2)) (pyStr "NoRecord") =
        (tailNS ns2).map (fun x => (pyStr "NoRecord", x)) := rfl
    rw [e1, h]
    rfl
  unfold parseActionChain
  rw [hfull, hrec]

theorem chainNsOnly (ns : PyStr) (hw : isWordName ns = true)
    (h1 : ns ∉ lineOps) (h2 : ns ∉ recordOps) :
    parseActionChain (' ' :: ns) = .ok ([], [], ns) := by
  obtain ⟨hne, hall⟩ := isWordName_parts hw
  have hdrop : (' ' :: ns).dropWhile isPySpace = ns := by
    cases ns with
    | nil => cases hne rfl
    | cons c t =>
      have hcw := List.all_eq_true.mp hall c (by simp)
      rw [List.dropWhile_cons]
      rw [show isPySpace ' ' = true from rfl]
      simp [List.dropWhile_cons, wordChar_not_space hcw]
  have hfull : parseActionFull (' ' :: ns) = none := by
    have e0 : parseActionFull (' ' :: ns) = firstSome (fullAlt (' ' :: ns)) lineOps := by
      cases ns with
      | nil => cases hne rfl
      | cons c t => rfl
    rw [e0]
    unfold lineOps
    rw [firstSome_cons_none _ _ _ (fullAlt_none_word _ ns _ hdrop hall
      (fun he => h1 (by rw [he]; unfold lineOps; simp)))]
    rw [firstSome_cons_none _ _ _ (fullAlt_none_word _ ns _ hdrop hall
      (fun he => h1 (by rw [he]; unfold lineOps; simp)))]
    rw [firstSome_cons_none _ _ _ (fullAlt_none_word _ ns _ hdrop hall
      (fun he => h1 (by rw [he]; unfold lineOps; simp)))]
    rfl
  have hrec : parseActionRec (' ' :: ns) = none := by
    have e0 : parseActionRec (' ' :: ns) = firstSome (recAlt (' ' :: ns)) recordOps := by
      cases ns with
      | nil => cases hne rfl
      | cons c t => rfl
    rw [e0]
    unfold recordOps
    rw [firstSome_cons_none _ _ _ (recAlt_none_word _ ns _ hdrop hall
      (fun he => h2 (by rw [he]; unfold recordOps; simp)))]
    rw [firstSome_cons_none _ _ _ (recAlt_none_word _ ns _ hdrop hall
      (fun he => h2 (by rw [he]; unfold recordOps; simp)))]
    rw [firstSome_cons_none _ _ _ (recAlt_none_word _ ns _ hdrop hall
      (fun he => h2 (by rw [he]; unfold recordOps; simp)))]
    rw [firstSome_cons_none _ _ _ (recAlt_none_word _ ns _ hdrop hall
      (fun he => h2 (by rw [he]; unfold recordOps; simp)))]
    rfl
  have hdef : parseActionDefault (' ' :: ns) = some ns := tailNS_space_word ns hw
  unfold parseActionChain
  rw [hfull, hrec, hdef]

theorem pyStrip_indent (s : PyStr) (hhead : s.head? = some '^')
    (hrs : pyRstrip s = s) : pyStrip (pyStr "  " ++ s) = s := by
  unfold pyStrip pyLstrip
  cases s with
  | nil => cases hhead
  | cons c t =>
    have hc : c = '^' := by simpa using hhead
    subst hc
    rw [show (pyStr "  " ++ '^' :: t).dropWhile isPySpace = '^' :: t from rfl]
    exact hrs

theorem pyRstrip_append_last (X Y : PyStr) (hY : Y ≠ [])
    (hlast : ∀ c, Y.getLast? = some c → isPySpace c = false) :
    pyRstrip (X ++ Y) = X ++ Y := by
  apply pyRstrip_eq_self
  intro c hc
  rw [List.getLast?_append_of_ne_nil _ hY] at hc
  exact hlast c hc

theorem quotedTok_last {ns : PyStr} (hq : quotedTok ns = true) :
    ns.getLast? = some '"' := by
  obtain ⟨t, rfl⟩ := quotedTok_head hq
  have hq2 : (t.getLast? == some '"') = true := hq
  have hq3 : t.getLast? = some '"' := by simpa using hq2
  cases t with
  | nil => cases hq3
  | cons c t2 => rw [List.getLast?_cons_cons]; exact hq3

theorem word_getLast {ns : PyStr} (h : ns.all isWordChar = true) :
    ∀ c, ns.getLast? = some c → isPySpace c = false := by
  intro c hc
  exact wordChar_not_space (List.all_eq_true.mp h c (getLast?_mem hc))

theorem ruleChecks_ok (m regex lop rop ns : PyStr)
    (h1 : (lop = pyStr "Continue" && !ns.isEmpty) = false)
    (h2 : (lop ≠ pyStr "Error" && !ns.isEmpty && !nsHeadWord ns) = false) :
    ruleChecks m regex lop rop ns =
      .ok { rmatch := m, regex := regex, line_op := lop, record_op := rop,
            new_state := ns } := by
  unfold ruleChecks
  rw [h1, h2]
  simp

theorem except_toOption_ok {x : Except TemplateErr PyStr} {y : PyStr}
    (h : x.toOption = some y) : x = .ok y := by
  cases x with
  | ok a =>
    have ha : a = y := by simpa [Except.toOption] using h
    rw [ha]
  | error e => simp [Except.toOption] at h

theorem ruleParse_eval (reOk : PyStr → Bool) (vmap : List (PyStr × PyStr))
    (line stripped : PyStr) (hstrip : pyStrip line = stripped)
    (hne : stripped.isEmpty = false) :
    ruleParse reOk vmap line = ruleFromSplit reOk vmap stripped := by
  unfold ruleParse
  rw [hstrip, hne]
  simp

theorem ruleFromSplit_none (reOk : PyStr → Bool) (vmap : List (PyStr × PyStr))
    (s : PyStr) (h : matchActionSplit s = none) :
    ruleFromSplit reOk vmap s = ruleNoAction reOk vmap s := by
  unfold ruleFromSplit
  rw [h]

theorem ruleFromSplit_some (reOk : PyStr → Bool) (vmap : List (PyStr × PyStr))
    (s m a : PyStr) (h : matchActionSplit s = some (m, a)) :
    ruleFromSplit reOk vmap s = ruleWithAction reOk vmap m a := by
  unfold ruleFromSplit
  rw [h]

theorem ruleNoAction_eval (reOk : PyStr → Bool) (vmap : List (PyStr × PyStr))
    (m regex : PyStr) (hsub : ruleSub vmap m = .ok regex) (hreok : reOk regex = true) :
    ruleNoAction reOk vmap m =
      .ok { rmatch := m, regex := regex, line_op := [], record_op := [],
            new_state := [] } := by
  unfold ruleNoAction
  rw [hsub]
  show (if !reOk regex then (Except.error "Invalid regular expression." : Except TemplateErr SRule)
        else Except.ok { rmatch := m, regex := regex, line_op := [], record_op := [],
                         new_state := ([] : PyStr) }) = _
  rw [hreok]
  rfl

theorem ruleWithAction_eval (reOk : PyStr → Bool) (vmap : List (PyStr × PyStr))
    (m a regex lop rop ns : PyStr) (hsub : ruleSub vmap m = .ok regex)
    (hreok : reOk regex = true)
    (hchain : parseActionChain a = .ok (lop, rop, ns)) :
    ruleWithAction reOk vmap m a = ruleChecks m regex lop rop ns := by
  unfold ruleWithAction
  rw [hsub]
  show (if !reOk regex then Except.error "Invalid regular expression."
        else match parseActionChain a with
             | .error e => .error e
             | .ok (lop, rop, ns) => ruleChecks m regex lop rop ns) = _
  rw [hreok]
  show (match parseActionChain a with
        | .error e => .error e
        | .ok (lop, rop, ns) => ruleChecks m regex lop rop ns) =
      ruleChecks m regex lop rop ns
  rw [hchain]

/-- The canonical rule line with no action parses back to the all-default
rule. -/
theorem ruleParse_noaction (reOk : PyStr → Bool) (vmap : List (PyStr × PyStr))
    (rm regex mt : PyStr) (hm : rm = '^' :: mt)
    (hrs : pyRstrip rm = rm)
    (hsplit : matchActionSplit rm = none)
    (hsub : ruleSub vmap rm = .ok regex)
    (hreok : reOk regex = true) :
    ruleParse reOk vmap (pyStr "  " ++ rm) =
      .ok { rmatch := rm, regex := regex, line_op := [], record_op := [],
            new_state := [] } := by
  have hstrip : pyStrip (pyStr "  " ++ rm) = rm :=
    pyStrip_indent rm (by rw [hm]; rfl) hrs
  rw [ruleParse_eval reOk vmap _ rm hstrip (by rw [hm]; rfl)]
  rw [ruleFromSplit_none reOk vmap rm hsplit]
  exact ruleNoAction_eval reOk vmap rm regex hsub hreok

theorem cons_ne_arrow {c : Char} (hc : c ≠ '-') (t : PyStr) :
    ∀ a, (c :: t) ≠ '-' :: '>' :: a := by
  intro a heq
  injection heq with h1 _
  exact hc h1

theorem word_not_arrow {ns : PyStr} (h : ns.all isWordChar = true) :
    ∀ a, ns ≠ '-' :: '>' :: a := by
  intro a heq
  rw [heq, List.all_cons] at h
  simp only [Bool.and_eq_true] at h
  exact absurd h.1 (by decide)

theorem split_none_space_word (ns : PyStr) (h : ns.all isWordChar = true) :
    matchActionSplit (' ' :: ns) = none :=
  matchActionSplit_none_cons ' ' ns (matchActionSplit_word ns h) (Or.inr (word_not_arrow h))

theorem split_none_space_quoted (ns : PyStr) (hq : quotedTok ns = true)
    (hs : matchActionSplit ns = none) :
    matchActionSplit (' ' :: ns) = none := by
  obtain ⟨t, rfl⟩ := quotedTok_head hq
  exact matchActionSplit_none_cons ' ' _ hs (Or.inr (cons_ne_arrow (by decide) t))

theorem split_none_spaceB (opstr ns2 : PyStr)
    (hchars : ∀ c ∈ opstr, isPySpace c = false)
    (hsplit2 : matchActionSplit ns2 = none)
    (hheadB : ∀ a, opstr ++ ns2 ≠ '-' :: '>' :: a) :
    matchActionSplit (' ' :: (opstr ++ ns2)) = none :=
  matchActionSplit_none_cons ' ' _
    (matchActionSplit_none_append opstr ns2 hchars hsplit2) (Or.inr hheadB)

theorem nsHeadWord_of_word {ns : PyStr} (h : isWordName ns = true) :
    nsHeadWord ns = true := by
  obtain ⟨hne, hall⟩ := isWordName_parts h
  cases ns with
  | nil => cases hne rfl
  | cons c t =>
    show isWordChar c = true
    exact List.all_eq_true.mp hall c (by simp)

/-- The canonical rule line with an action parses back through the split,
the substitution, the action chain and the final checks. -/
theorem ruleParse_action (reOk : PyStr → Bool) (vmap : List (PyStr × PyStr))
    (rm mt B regex lop rop ns : PyStr) (hm : rm = '^' :: mt)
    (hBne : B ≠ [])
    (hBlast : ∀ c, B.getLast? = some c → isPySpace c = false)
    (hBsplit : matchActionSplit (' ' :: B) = none)
    (hchain : parseActionChain (' ' :: B) = .ok (lop, rop, ns))
    (hsub : ruleSub vmap rm = .ok regex)
    (hreok : reOk regex = true)
    (hc1 : (lop = pyStr "Continue" && !ns.isEmpty) = false)
    (hc2 : (lop ≠ pyStr "Error" && !ns.isEmpty && !nsHeadWord ns) = false) :
    ruleParse reOk vmap (pyStr "  " ++ rm ++ pyStr " -> " ++ B) =
      .ok { rmatch := rm, regex := regex, line_op := lop, record_op := rop,
            new_state := ns } := by
  have hline : pyStr "  " ++ rm ++ pyStr " -> " ++ B =
      pyStr "  " ++ (rm ++ (pyStr " -> " ++ B)) := by simp
  have hsA : pyStrip (pyStr "  " ++ (rm ++ (pyStr " -> " ++ B))) =
      rm ++ (pyStr " -> " ++ B) := by
    apply pyStrip_indent
    · rw [hm]; rfl
    · rw [show rm ++ (pyStr " -> " ++ B) = (rm ++ pyStr " -> ") ++ B by simp]
      exact pyRstrip_append_last _ B hBne hBlast
  have hsplit2 : matchActionSplit (rm ++ (pyStr " -> " ++ B)) = some (rm, ' ' :: B) :=
    matchActionSplit_append rm (' ' :: B) hBsplit
  have hneS : (rm ++ (pyStr " -> " ++ B)).isEmpty = false := by rw [hm]; rfl
  rw [hline, ruleParse_eval reOk vmap _ _ hsA hneS]
  rw [ruleFromSplit_some reOk vmap _ rm (' ' :: B) hsplit2]
  rw [ruleWithAction_eval reOk vmap rm (' ' :: B) regex lop rop ns hsub hreok hchain]
  exact ruleChecks_ok rm regex lop rop ns hc1 hc2

/-- The generic action-carrying case of the rule round trip, given the
computed serialization pieces and the action-chain result. -/
theorem roundtrip_action_case (reOk : PyStr → Bool) (vmap : List (PyStr × PyStr))
    (mt regex lop rop ns opstr ns2 : PyStr)
    (hop : ruleOperation ⟨'^' :: mt, regex, lop, rop, ns⟩ = opstr)
    (hns2 : ruleNewState ⟨'^' :: mt, regex, lop, rop, ns⟩ = ns2)
    (hcond : ((ruleOperation ⟨'^' :: mt, regex, lop, rop, ns⟩).isEmpty &&
        (ruleNewState ⟨'^' :: mt, regex, lop, rop, ns⟩).isEmpty) = false)
    (hBne : opstr ++ ns2 ≠ [])
    (hBlast : ∀ c, (opstr ++ ns2).getLast? = some c → isPySpace c = false)
    (hBsplit : matchActionSplit (' ' :: (opstr ++ ns2)) = none)
    (hchain : parseActionChain (' ' :: (opstr ++ ns2)) = .ok (lop, rop, ns))
    (hsub : ruleSub vmap ('^' :: mt) = .ok regex)
    (hreok : reOk regex = true)
    (hc1 : (lop = pyStr "Continue" && !ns.isEmpty) = false)
    (hc2 : (lop ≠ pyStr "Error" && !ns.isEmpty && !nsHeadWord ns) = false) :
    ruleParse reOk vmap (serializeRule ⟨'^' :: mt, regex, lop, rop, ns⟩) =
      .ok ⟨'^' :: mt, regex, lop, rop, ns⟩ ∧
    pyRstrip (serializeRule ⟨'^' :: mt, regex, lop, rop, ns⟩) =
      serializeRule ⟨'^' :: mt, regex, lop, rop, ns⟩ := by
  have hser : serializeRule ⟨'^' :: mt, regex, lop, rop, ns⟩ =
      pyStr "  " ++ ('^' :: mt) ++ pyStr " -> " ++ (opstr ++ ns2) := by
    unfold serializeRule
    rw [hcond, if_neg Bool.false_ne_true, hop, hns2]
    simp [List.append_assoc]
  rw [hser]
  constructor
  · exact ruleParse_action reOk vmap ('^' :: mt) mt (opstr ++ ns2) regex lop rop ns rfl
      hBne hBlast hBsplit hchain hsub hreok hc1 hc2
  · exact pyRstrip_append_last _ _ hBne hBlast

theorem last_nonspace_of_rstrip {s : PyStr} (hrs : pyRstrip s = s) :
    ∀ c, s.getLast? = some c → isPySpace c = false := by
  intro c hc
  by_contra hsp
  have hsp2 : isPySpace c = true := by
    cases h : isPySpace c
    · exact absurd h hsp
    · rfl
  obtain ⟨l2, rfl⟩ := List.getLast?_eq_some_iff.mp hc
  have hdrop : pyRstrip (l2 ++ [c]) = pyRstrip l2 := by
    unfold pyRstrip
    rw [List.reverse_append]
    simp [List.dropWhile_cons, hsp2]
  rw [hdrop] at hrs
  have hlw : ∀ (l : List Char), (List.dropWhile isPySpace l).length ≤ l.length := by
    intro l
    induction l with
    | nil => simp
    | cons a t ih =>
      rw [List.dropWhile_cons]
      split
      · exact Nat.le_succ_of_le ih
      · simp
  have hlen : (pyRstrip l2).length ≤ l2.length := by
    unfold pyRstrip
    rw [List.length_reverse]
    calc (List.dropWhile isPySpace l2.reverse).length
        ≤ l2.reverse.length := hlw _
      _ = l2.length := List.length_reverse _
  rw [hrs] at hlen
  simp at hlen

theorem last_nonspace_of_eq {X : PyStr} {d : Char} (hx : X.getLast? = some d)
    (hd : isPySpace d = false) : ∀ c, X.getLast? = some c → isPySpace c = false := by
  intro c hc
  rw [hx] at hc
  injection hc with h
  rw [← h]
  exact hd

/-- The canonical serialization of a well-formed rule parses back to the
rule itself, and is fixed by the right-strip applied to template lines. -/
theorem serializeRule_roundtrip (reOk : PyStr → Bool) (vmap : List (PyStr × PyStr))
    (r : SRule) (hwf : WFRule vmap reOk r) :
    ruleParse reOk vmap (serializeRule r) = .ok r ∧
    pyRstrip (serializeRule r) = serializeRule r := by
  obtain ⟨rm, regex, rl, rr, rn⟩ := r
  obtain ⟨hcaret, hnl, hlop, hrop, hns, hcont, hnsonly, hdefault, hregex, hreok⟩ := hwf
  obtain ⟨mt, rfl⟩ : ∃ mt, rm = '^' :: mt := by
    cases rm with
    | nil => simp at hcaret
    | cons c t =>
      refine ⟨t, ?_⟩
      have hc : c = '^' := by simpa using hcaret
      rw [hc]
  have hsub : ruleSub vmap ('^' :: mt) = Except.ok regex := except_toOption_ok hregex
  rcases hlop with rfl | hl
  · rcases hrop with rfl | hr
    · by_cases hnse : rn = []
      · subst hnse
        obtain ⟨hsplit, hrs⟩ := hdefault rfl rfl rfl
        rw [show serializeRule ⟨'^' :: mt, regex, [], [], []⟩ = pyStr "  " ++ ('^' :: mt)
          from rfl]
        constructor
        · exact ruleParse_noaction reOk vmap ('^' :: mt) regex mt rfl hrs hsplit hsub hreok
        · exact pyRstrip_append_last _ _ (by simp) (last_nonspace_of_rstrip hrs)
      · obtain ⟨hnsl, hnsr⟩ := hnsonly rfl rfl hnse
        have hword : isWordName rn = true := by
          rcases hns with h | h | h
          · exact absurd h hnse
          · exact h
          · have hco : ([] : PyStr) = pyStr "Error" := h.1
            exact absurd hco (by decide)
        obtain ⟨hne0, hall⟩ := isWordName_parts hword
        obtain ⟨c, t, rfl⟩ : ∃ c t, rn = c :: t := by
          cases rn with
          | nil => cases hne0 rfl
          | cons c t => exact ⟨c, t, rfl⟩
        refine roundtrip_action_case reOk vmap mt regex [] [] (c :: t) [] (c :: t)
          rfl rfl rfl (by simp) ?_ ?_ ?_ hsub hreok ?_ ?_
        · intro cc hcc
          exact word_getLast hall cc (by simpa using hcc)
        · show matchActionSplit (' ' :: (c :: t)) = none
          exact split_none_space_word _ hall
        · show parseActionChain (' ' :: (c :: t)) = .ok ([], [], c :: t)
          exact chainNsOnly _ hword hnsl hnsr
        · rw [show (decide (([] : PyStr) = pyStr "Continue")) = false from by decide]
          rfl
        · rw [nsHeadWord_of_word hword]
          simp
    · have hr4 : rr = pyStr "Clear" ∨ rr = pyStr "Clearall" ∨ rr = pyStr "Record" ∨
          rr = pyStr "NoRecord" := by
        unfold recordOps at hr
        simpa using hr
      have hnsW : rn = [] ∨ isWordName rn = true := by
        rcases hns with h | h | h
        · exact Or.inl h
        · exact Or.inr h
        · have hco : ([] : PyStr) = pyStr "Error" := h.1
          exact absurd hco (by decide)
      rcases hr4 with rfl | rfl | rfl | rfl
      · rcases hnsW with rfl | hword
        · refine roundtrip_action_case reOk vmap mt regex [] (pyStr "Clear") [] (pyStr "Clear") []
            ?_ ?_ ?_ (by decide)
            (last_nonspace_of_eq (show ((pyStr "Clear") ++ ([] : PyStr)).getLast? = some 'r' from rfl) (by decide))
            ?_ ?_ hsub hreok ?_ ?_
          all_goals rfl
        · obtain ⟨hne0, hall⟩ := isWordName_parts hword
          obtain ⟨c, t, rfl⟩ : ∃ c t, rn = c :: t := by
            cases rn with
            | nil => cases hne0 rfl
            | cons c t => exact ⟨c, t, rfl⟩
          refine roundtrip_action_case reOk vmap mt regex [] (pyStr "Clear") (c :: t) (pyStr "Clear")
            (' ' :: c :: t) rfl rfl rfl (by simp) ?_ ?_ ?_ hsub hreok ?_ ?_
          · intro cc hcc
            rw [List.getLast?_append_of_ne_nil _ (by simp : (' ' :: c :: t : PyStr) ≠ [])] at hcc
            rw [List.getLast?_cons_cons] at hcc
            exact word_getLast hall cc hcc
          · exact split_none_spaceB _ _ (by decide) (split_none_space_word _ hall)
              (cons_ne_arrow (by decide) _)
          · exact chainRecClear (c :: t) (' ' :: c :: t) (tailNS_space_word _ hword)
          · rw [show (decide (([] : PyStr) = pyStr "Continue")) = false from by decide]
            rfl
          · rw [nsHeadWord_of_word hword]
            simp
      · rcases hnsW with rfl | hword
        · refine roundtrip_action_case reOk vmap mt regex [] (pyStr "Clearall") [] (pyStr "Clearall") []
            ?_ ?_ ?_ (by decide)
            (last_nonspace_of_eq (show ((pyStr "Clearall") ++ ([] : PyStr)).getLast? = some 'l' from rfl) (by decide))
            ?_ ?_ hsub hreok ?_ ?_
          all_goals rfl
        · obtain ⟨hne0, hall⟩ := isWordName_parts hword
          obtain ⟨c, t, rfl⟩ : ∃ c t, rn = c :: t := by
            cases rn with
            | nil => cases hne0 rfl
            | cons c t => exact ⟨c, t, rfl⟩
          refine roundtrip_action_case reOk vmap mt regex [] (pyStr "Clearall") (c :: t) (pyStr "Clearall")
            (' ' :: c :: t) rfl rfl rfl (by simp) ?_ ?_ ?_ hsub hreok ?_ ?_
          · intro cc hcc
            rw [List.getLast?_append_of_ne_nil _ (by simp : (' ' :: c :: t : PyStr) ≠ [])] at hcc
            rw [List.getLast?_cons_cons] at hcc
            exact word_getLast hall cc hcc
          · exact split_none_spaceB _ _ (by decide) (split_none_space_word _ hall)
              (cons_ne_arrow (by decide) _)
          · exact chainRecClearall (c :: t) (' ' :: c :: t) (tailNS_space_word _ hword)
          · rw [show (decide (([] : PyStr) = pyStr "Continue")) = false from by decide]
            rfl
          · rw [nsHeadWord_of_word hword]
            simp
      · rcases hnsW with rfl | hword
        · refine roundtrip_action_case reOk vmap mt regex [] (pyStr "Record") [] (pyStr "Record") []
            ?_ ?_ ?_ (by decide)
            (last_nonspace_of_eq (show ((pyStr "Record") ++ ([] : PyStr)).getLast? = some 'd' from rfl) (by decide))
            ?_ ?_ hsub hreok ?_ ?_
          all_goals rfl
        · obtain ⟨hne0, hall⟩ := isWordName_parts hword
          obtain ⟨c, t, rfl⟩ : ∃ c t, rn = c :: t := by
            cases rn with
            | nil => cases hne0 rfl
            | cons c t => exact ⟨c, t, rfl⟩
          refine roundtrip_action_case reOk vmap mt regex [] (pyStr "Record") (c :: t) (pyStr "Record")
            (' ' :: c :: t) rfl rfl rfl (by simp) ?_ ?_ ?_ hsub hreok ?_ ?_
          · intro cc hcc
            rw [List.getLast?_append_of_ne_nil _ (by simp : (' ' :: c :: t : PyStr) ≠ [])] at hcc
            rw [List.getLast?_cons_cons] at hcc
            exact word_getLast hall cc hcc
          · exact split_none_spaceB _ _ (by decide) (split_none_space_word _ hall)
              (cons_ne_arrow (by decide) _)
          · exact chainRecRecord (c :: t) (' ' :: c :: t) (tailNS_space_word _ hword)
          · rw [show (decide (([] : PyStr) = pyStr "Continue")) = false from by decide]
            rfl
          · rw [nsHeadWord_of_word hword]
            simp
      · rcases hnsW with rfl | hword
        · refine roundtrip_action_case reOk vmap mt regex [] (pyStr "NoRecord") [] (pyStr "NoRecord") []
            ?_ ?_ ?_ (by decide)
            (last_nonspace_of_eq (show ((pyStr "NoRecord") ++ ([] : PyStr)).getLast? = some 'd' from rfl) (by decide))
            ?_ ?_ hsub hreok ?_ ?_
          all_goals rfl
        · obtain ⟨hne0, hall⟩ := isWordName_parts hword
          obtain ⟨c, t, rfl⟩ : ∃ c t, rn = c :: t := by
            cases rn with
            | nil => cases hne0 rfl
            | cons c t => exact ⟨c, t, rfl⟩
          refine roundtrip_action_case reOk vmap mt regex [] (pyStr "NoRecord") (c :: t) (pyStr "NoRecord")
            (' ' :: c :: t) rfl rfl rfl (by simp) ?_ ?_ ?_ hsub hreok ?_ ?_
          · intro cc hcc
            rw [List.getLast?_append_of_ne_nil _ (by simp : (' ' :: c :: t : PyStr) ≠ [])] at hcc
            rw [List.getLast?_cons_cons] at hcc
            exact word_getLast hall cc hcc
          · exact split_none_spaceB _ _ (by decide) (split_none_space_word _ hall)
              (cons_ne_arrow (by decide) _)
          · exact chainRecNoRecord (c :: t) (' ' :: c :: t) (tailNS_space_word _ hword)
          · rw [show (decide (([] : PyStr) = pyStr "Continue")) = false from by decide]
            rfl
          · rw [nsHeadWord_of_word hword]
            simp
  · have hl3 : rl = pyStr "Continue" ∨ rl = pyStr "Next" ∨ rl = pyStr "Error" := by
      unfold lineOps at hl
      simpa using hl
    rcases hl3 with rfl | rfl | rfl
    · have hrn : rn = [] := hcont rfl
      subst hrn
      rcases hrop with rfl | hr
      · refine roundtrip_action_case reOk vmap mt regex (pyStr "Continue") [] [] (pyStr "Continue") []
          ?_ ?_ ?_ (by decide)
          (last_nonspace_of_eq (show ((pyStr "Continue") ++ ([] : PyStr)).getLast? = some 'e' from rfl) (by decide))
          ?_ ?_ hsub hreok ?_ ?_
        all_goals rfl
      · have hr4 : rr = pyStr "Clear" ∨ rr = pyStr "Clearall" ∨ rr = pyStr "Record" ∨
            rr = pyStr "NoRecord" := by
          unfold recordOps at hr
          simpa using hr
        rcases hr4 with rfl | rfl | rfl | rfl
        · refine roundtrip_action_case reOk vmap mt regex (pyStr "Continue") (pyStr "Clear") [] (pyStr "Continue.Clear") []
            ?_ ?_ ?_ (by decide)
            (last_nonspace_of_eq (show ((pyStr "Continue.Clear") ++ ([] : PyStr)).getLast? = some 'r' from rfl) (by decide))
            ?_ ?_ hsub hreok ?_ ?_
          all_goals rfl
        · refine roundtrip_action_case reOk vmap mt regex (pyStr "Continue") (pyStr "Clearall") [] (pyStr "Continue.Clearall") []
            ?_ ?_ ?_ (by decide)
            (last_nonspace_of_eq (show ((pyStr "Continue.Clearall") ++ ([] : PyStr)).getLast? = some 'l' from rfl) (by decide))
            ?_ ?_ hsub hreok ?_ ?_
          all_goals rfl
        · refine roundtrip_action_case reOk vmap mt regex (pyStr "Continue") (pyStr "Record") [] (pyStr "Continue.Record") []
            ?_ ?_ ?_ (by decide)
            (last_nonspace_of_eq (show ((pyStr "Continue.Record") ++ ([] : PyStr)).getLast? = some 'd' from rfl) (by decide))
            ?_ ?_ hsub hreok ?_ ?_
          all_goals rfl
        · refine roundtrip_action_case reOk vmap mt regex (pyStr "Continue") (pyStr "NoRecord") [] (pyStr "Continue.NoRecord") []
            ?_ ?_ ?_ (by decide)
            (last_nonspace_of_eq (show ((pyStr "Continue.NoRecord") ++ ([] : PyStr)).getLast? = some 'd' from rfl) (by decide))
            ?_ ?_ hsub hreok ?_ ?_
          all_goals rfl
    · rcases hrop with rfl | hr
      · have hnsW : rn = [] ∨ isWordName rn = true := by
          rcases hns with h | h | h
          · exact Or.inl h
          · exact Or.inr h
          · have hco : pyStr "Next" = pyStr "Error" := h.1
            exact absurd hco (by decide)
        rcases hnsW with rfl | hword
        · refine roundtrip_action_case reOk vmap mt regex (pyStr "Next") [] [] (pyStr "Next") []
            ?_ ?_ ?_ (by decide)
            (last_nonspace_of_eq (show ((pyStr "Next") ++ ([] : PyStr)).getLast? = some 't' from rfl) (by decide))
            ?_ ?_ hsub hreok ?_ ?_
          all_goals rfl
        · obtain ⟨hne0, hall⟩ := isWordName_parts hword
          obtain ⟨c, t, rfl⟩ : ∃ c t, rn = c :: t := by
            cases rn with
            | nil => cases hne0 rfl
            | cons c t => exact ⟨c, t, rfl⟩
          refine roundtrip_action_case reOk vmap mt regex (pyStr "Next") [] (c :: t) (pyStr "Next")
            (' ' :: c :: t) rfl rfl rfl (by simp) ?_ ?_ ?_ hsub hreok ?_ ?_
          · intro cc hcc
            rw [List.getLast?_append_of_ne_nil _ (by simp : (' ' :: c :: t : PyStr) ≠ [])] at hcc
            rw [List.getLast?_cons_cons] at hcc
            exact word_getLast hall cc hcc
          · exact split_none_spaceB _ _ (by decide) (split_none_space_word _ hall)
              (cons_ne_arrow (by decide) _)
          · exact chainNext (c :: t) (' ' :: c :: t) (tailNS_space_word _ hword) rfl
          · rw [show (decide (pyStr "Next" = pyStr "Continue")) = false from by decide]
            rfl
          · rw [nsHeadWord_of_word hword]
            simp
      · have hr4 : rr = pyStr "Clear" ∨ rr = pyStr "Clearall" ∨ rr = pyStr "Record" ∨
            rr = pyStr "NoRecord" := by
          unfold recordOps at hr
          simpa using hr
        have hnsW : rn = [] ∨ isWordName rn = true := by
          rcases hns with h | h | h
          · exact Or.inl h
          · exact Or.inr h
          · have hco : pyStr "Next" = pyStr "Error" := h.1
            exact absurd hco (by decide)
        rcases hr4 with rfl | rfl | rfl | rfl
        · rcases hnsW with rfl | hword
          · refine roundtrip_action_case reOk vmap mt regex (pyStr "Next") (pyStr "Clear") [] (pyStr "Next.Clear") []
              ?_ ?_ ?_ (by decide)
              (last_nonspace_of_eq (show ((pyStr "Next.Clear") ++ ([] : PyStr)).getLast? = some 'r' from rfl) (by decide))
              ?_ ?_ hsub hreok ?_ ?_
            all_goals rfl
          · obtain ⟨hne0, hall⟩ := isWordName_parts hword
            obtain ⟨c, t, rfl⟩ : ∃ c t, rn = c :: t := by
              cases rn with
              | nil => cases hne0 rfl
              | cons c t => exact ⟨c, t, rfl⟩
            refine roundtrip_action_case reOk vmap mt regex (pyStr "Next") (pyStr "Clear") (c :: t) (pyStr "Next.Clear")
              (' ' :: c :: t) rfl rfl rfl (by simp) ?_ ?_ ?_ hsub hreok ?_ ?_
            · intro cc hcc
              rw [List.getLast?_append_of_ne_nil _ (by simp : (' ' :: c :: t : PyStr) ≠ [])] at hcc
              rw [List.getLast?_cons_cons] at hcc
              exact word_getLast hall cc hcc
            · exact split_none_spaceB _ _ (by decide) (split_none_space_word _ hall)
                (cons_ne_arrow (by decide) _)
            · exact chainNextClear (c :: t) (' ' :: c :: t) (tailNS_space_word _ hword)
            · rw [show (decide (pyStr "Next" = pyStr "Continue")) = false from by decide]
              rfl
            · rw [nsHeadWord_of_word hword]
              simp
        · rcases hnsW with rfl | hword
          · refine roundtrip_action_case reOk vmap mt regex (pyStr "Next") (pyStr "Clearall") [] (pyStr "Next.Clearall") []
              ?_ ?_ ?_ (by decide)
              (last_nonspace_of_eq (show ((pyStr "Next.Clearall") ++ ([] : PyStr)).getLast? = some 'l' from rfl) (by decide))
              ?_ ?_ hsub hreok ?_ ?_
            all_goals rfl
          · obtain ⟨hne0, hall⟩ := isWordName_parts hword
            obtain ⟨c, t, rfl⟩ : ∃ c t, rn = c :: t := by
              cases rn with
              | nil => cases hne0 rfl
              | cons c t => exact ⟨c, t, rfl⟩
            refine roundtrip_action_case reOk vmap mt regex (pyStr "Next") (pyStr "Clearall") (c :: t) (pyStr "Next.Clearall")
              (' ' :: c :: t) rfl rfl rfl (by simp) ?_ ?_ ?_ hsub hreok ?_ ?_
            · intro cc hcc
              rw [List.getLast?_append_of_ne_nil _ (by simp : (' ' :: c :: t : PyStr) ≠ [])] at hcc
              rw [List.getLast?_cons_cons] at hcc
              exact word_getLast hall cc hcc
            · exact split_none_spaceB _ _ (by decide) (split_none_space_word _ hall)
                (cons_ne_arrow (by decide) _)
            · exact chainNextClearall (c :: t) (' ' :: c :: t) (tailNS_space_word _ hword)
            · rw [show (decide (pyStr "Next" = pyStr "Continue")) = false from by decide]
              rfl
            · rw [nsHeadWord_of_word hword]
              simp
        · rcases hnsW with rfl | hword
          · refine roundtrip_action_case reOk vmap mt regex (pyStr "Next") (pyStr "Record") [] (pyStr "Next.Record") []
              ?_ ?_ ?_ (by decide)
              (last_nonspace_of_eq (show ((pyStr "Next.Record") ++ ([] : PyStr)).getLast? = some 'd' from rfl) (by decide))
              ?_ ?_ hsub hreok ?_ ?_
            all_goals rfl
          · obtain ⟨hne0, hall⟩ := isWordName_parts hword
            obtain ⟨c, t, rfl⟩ : ∃ c t, rn = c :: t := by
              cases rn with
              | nil => cases hne0 rfl
              | cons c t => exact ⟨c, t, rfl⟩
            refine roundtrip_action_case reOk vmap mt regex (pyStr "Next") (pyStr "Record") (c :: t) (pyStr "Next.Record")
              (' ' :: c :: t) rfl rfl rfl (by simp) ?_ ?_ ?_ hsub hreok ?_ ?_
            · intro cc hcc
              rw [List.getLast?_append_of_ne_nil _ (by simp : (' ' :: c :: t : PyStr) ≠ [])] at hcc
              rw [List.getLast?_cons_cons] at hcc
              exact word_getLast hall cc hcc
            · exact split_none_spaceB _ _ (by decide) (split_none_space_word _ hall)
                (cons_ne_arrow (by decide) _)
            · exact chainNextRecord (c :: t) (' ' :: c :: t) (tailNS_space_word _ hword)
            · rw [show (decide (pyStr "Next" = pyStr "Continue")) = false from by decide]
              rfl
            · rw [nsHeadWord_of_word hword]
              simp
        · rcases hnsW with rfl | hword
          · refine roundtrip_action_case reOk vmap mt regex (pyStr "Next") (pyStr "NoRecord") [] (pyStr "Next.NoRecord") []
              ?_ ?_ ?_ (by decide)
              (last_nonspace_of_eq (show ((pyStr "Next.NoRecord") ++ ([] : PyStr)).getLast? = some 'd' from rfl) (by decide))
              ?_ ?_ hsub hreok ?_ ?_
            all_goals rfl
          · obtain ⟨hne0, hall⟩ := isWordName_parts hword
            obtain ⟨c, t, rfl⟩ : ∃ c t, rn = c :: t := by
              cases rn with
              | nil => cases hne0 rfl
              | cons c t => exact ⟨c, t, rfl⟩
            refine roundtrip_action_case reOk vmap mt regex (pyStr "Next") (pyStr "NoRecord") (c :: t) (pyStr "Next.NoRecord")
              (' ' :: c :: t) rfl rfl rfl (by simp) ?_ ?_ ?_ hsub hreok ?_ ?_
            · intro cc hcc
              rw [List.getLast?_append_of_ne_nil _ (by simp : (' ' :: c :: t : PyStr) ≠ [])] at hcc
              rw [List.getLast?_cons_cons] at hcc
              exact word_getLast hall cc hcc
            · exact split_none_spaceB _ _ (by decide) (split_none_space_word _ hall)
                (cons_ne_arrow (by decide) _)
            · exact chainNextNoRecord (c :: t) (' ' :: c :: t) (tailNS_space_word _ hword)
            · rw [show (decide (pyStr "Next" = pyStr "Continue")) = false from by decide]
              rfl
            · rw [nsHeadWord_of_word hword]
              simp
    · rcases hrop with rfl | hr
      · rcases hns with rfl | hword | hq
        · refine roundtrip_action_case reOk vmap mt regex (pyStr "Error") [] [] (pyStr "Error") []
            ?_ ?_ ?_ (by decide)
            (last_nonspace_of_eq (show ((pyStr "Error") ++ ([] : PyStr)).getLast? = some 'r' from rfl) (by decide))
            ?_ ?_ hsub hreok ?_ ?_
          all_goals rfl
        · obtain ⟨hne0, hall⟩ := isWordName_parts hword
          obtain ⟨c, t, rfl⟩ : ∃ c t, rn = c :: t := by
            cases rn with
            | nil => cases hne0 rfl
            | cons c t => exact ⟨c, t, rfl⟩
          refine roundtrip_action_case reOk vmap mt regex (pyStr "Error") [] (c :: t) (pyStr "Error")
            (' ' :: c :: t) rfl rfl rfl (by simp) ?_ ?_ ?_ hsub hreok ?_ ?_
          · intro cc hcc
            rw [List.getLast?_append_of_ne_nil _ (by simp : (' ' :: c :: t : PyStr) ≠ [])] at hcc
            rw [List.getLast?_cons_cons] at hcc
            exact word_getLast hall cc hcc
          · exact split_none_spaceB _ _ (by decide) (split_none_space_word _ hall)
              (cons_ne_arrow (by decide) _)
          · exact chainError (c :: t) (' ' :: c :: t) (tailNS_space_word _ hword) rfl
          · rw [show (decide (pyStr "Error" = pyStr "Continue")) = false from by decide]
            rfl
          · rw [show (decide (pyStr "Error" ≠ pyStr "Error")) = false from by decide]
            rfl
        · obtain ⟨hEq2, hqt, hqsplit, hqnl⟩ := hq
          obtain ⟨t, rfl⟩ := quotedTok_head hqt
          refine roundtrip_action_case reOk vmap mt regex (pyStr "Error") [] ('"' :: t) (pyStr "Error")
            (' ' :: '"' :: t) rfl rfl rfl (by simp) ?_ ?_ ?_ hsub hreok ?_ ?_
          · intro cc hcc
            rw [List.getLast?_append_of_ne_nil _ (by simp : (' ' :: '"' :: t : PyStr) ≠ [])] at hcc
            rw [List.getLast?_cons_cons] at hcc
            rw [quotedTok_last hqt] at hcc
            injection hcc with hcc2
            rw [← hcc2]
            decide
          · exact split_none_spaceB _ _ (by decide) (split_none_space_quoted _ hqt hqsplit)
              (cons_ne_arrow (by decide) _)
          · exact chainError ('"' :: t) (' ' :: '"' :: t) (tailNS_space_quoted _ hqt) rfl
          · rw [show (decide (pyStr "Error" = pyStr "Continue")) = false from by decide]
            rfl
          · rw [show (decide (pyStr "Error" ≠ pyStr "Error")) = false from by decide]
            rfl
      · have hr4 : rr = pyStr "Clear" ∨ rr = pyStr "Clearall" ∨ rr = pyStr "Record" ∨
            rr = pyStr "NoRecord" := by
          unfold recordOps at hr
          simpa using hr
        rcases hr4 with rfl | rfl | rfl | rfl
        · rcases hns with rfl | hword | hq
          · refine roundtrip_action_case reOk vmap mt regex (pyStr "Error") (pyStr "Clear") [] (pyStr "Error.Clear") []
              ?_ ?_ ?_ (by decide)
              (last_nonspace_of_eq (show ((pyStr "Error.Clear") ++ ([] : PyStr)).getLast? = some 'r' from rfl) (by decide))
              ?_ ?_ hsub hreok ?_ ?_
            all_goals rfl
          · obtain ⟨hne0, hall⟩ := isWordName_parts hword
            obtain ⟨c, t, rfl⟩ : ∃ c t, rn = c :: t := by
              cases rn with
              | nil => cases hne0 rfl
              | cons c t => exact ⟨c, t, rfl⟩
            refine roundtrip_action_case reOk vmap mt regex (pyStr "Error") (pyStr "Clear") (c :: t) (pyStr "Error.Clear")
              (' ' :: c :: t) rfl rfl rfl (by simp) ?_ ?_ ?_ hsub hreok ?_ ?_
            · intro cc hcc
              rw [List.getLast?_append_of_ne_nil _ (by simp : (' ' :: c :: t : PyStr) ≠ [])] at hcc
              rw [List.getLast?_cons_cons] at hcc
              exact word_getLast hall cc hcc
            · exact split_none_spaceB _ _ (by decide) (split_none_space_word _ hall)
                (cons_ne_arrow (by decide) _)
            · exact chainErrorClear (c :: t) (' ' :: c :: t) (tailNS_space_word _ hword)
            · rw [show (decide (pyStr "Error" = pyStr "Continue")) = false from by decide]
              rfl
            · rw [show (decide (pyStr "Error" ≠ pyStr "Error")) = false from by decide]
              rfl
          · obtain ⟨hEq2, hqt, hqsplit, hqnl⟩ := hq
            obtain ⟨t, rfl⟩ := quotedTok_head hqt
            refine roundtrip_action_case reOk vmap mt regex (pyStr "Error") (pyStr "Clear") ('"' :: t) (pyStr "Error.Clear")
              (' ' :: '"' :: t) rfl rfl rfl (by simp) ?_ ?_ ?_ hsub hreok ?_ ?_
            · intro cc hcc
              rw [List.getLast?_append_of_ne_nil _ (by simp : (' ' :: '"' :: t : PyStr) ≠ [])] at hcc
              rw [List.getLast?_cons_cons] at hcc
              rw [quotedTok_last hqt] at hcc
              injection hcc with hcc2
              rw [← hcc2]
              decide
            · exact split_none_spaceB _ _ (by decide) (split_none_space_quoted _ hqt hqsplit)
                (cons_ne_arrow (by decide) _)
            · exact chainErrorClear ('"' :: t) (' ' :: '"' :: t) (tailNS_space_quoted _ hqt)
            · rw [show (decide (pyStr "Error" = pyStr "Continue")) = false from by decide]
              rfl
            · rw [show (decide (pyStr "Error" ≠ pyStr "Error")) = false from by decide]
              rfl
        · rcases hns with rfl | hword | hq
          · refine roundtrip_action_case reOk vmap mt regex (pyStr "Error") (pyStr "Clearall") [] (pyStr "Error.Clearall") []
              ?_ ?_ ?_ (by decide)
              (last_nonspace_of_eq (show ((pyStr "Error.Clearall") ++ ([] : PyStr)).getLast? = some 'l' from rfl) (by decide))
              ?_ ?_ hsub hreok ?_ ?_
            all_goals rfl
          · obtain ⟨hne0, hall⟩ := isWordName_parts hword
            obtain ⟨c, t, rfl⟩ : ∃ c t, rn = c :: t := by
              cases rn with
              | nil => cases hne0 rfl
              | cons c t => exact ⟨c, t, rfl⟩
            refine roundtrip_action_case reOk vmap mt regex (pyStr "Error") (pyStr "Clearall") (c :: t) (pyStr "Error.Clearall")
              (' ' :: c :: t) rfl rfl rfl (by simp) ?_ ?_ ?_ hsub hreok ?_ ?_
            · intro cc hcc
              rw [List.getLast?_append_of_ne_nil _ (by simp : (' ' :: c :: t : PyStr) ≠ [])] at hcc
              rw [List.getLast?_cons_cons] at hcc
              exact word_getLast hall cc hcc
            · exact split_none_spaceB _ _ (by decide) (split_none_space_word _ hall)
                (cons_ne_arrow (by decide) _)
            · exact chainErrorClearall (c :: t) (' ' :: c :: t) (tailNS_space_word _ hword)
            · rw [show (decide (pyStr "Error" = pyStr "Continue")) = false from by decide]
              rfl
            · rw [show (decide (pyStr "Error" ≠ pyStr "Error")) = false from by decide]
              rfl
          · obtain ⟨hEq2, hqt, hqsplit, hqnl⟩ := hq
            obtain ⟨t, rfl⟩ := quotedTok_head hqt
            refine roundtrip_action_case reOk vmap mt regex (pyStr "Error") (pyStr "Clearall") ('"' :: t) (pyStr "Error.Clearall")
              (' ' :: '"' :: t) rfl rfl rfl (by simp) ?_ ?_ ?_ hsub hreok ?_ ?_
            · intro cc hcc
              rw [List.getLast?_append_of_ne_nil _ (by simp : (' ' :: '"' :: t : PyStr) ≠ [])] at hcc
              rw [List.getLast?_cons_cons] at hcc
              rw [quotedTok_last hqt] at hcc
              injection hcc with hcc2
              rw [← hcc2]
              decide
            · exact split_none_spaceB _ _ (by decide) (split_none_space_quoted _ hqt hqsplit)
                (cons_ne_arrow (by decide) _)
            · exact chainErrorClearall ('"' :: t) (' ' :: '"' :: t) (tailNS_space_quoted _ hqt)
            · rw [show (decide (pyStr "Error" = pyStr "Continue")) = false from by decide]
              rfl
            · rw [show (decide (pyStr "Error" ≠ pyStr "Error")) = false from by decide]
              rfl
        · rcases hns with rfl | hword | hq
          · refine roundtrip_action_case reOk vmap mt regex (pyStr "Error") (pyStr "Record") [] (pyStr "Error.Record") []
              ?_ ?_ ?_ (by decide)
              (last_nonspace_of_eq (show ((pyStr "Error.Record") ++ ([] : PyStr)).getLast? = some 'd' from rfl) (by decide))
              ?_ ?_ hsub hreok ?_ ?_
            all_goals rfl
          · obtain ⟨hne0, hall⟩ := isWordName_parts hword
            obtain ⟨c, t, rfl⟩ : ∃ c t, rn = c :: t := by
              cases rn with
              | nil => cases hne0 rfl
              | cons c t => exact ⟨c, t, rfl⟩
            refine roundtrip_action_case reOk vmap mt regex (pyStr "Error") (pyStr "Record") (c :: t) (pyStr "Error.Record")
              (' ' :: c :: t) rfl rfl rfl (by simp) ?_ ?_ ?_ hsub hreok ?_ ?_
            · intro cc hcc
              rw [List.getLast?_append_of_ne_nil _ (by simp : (' ' :: c :: t : PyStr) ≠ [])] at hcc
              rw [List.getLast?_cons_cons] at hcc
              exact word_getLast hall cc hcc
            · exact split_none_spaceB _ _ (by decide) (split_none_space_word _ hall)
                (cons_ne_arrow (by decide) _)
            · exact chainErrorRecord (c :: t) (' ' :: c :: t) (tailNS_space_word _ hword)
            · rw [show (decide (pyStr "Error" = pyStr "Continue")) = false from by decide]
              rfl
            · rw [show (decide (pyStr "Error" ≠ pyStr "Error")) = false from by decide]
              rfl
          · obtain ⟨hEq2, hqt, hqsplit, hqnl⟩ := hq
            obtain ⟨t, rfl⟩ := quotedTok_head hqt
            refine roundtrip_action_case reOk vmap mt regex (pyStr "Error") (pyStr "Record") ('"' :: t) (pyStr "Error.Record")
              (' ' :: '"' :: t) rfl rfl rfl (by simp) ?_ ?_ ?_ hsub hreok ?_ ?_
            · intro cc hcc
              rw [List.getLast?_append_of_ne_nil _ (by simp : (' ' :: '"' :: t : PyStr) ≠ [])] at hcc
              rw [List.getLast?_cons_cons] at hcc
              rw [quotedTok_last hqt] at hcc
              injection hcc with hcc2
              rw [← hcc2]
              decide
            · exact split_none_spaceB _ _ (by decide) (split_none_space_quoted _ hqt hqsplit)
                (cons_ne_arrow (by decide) _)
            · exact chainErrorRecord ('"' :: t) (' ' :: '"' :: t) (tailNS_space_quoted _ hqt)
            · rw [show (decide (pyStr "Error" = pyStr "Continue")) = false from by decide]
              rfl
            · rw [show (decide (pyStr "Error" ≠ pyStr "Error")) = false from by decide]
              rfl
        · rcases hns with rfl | hword | hq
          · refine roundtrip_action_case reOk vmap mt regex (pyStr "Error") (pyStr "NoRecord") [] (pyStr "Error.NoRecord") []
              ?_ ?_ ?_ (by decide)
              (last_nonspace_of_eq (show ((pyStr "Error.NoRecord") ++ ([] : PyStr)).getLast? = some 'd' from rfl) (by decide))
              ?_ ?_ hsub hreok ?_ ?_
            all_goals rfl
          · obtain ⟨hne0, hall⟩ := isWordName_parts hword
            obtain ⟨c, t, rfl⟩ : ∃ c t, rn = c :: t := by
              cases rn with
              | nil => cases hne0 rfl
              | cons c t => exact ⟨c, t, rfl⟩
            refine roundtrip_action_case reOk vmap mt regex (pyStr "Error") (pyStr "NoRecord") (c :: t) (pyStr "Error.NoRecord")
              (' ' :: c :: t) rfl rfl rfl (by simp) ?_ ?_ ?_ hsub hreok ?_ ?_
            · intro cc hcc
              rw [List.getLast?_append_of_ne_nil _ (by simp : (' ' :: c :: t : PyStr) ≠ [])] at hcc
              rw [List.getLast?_cons_cons] at hcc
              exact word_getLast hall cc hcc
            · exact split_none_spaceB _ _ (by decide) (split_none_space_word _ hall)
                (cons_ne_arrow (by decide) _)
            · exact chainErrorNoRecord (c :: t) (' ' :: c :: t) (tailNS_space_word _ hword)
            · rw [show (decide (pyStr "Error" = pyStr "Continue")) = false from by decide]
              rfl
            · rw [show (decide (pyStr "Error" ≠ pyStr "Error")) = false from by decide]
              rfl
          · obtain ⟨hEq2, hqt, hqsplit, hqnl⟩ := hq
            obtain ⟨t, rfl⟩ := quotedTok_head hqt
            refine roundtrip_action_case reOk vmap mt regex (pyStr "Error") (pyStr "NoRecord") ('"' :: t) (pyStr "Error.NoRecord")
              (' ' :: '"' :: t) rfl rfl rfl (by simp) ?_ ?_ ?_ hsub hreok ?_ ?_
            · intro cc hcc
              rw [List.getLast?_append_of_ne_nil _ (by simp : (' ' :: '"' :: t : PyStr) ≠ [])] at hcc
              rw [List.getLast?_cons_cons] at hcc
              rw [quotedTok_last hqt] at hcc
              injection hcc with hcc2
              rw [← hcc2]
              decide
            · exact split_none_spaceB _ _ (by decide) (split_none_space_quoted _ hqt hqsplit)
                (cons_ne_arrow (by decide) _)
            · exact chainErrorNoRecord ('"' :: t) (' ' :: '"' :: t) (tailNS_space_quoted _ hqt)
            · rw [show (decide (pyStr "Error" = pyStr "Continue")) = false from by decide]
              rfl
            · rw [show (decide (pyStr "Error" ≠ pyStr "Error")) = false from by decide]
              rfl

theorem addOptions_ok (opts acc : List PyStr)
    (hsub : ∀ o ∈ opts, o ∈ validOptionNames) (hnd : opts.Nodup)
    (hdisj : ∀ o ∈ opts, o ∉ acc) :
    addOptions acc opts = .ok (acc ++ opts) := by
  induction opts generalizing acc with
  | nil => simp [addOptions]
  | cons a rest ih =>
    unfold addOptions
    rw [if_neg (hdisj a (by simp))]
    rw [if_pos (hsub a (by simp))]
    have hdisj2 : ∀ o ∈ rest, o ∉ acc ++ [a] := by
      intro o ho hoa
      rcases List.mem_append.mp hoa with h1 | h1
      · exact hdisj o (by simp [ho]) h1
      · simp only [List.mem_singleton] at h1
        subst h1
        exact (List.nodup_cons.mp hnd).1 ho
    rw [ih (acc ++ [a]) (fun o ho => hsub o (by simp [ho])) (List.Nodup.of_cons hnd) hdisj2]
    simp

theorem valueParse_opt (maxNameLen : Nat) (optstr name pat : PyStr) (opts : List PyStr)
    (ho : ∀ c ∈ optstr, c ≠ ' ') (hn : ∀ c ∈ name, c ≠ ' ')
    (hnstart : pyStartsWith (pyStr "(") name = false)
    (haddok : addOptions [] (pySplitChar ',' optstr) = .ok opts) :
    valueParse maxNameLen (pyStr "Value " ++ optstr ++ [' '] ++ (name ++ (' ' :: pat))) =
      valueParseChecks maxNameLen opts name pat := by
  unfold valueParse
  rw [valueLine_toks optstr (name ++ (' ' :: pat)) ho]
  rw [pySplitChar_append_sep ' ' name pat hn]
  have hlen : ¬ ((pyStr "Value" :: optstr :: name :: pySplitChar ' ' pat).length < 3) := by
    simp
  rw [if_neg hlen]
  have hg2 : (pyStr "Value" :: optstr :: name :: pySplitChar ' ' pat).getD 2 [] = name := rfl
  rw [hg2, hnstart]
  simp only [Bool.not_false, if_true]
  have hg1 : (pyStr "Value" :: optstr :: name :: pySplitChar ' ' pat).getD 1 [] = optstr := rfl
  rw [hg1, haddok]
  have hd3 : (pyStr "Value" :: optstr :: name :: pySplitChar ' ' pat).drop 3 =
      pySplitChar ' ' pat := rfl
  rw [hd3, show pyStr " " = [' '] from rfl, intercalate_pySplitChar]

theorem serializeValue_shape (v : VValue) :
    ∃ mid, serializeValue v = (pyStr "Value " ++ mid) ++ v.regex := by
  unfold serializeValue
  split
  · exact ⟨v.name ++ [' '], by simp⟩
  · exact ⟨List.intercalate [','] v.options ++ [' '] ++ v.name ++ [' '], by simp⟩

theorem serializeValue_line_facts (v : VValue) (hwf : WFValue v) :
    pyRstrip (serializeValue v) = serializeValue v ∧
    (serializeValue v).isEmpty = false ∧
    isCommentLine (serializeValue v) = false ∧
    pyStartsWith (pyStr "Value ") (serializeValue v) = true := by
  obtain ⟨mid, hmid⟩ := serializeValue_shape v
  obtain ⟨pr, hpr, hlast⟩ := wrappedInParens_dest v.regex hwf.2.2.2.2.1
  refine ⟨?_, ?_, ?_, ?_⟩
  · rw [hmid]
    apply pyRstrip_append_last
    · rw [hpr]
      simp
    · intro c hc
      rw [hpr] at hc
      cases pr with
      | nil => exact absurd hlast (by simp)
      | cons d t =>
        rw [List.getLast?_cons_cons] at hc
        rw [hlast] at hc
        injection hc with hc2
        rw [← hc2]
        decide
  · rw [hmid]
    rfl
  · rw [hmid]
    rfl
  · rw [hmid, show (pyStr "Value " ++ mid) ++ v.regex = pyStr "Value " ++ (mid ++ v.regex)
      by simp]
    exact pyStartsWith_append _ _

theorem serializeValue_roundtrip (v : VValue) (hwf : WFValue v) :
    valueParse 48 (serializeValue v) = .ok v := by
  obtain ⟨name, options, regex, template⟩ := v
  obtain ⟨hsp, hnl, hlen, hnlr, hwrap, hcount, htpl, hsubopts, hnd, hnstart⟩ := hwf
  obtain ⟨pr, hpr, hlast⟩ := wrappedInParens_dest regex hwrap
  have htpl2 : template = makeTemplate name regex := htpl
  have hn : ∀ c ∈ name, c ≠ ' ' := fun c hc he => hsp (he ▸ hc)
  by_cases hoe : options = []
  · subst hoe
    rw [show serializeValue ⟨name, [], regex, template⟩ =
        pyStr "Value " ++ name ++ [' '] ++ regex from rfl]
    rw [valueParse_noopt 48 name regex pr hn hpr]
    unfold valueParseChecks
    rw [if_neg (Nat.not_lt.mpr hlen)]
    rw [if_neg (by simp [hwrap, hcount])]
    rw [htpl2]
  · have hoptsne : List.isEmpty options = false := by
      cases options with
      | nil => cases hoe rfl
      | cons a t => rfl
    have hser : serializeValue ⟨name, options, regex, template⟩ =
        pyStr "Value " ++ List.intercalate [','] options ++ [' '] ++
          (name ++ (' ' :: regex)) := by
      unfold serializeValue
      rw [show List.isEmpty (VValue.options ⟨name, options, regex, template⟩) = false
        from hoptsne]
      simp
    rw [hser]
    have hvo : ∀ o ∈ validOptionNames, ∀ x ∈ o, x ≠ ' ' ∧ x ≠ ',' := by decide
    have ho : ∀ c ∈ List.intercalate [','] options, c ≠ ' ' := by
      intro c hc he
      subst he
      exact mem_intercalate_char
        (fun l hl hx => ((hvo l (hsubopts l hl) ' ' hx).1 rfl)) (by decide) hc
    have haddok : addOptions [] (pySplitChar ',' (List.intercalate [','] options)) =
        .ok options := by
      rw [pySplitChar_intercalate ',' options hoe
        (fun l hl hx => ((hvo l (hsubopts l hl) ',' hx).2 rfl))]
      rw [addOptions_ok options [] hsubopts hnd (by simp)]
      simp
    rw [valueParse_opt 48 (List.intercalate [','] options) name regex options ho hn
      (hnstart hoe) haddok]
    unfold valueParseChecks
    rw [if_neg (Nat.not_lt.mpr hlen)]
    rw [if_neg (by simp [hwrap, hcount])]
    rw [htpl2]

theorem serializeRule_shape (r : SRule) :
    ∃ tail, serializeRule r = pyStr "  " ++ r.rmatch ++ tail := by
  unfold serializeRule
  split
  · exact ⟨[], by simp⟩
  · exact ⟨pyStr " -> " ++ ruleOperation r ++ ruleNewState r, by simp⟩

theorem serialLine_facts (r : SRule) (mt : PyStr) (hm : r.rmatch = '^' :: mt) :
    (serializeRule r).isEmpty = false ∧
    isCommentLine (serializeRule r) = false ∧
    pyStartsWith (pyStr "  ^") (serializeRule r) = true := by
  obtain ⟨tail, htail⟩ := serializeRule_shape r
  rw [htail, hm]
  refine ⟨rfl, rfl, ?_⟩
  show List.isPrefixOf (pyStr "  ^") (' ' :: ' ' :: '^' :: (mt ++ tail)) = true
  simp [List.isPrefixOf, pyStr]

theorem parseVariables_blank (m : Nat) (values : List VValue)
    (vmap : List (PyStr × PyStr)) (rest : List PyStr) :
    parseVariables m values vmap ([] :: rest) = .ok (values, vmap, rest) := rfl

theorem parseVariables_value (m : Nat) (values : List VValue) (vmap : List (PyStr × PyStr))
    (line : PyStr) (rest : List PyStr) (v : VValue)
    (hrs : pyRstrip line = line) (hne : line.isEmpty = false)
    (hcm : isCommentLine line = false)
    (hsw : pyStartsWith (pyStr "Value ") line = true)
    (hvp : valueParse m line = .ok v)
    (hdup : (values.map VValue.name).contains v.name = false) :
    parseVariables m values vmap (line :: rest) =
      parseVariables m (values ++ [v]) (vmap ++ [(v.name, v.template)]) rest := by
  have hdup2 : v.name ∉ List.map VValue.name values := by simpa using hdup
  simp only [parseVariables]
  rw [hrs, hne, hcm, hsw, hvp]
  simp [hdup2]

theorem parseVariables_serial (vs : List VValue) (acc : List VValue)
    (vmapacc : List (PyStr × PyStr)) (rest : List PyStr)
    (hwf : ∀ v ∈ vs, WFValue v)
    (hnd : ((acc ++ vs).map VValue.name).Nodup) :
    parseVariables 48 acc vmapacc (vs.map serializeValue ++ ([] :: rest)) =
      .ok (acc ++ vs, vmapacc ++ vs.map (fun v => (v.name, v.template)), rest) := by
  induction vs generalizing acc vmapacc with
  | nil =>
    simp only [List.map_nil, List.nil_append, List.append_nil]
    exact parseVariables_blank 48 acc vmapacc rest
  | cons v vs ih =>
    obtain ⟨hrs, hne, hcm, hsw⟩ := serializeValue_line_facts v (hwf v (by simp))
    have hvp : valueParse 48 (serializeValue v) = .ok v :=
      serializeValue_roundtrip v (hwf v (by simp))
    have hdup : ((acc.map VValue.name).contains v.name) = false := by
      cases hq : (acc.map VValue.name).contains v.name
      · rfl
      · have h3 : v.name ∈ acc.map VValue.name := by simpa using hq
        rw [List.map_append] at hnd
        exact absurd ((List.nodup_append.mp hnd).2.2 h3 (by simp)) (fun h => h)
    rw [show (v :: vs).map serializeValue ++ ([] :: rest) =
        serializeValue v :: (vs.map serializeValue ++ ([] :: rest)) by simp]
    rw [parseVariables_value 48 acc vmapacc (serializeValue v) _ v hrs hne hcm hsw hvp hdup]
    have hnd2 : (((acc ++ [v]) ++ vs).map VValue.name).Nodup := by
      rw [show ((acc ++ [v]) ++ vs) = acc ++ (v :: vs) by simp]
      exact hnd
    rw [ih (acc ++ [v]) (vmapacc ++ [(v.name, v.template)])
      (fun u hu => hwf u (by simp [hu])) hnd2]
    simp

theorem parseStates_header_step (reOk : PyStr → Bool) (m : Nat)
    (vmap : List (PyStr × PyStr)) (states : List (PyStr × List SRule))
    (slist : List PyStr) (s : PyStr) (rest : List PyStr)
    (hrs : pyRstrip s = s) (hne : s.isEmpty = false) (hcm : isCommentLine s = false)
    (hword : isWordName s = true) (hlen : decide (s.length > m) = false)
    (hlop : lineOps.contains s = false) (hrop : recordOps.contains s = false)
    (hdup : states.any (fun p => p.1 == s) = false) :
    parseStates reOk m vmap none states slist (s :: rest) =
      parseStates reOk m vmap (some s) (states ++ [(s, [])]) (slist ++ [s]) rest := by
  simp only [parseStates]
  rw [hrs, hne, hcm, hword, hlen, hlop, hrop, hdup]
  simp

theorem parseStates_rule_step (reOk : PyStr → Bool) (m : Nat)
    (vmap : List (PyStr × PyStr)) (cur : PyStr) (states : List (PyStr × List SRule))
    (slist : List PyStr) (line : PyStr) (rest : List PyStr) (r : SRule)
    (hrs : pyRstrip line = line) (hne : line.isEmpty = false)
    (hcm : isCommentLine line = false)
    (hsw : pyStartsWith (pyStr "  ^") line = true)
    (hrp : ruleParse reOk vmap line = .ok r) :
    parseStates reOk m vmap (some cur) states slist (line :: rest) =
      parseStates reOk m vmap (some cur) (addRule cur r states) slist rest := by
  simp only [parseStates]
  rw [hrs, hne, hcm, hsw, hrp]
  simp

theorem contains_false_of_not_mem {a : PyStr} {l : List PyStr} (h : a ∉ l) :
    l.contains a = false := by
  cases hc : l.contains a
  · rfl
  · exact absurd (by simpa using hc) h

theorem any_fst_eq_false (name : PyStr) (states : List (PyStr × List SRule))
    (h : name ∉ states.map Prod.fst) :
    states.any (fun p => p.1 == name) = false := by
  induction states with
  | nil => rfl
  | cons q qs ih =>
    rw [List.any_cons]
    have h1 : (q.1 == name) = false := by
      cases hq : q.1 == name
      · rfl
      · have hqe : q.1 = name := by simpa using hq
        exact absurd (by rw [← hqe]; simp) h
    rw [h1, ih (fun hm => h (by simp [hm]))]
    rfl

theorem addRule_last (name : PyStr) (r : SRule) (acc : List (PyStr × List SRule))
    (rs : List SRule) (hnot : ∀ p ∈ acc, p.1 ≠ name) :
    addRule name r (acc ++ [(name, rs)]) = acc ++ [(name, rs ++ [r])] := by
  induction acc with
  | nil =>
    show addRule name r [(name, rs)] = [(name, rs ++ [r])]
    unfold addRule
    rw [if_pos (by simp)]
  | cons q qs ih =>
    obtain ⟨qn, qr⟩ := q
    have hq : (qn == name) = false := by
      cases hc : qn == name
      · rfl
      · exact absurd (by simpa using hc) (hnot (qn, qr) (by simp))
    show addRule name r ((qn, qr) :: (qs ++ [(name, rs)])) = _
    unfold addRule
    rw [hq]
    simp only [Bool.false_eq_true, if_false]
    rw [ih (fun p hp => hnot p (by simp [hp]))]
    rfl

theorem addRule_fold (name : PyStr) (rules : List SRule)
    (acc : List (PyStr × List SRule)) (rs : List SRule)
    (hnot : ∀ p ∈ acc, p.1 ≠ name) :
    rules.foldl (fun st r => addRule name r st) (acc ++ [(name, rs)]) =
      acc ++ [(name, rs ++ rules)] := by
  induction rules generalizing rs with
  | nil => simp
  | cons r rt ih =>
    rw [List.foldl_cons]
    rw [addRule_last name r acc rs hnot]
    rw [ih (rs ++ [r])]
    simp

theorem lookupState_self (states : List (PyStr × List SRule))
    (hnd : (states.map Prod.fst).Nodup) (p : PyStr × List SRule) (hp : p ∈ states) :
    lookupState states p.1 = some p.2 := by
  induction states with
  | nil => cases hp
  | cons q qs ih =>
    rw [List.map_cons] at hnd
    rcases List.mem_cons.mp hp with rfl | hp2
    · unfold lookupState
      rw [List.find?_cons_of_pos _ (by simp)]
      rfl
    · have hne : (q.1 == p.1) = false := by
        cases hq : q.1 == p.1
        · rfl
        · have hqe : q.1 = p.1 := by simpa using hq
          have hmem : p.1 ∈ qs.map Prod.fst := List.mem_map.mpr ⟨p, hp2, rfl⟩
          exact absurd hmem (hqe ▸ (List.nodup_cons.mp hnd).1)
      unfold lookupState
      rw [List.find?_cons_of_neg _ (by simp [hne])]
      exact ih (List.nodup_cons.mp hnd).2 hp2

theorem parseStates_rules (reOk : PyStr → Bool) (m : Nat) (vmap : List (PyStr × PyStr))
    (cur : PyStr) (rules : List SRule) (states : List (PyStr × List SRule))
    (slist : List PyStr) (rest : List PyStr)
    (hwfr : ∀ r ∈ rules, WFRule vmap reOk r) :
    parseStates reOk m vmap (some cur) states slist (rules.map serializeRule ++ rest) =
      parseStates reOk m vmap (some cur)
        (rules.foldl (fun st r => addRule cur r st) states) slist rest := by
  induction rules generalizing states with
  | nil => simp
  | cons r rt ih =>
    have hwf := hwfr r (by simp)
    obtain ⟨hrp, hrs⟩ := serializeRule_roundtrip reOk vmap r hwf
    obtain ⟨mt, hmt⟩ : ∃ mt, r.rmatch = '^' :: mt := by
      have hcaret := hwf.1
      cases hh : r.rmatch with
      | nil => rw [hh] at hcaret; cases hcaret
      | cons c t =>
        rw [hh] at hcaret
        have hc : c = '^' := by simpa using hcaret
        subst hc
        exact ⟨t, rfl⟩
    obtain ⟨hne, hcm, hsw⟩ := serialLine_facts r mt hmt
    rw [show (r :: rt).map serializeRule ++ rest =
        serializeRule r :: (rt.map serializeRule ++ rest) by simp]
    rw [parseStates_rule_step reOk m vmap cur states slist (serializeRule r) _ r
      hrs hne hcm hsw hrp]
    rw [ih (addRule cur r states) (fun u hu => hwfr u (by simp [hu]))]
    rw [List.foldl_cons]

theorem parseStates_serial (reOk : PyStr → Bool) (vmap : List (PyStr × PyStr))
    (pairs : List (PyStr × List SRule)) (acc : List (PyStr × List SRule))
    (mode : Option PyStr)
    (hwfr : ∀ p ∈ pairs, ∀ r ∈ p.2, WFRule vmap reOk r)
    (hwfs : ∀ p ∈ pairs, isWordName p.1 = true ∧ p.1.length ≤ 48 ∧
      p.1 ∉ lineOps ∧ p.1 ∉ recordOps)
    (hnd : ((acc ++ pairs).map Prod.fst).Nodup) :
    parseStates reOk 48 vmap mode acc (acc.map Prod.fst)
        ((pairs.map (fun p => [] :: p.1 :: p.2.map serializeRule)).flatten ++ [[]]) =
      .ok (acc ++ pairs, (acc ++ pairs).map Prod.fst) := by
  induction pairs generalizing acc mode with
  | nil =>
    simp only [List.map_nil, List.flatten_nil, List.nil_append, List.append_nil]
    cases mode <;> rfl
  | cons p ps ih =>
    obtain ⟨hword, hlen48, hlop, hrop⟩ := hwfs p (by simp)
    obtain ⟨hpne, hall⟩ := isWordName_parts hword
    have hrs : pyRstrip p.1 = p.1 := pyRstrip_word p.1 hall
    have hne : p.1.isEmpty = false := by
      cases hh : p.1 with
      | nil => exact absurd hh hpne
      | cons c t => rfl
    have hcm : isCommentLine p.1 = false := by
      cases hh : p.1 with
      | nil => exact absurd hh hpne
      | cons c t =>
        have hcw : isWordChar c = true := by
          rw [hh] at hall
          exact List.all_eq_true.mp hall c (by simp)
        exact isCommentLine_nonspace (c :: t) c t rfl (wordChar_not_space hcw)
          (fun he => by rw [he] at hcw; exact absurd hcw (by decide))
    have hlen : decide (p.1.length > 48) = false := decide_eq_false (Nat.not_lt.mpr hlen48)
    have hlopc : lineOps.contains p.1 = false := contains_false_of_not_mem hlop
    have hropc : recordOps.contains p.1 = false := contains_false_of_not_mem hrop
    have hnotacc : ∀ q ∈ acc, q.1 ≠ p.1 := by
      intro q hq he
      rw [List.map_append] at hnd
      exact (List.nodup_append.mp hnd).2.2 (List.mem_map.mpr ⟨q, hq, rfl⟩)
        (by rw [he]; simp)
    have hdup : acc.any (fun q => q.1 == p.1) = false :=
      any_fst_eq_false p.1 acc (fun hm => by
        obtain ⟨q, hq, hqe⟩ := List.mem_map.mp hm
        exact hnotacc q hq hqe)
    rw [show ((p :: ps).map (fun p => [] :: p.1 :: p.2.map serializeRule)).flatten ++ [[]] =
        [] :: (p.1 :: (p.2.map serializeRule ++
          ((ps.map (fun p => [] :: p.1 :: p.2.map serializeRule)).flatten ++ [[]])))
        by simp]
    rw [show parseStates reOk 48 vmap mode acc (acc.map Prod.fst)
        ([] :: (p.1 :: (p.2.map serializeRule ++
          ((ps.map (fun p => [] :: p.1 :: p.2.map serializeRule)).flatten ++ [[]])))) =
        parseStates reOk 48 vmap none acc (acc.map Prod.fst)
          (p.1 :: (p.2.map serializeRule ++
            ((ps.map (fun p => [] :: p.1 :: p.2.map serializeRule)).flatten ++ [[]])))
        from by cases mode <;> rfl]
    rw [parseStates_header_step reOk 48 vmap acc (acc.map Prod.fst) p.1 _
      hrs hne hcm hword hlen hlopc hropc hdup]
    rw [parseStates_rules reOk 48 vmap p.1 p.2 (acc ++ [(p.1, [])]) _ _
      (hwfr p (by simp))]
    rw [addRule_fold p.1 p.2 acc [] hnotacc]
    rw [show acc.map Prod.fst ++ [p.1] = (acc ++ [(p.1, p.2)]).map Prod.fst by simp]
    have hnd2 : (((acc ++ [(p.1, p.2)]) ++ ps).map Prod.fst).Nodup := by
      rw [show (acc ++ [(p.1, p.2)]) ++ ps = acc ++ (p :: ps) by simp]
      exact hnd
    rw [show ([] : List SRule) ++ p.2 = p.2 by simp]
    rw [ih (acc ++ [(p.1, p.2)]) (some p.1) (fun u hu => hwfr u (by simp [hu]))
      (fun u hu => hwfs u (by simp [hu])) hnd2]
    rw [show (acc ++ [(p.1, p.2)]) ++ ps = acc ++ (p :: ps) by simp]

theorem serializeRules_flat (rs : List SRule) :
    serializeRules rs = ((rs.map serializeRule).map (fun l => l ++ ['\n'])).flatten := by
  cases rs with
  | nil => rfl
  | cons r rt =>
    unfold serializeRules
    rw [if_neg ?hne]
    case hne =>
      intro h
      cases rt with
      | nil =>
        rw [show List.intercalate ['\n'] (List.map serializeRule [r]) = serializeRule r
          by simp [List.intercalate]] at h
        exact serializeRule_ne_nil r (by simpa using h)
      | cons r2 rt2 =>
        rw [List.map_cons, List.map_cons, intercalate_cons₂] at h
        simp at h
    exact intercalate_flat '\n' _ (by simp)

theorem stateBlock_flat (s : PyStr) (rs : List SRule) :
    ['\n'] ++ s ++ ['\n'] ++ serializeRules rs =
      (([] :: s :: rs.map serializeRule).map (fun l => l ++ ['\n'])).flatten := by
  rw [serializeRules_flat]
  simp

theorem blocks_flat (states : List (PyStr × List SRule)) (slist : List PyStr) :
    (slist.map (fun s =>
      ['\n'] ++ s ++ ['\n'] ++ serializeRules ((lookupState states s).getD []))).flatten =
    (((slist.map (fun s =>
        [] :: s :: ((lookupState states s).getD []).map serializeRule)).flatten).map
      (fun l => l ++ ['\n'])).flatten := by
  induction slist with
  | nil => rfl
  | cons s sl ih =>
    simp only [List.map_cons, List.flatten_cons, List.map_append, List.flatten_append]
    rw [ih, stateBlock_flat]
    simp

theorem serializeFSM_flat (f : FSMStruct) :
    serializeFSM f = ((serialLines f).map (fun l => l ++ ['\n'])).flatten := by
  unfold serializeFSM serialLines
  rw [List.map_append, List.flatten_append, blocks_flat]
  congr 1
  by_cases h : f.values.isEmpty
  · have h2 : f.values = [] := by
      cases hv : f.values with
      | nil => rfl
      | cons a t => rw [hv] at h; cases h
    rw [if_pos h, h2]
    rfl
  · rw [if_neg h]
    refine intercalate_flat '\n' _ ?_
    cases hv : f.values with
    | nil => rw [hv] at h; exact absurd rfl h
    | cons a t => simp

theorem not_mem_append2 {x : Char} {a b : PyStr} (ha : x ∉ a) (hb : x ∉ b) :
    x ∉ a ++ b := by
  intro hm
  rcases List.mem_append.mp hm with h | h
  · exact ha h
  · exact hb h

theorem serializeValue_no_nl (v : VValue) (hwf : WFValue v) : '\n' ∉ serializeValue v := by
  obtain ⟨hsp, hnl, hlen, hnlr, hwrap, hcount, htpl, hsubopts, hnd, hnstart⟩ := hwf
  have hI : '\n' ∉ List.intercalate [','] v.options := by
    refine mem_intercalate_char ?_ (by decide)
    intro o ho hm
    have hov := hsubopts o ho
    have : ∀ o ∈ validOptionNames, '\n' ∉ o := by decide
    exact this o hov hm
  unfold serializeValue
  split
  · exact not_mem_append2 (not_mem_append2 (not_mem_append2 (by decide) hnl) (by decide)) hnlr
  · exact not_mem_append2 (not_mem_append2 (not_mem_append2 (not_mem_append2
      (not_mem_append2 (by decide) hI) (by decide)) hnl) (by decide)) hnlr

theorem serializeRule_no_nl (vmap : List (PyStr × PyStr)) (reOk : PyStr → Bool)
    (r : SRule) (hwf : WFRule vmap reOk r) : '\n' ∉ serializeRule r := by
  obtain ⟨hcaret, hnl, hlop, hrop, hns, h6, h7, h8, h9, h10⟩ := hwf
  have hlopnl : '\n' ∉ r.line_op := by
    rcases hlop with h | h
    · rw [h]; simp
    · unfold lineOps at h
      simp only [List.mem_cons, List.not_mem_nil, or_false] at h
      rcases h with h | h | h <;> (rw [h]; decide)
  have hropnl : '\n' ∉ r.record_op := by
    rcases hrop with h | h
    · rw [h]; simp
    · unfold recordOps at h
      simp only [List.mem_cons, List.not_mem_nil, or_false] at h
      rcases h with h | h | h | h <;> (rw [h]; decide)
  have hnsnl : '\n' ∉ r.new_state := by
    rcases hns with h | h | h
    · rw [h]; simp
    · intro hm
      exact absurd (List.all_eq_true.mp (isWordName_parts h).2 _ hm) (by decide)
    · exact h.2.2.2
  have hopnl : '\n' ∉ ruleOperation r := by
    unfold ruleOperation
    refine not_mem_append2 (not_mem_append2 hlopnl ?_) hropnl
    split
    · decide
    · simp
  have hns2nl : '\n' ∉ ruleNewState r := by
    unfold ruleNewState
    split
    · exact not_mem_append2 (by decide) hnsnl
    · exact hnsnl
  unfold serializeRule
  split
  · exact not_mem_append2 (by decide) hnl
  · exact not_mem_append2 (not_mem_append2 (not_mem_append2 (not_mem_append2
      (by decide) hnl) (by decide)) hopnl) hns2nl

theorem serialLines_no_nl (reOk : PyStr → Bool) (f : FSMStruct) (hwf : WFFSM reOk f) :
    ∀ l ∈ serialLines f, '\n' ∉ l := by
  obtain ⟨hvals, hvnd, hvmap, hfst, hsnd, hsprops, hstart, hend, heof, hrules⟩ := hwf
  intro l hl
  unfold serialLines at hl
  rcases List.mem_append.mp hl with h1 | h1
  · split at h1
    · simp only [List.mem_singleton] at h1
      subst h1
      simp
    · obtain ⟨v, hv, rfl⟩ := List.mem_map.mp h1
      exact serializeValue_no_nl v (hvals v hv)
  · obtain ⟨blk, hblk, hlblk⟩ := List.mem_flatten.mp h1
    obtain ⟨s, hs, rfl⟩ := List.mem_map.mp hblk
    rcases List.mem_cons.mp hlblk with rfl | hl2
    · simp
    · rcases List.mem_cons.mp hl2 with rfl | hl3
      · intro hm
        exact absurd (List.all_eq_true.mp (isWordName_parts (hsprops l hs).1).2 _ hm)
          (by decide)
      · obtain ⟨r, hr, rfl⟩ := List.mem_map.mp hl3
        cases hlk : lookupState f.states s with
        | none =>
          rw [hlk] at hr
          simp at hr
        | some rs =>
          rw [hlk] at hr
          simp only [Option.getD_some] at hr
          obtain ⟨q, hq1, hq2⟩ := Option.map_eq_some'.mp hlk
          have hqmem : q ∈ f.states := List.mem_of_find?_eq_some hq1
          exact serializeRule_no_nl _ _ r
            ((hrules q hqmem r (by rw [hq2]; exact hr)).1)

theorem serialFSM_split (reOk : PyStr → Bool) (f : FSMStruct) (hwf : WFFSM reOk f) :
    pySplitChar '\n' (serializeFSM f) = serialLines f ++ [[]] := by
  rw [serializeFSM_flat]
  exact flatLines_split _ (serialLines_no_nl reOk f hwf)

theorem any_fst_eq_true (name : PyStr) (states : List (PyStr × List SRule))
    (h : name ∈ states.map Prod.fst) :
    states.any (fun p => p.1 == name) = true := by
  obtain ⟨p, hp, rfl⟩ := List.mem_map.mp h
  exact List.any_eq_true.mpr ⟨p, hp, by simp⟩

theorem lookupState_not_mem (states : List (PyStr × List SRule)) (name : PyStr)
    (h : name ∉ states.map Prod.fst) :
    lookupState states name = none := by
  unfold lookupState
  rw [List.find?_eq_none.mpr ?_]
  · rfl
  · intro p hp
    have hne : p.1 ≠ name := fun he => h (List.mem_map.mpr ⟨p, hp, he⟩)
    simp [hne]

theorem filter_fst_ne (states : List (PyStr × List SRule)) (name : PyStr)
    (h : name ∉ states.map Prod.fst) :
    states.filter (fun p => p.1 ≠ name) = states := by
  induction states with
  | nil => rfl
  | cons q qs ih =>
    rw [List.filter_cons]
    have hq : q.1 ≠ name := fun he => h (by rw [← he]; simp)
    rw [if_pos (by simp [hq])]
    rw [ih (fun hm => h (by simp [hm]))]

theorem filter_str_ne (slist : List PyStr) (name : PyStr) (h : name ∉ slist) :
    slist.filter (fun s => s ≠ name) = slist := by
  induction slist with
  | nil => rfl
  | cons q qs ih =>
    rw [List.filter_cons]
    have hq : q ≠ name := fun he => h (by rw [← he]; simp)
    rw [if_pos (by simp [hq])]
    rw [ih (fun hm => h (by simp [hm]))]

theorem validateFSM_id (reOk : PyStr → Bool) (f : FSMStruct) (hwf : WFFSM reOk f) :
    validateFSM f = .ok f := by
  obtain ⟨hvals, hvnd, hvmap, hfst, hsnd, hsprops, hstart, hend, heof, hrules⟩ := hwf
  have hendf : pyStr "End" ∉ f.states.map Prod.fst := by rw [hfst]; exact hend
  have hstartmem : pyStr "Start" ∈ f.states.map Prod.fst := by rw [hfst]; exact hstart
  have hlkend : lookupState f.states (pyStr "End") = none :=
    lookupState_not_mem f.states (pyStr "End") hendf
  have hfiltst : f.states.filter (fun p => p.1 ≠ pyStr "End") = f.states :=
    filter_fst_ne f.states (pyStr "End") hendf
  have hfiltsl : f.state_list.filter (fun s => s ≠ pyStr "End") = f.state_list :=
    filter_str_ne f.state_list (pyStr "End") hend
  unfold validateFSM
  rw [any_fst_eq_true _ _ hstartmem]
  rw [if_neg (by simp)]
  rw [hlkend]
  rw [if_neg (by simp)]
  rw [if_neg (by simp [heof])]
  rw [hfiltst, hfiltsl]
  have hbad : f.states.any (fun st => st.2.any (fun r =>
      !(r.line_op == pyStr "Error") &&
      !(r.new_state.isEmpty || r.new_state == pyStr "End" || r.new_state == pyStr "EOF") &&
      !(f.states.any (fun p => p.1 == r.new_state)))) = false := by
    cases hq : f.states.any (fun st => st.2.any (fun r =>
        !(r.line_op == pyStr "Error") &&
        !(r.new_state.isEmpty || r.new_state == pyStr "End" || r.new_state == pyStr "EOF") &&
        !(f.states.any (fun p => p.1 == r.new_state)))) with
    | false => rfl
    | true =>
      exfalso
      obtain ⟨st, hst, hinner⟩ := List.any_eq_true.mp hq
      obtain ⟨r, hr, hpred⟩ := List.any_eq_true.mp hinner
      simp only [Bool.and_eq_true, Bool.not_eq_true'] at hpred
      obtain ⟨⟨ha, hb⟩, hc⟩ := hpred
      have hlopne : r.line_op ≠ pyStr "Error" := by
        intro he
        rw [he] at ha
        simp at ha
      simp only [Bool.or_eq_false_iff] at hb
      obtain ⟨⟨hb1, hb2⟩, hb3⟩ := hb
      have hnsne : r.new_state ≠ [] := by
        intro he
        rw [he] at hb1
        simp at hb1
      have hnsend : r.new_state ≠ pyStr "End" := by
        intro he
        rw [he] at hb2
        simp at hb2
      have hnseof : r.new_state ≠ pyStr "EOF" := by
        intro he
        rw [he] at hb3
        simp at hb3
      have hmem := (hrules st hst r hr).2 hlopne hnsne hnsend hnseof
      rw [← hfst] at hmem
      rw [any_fst_eq_true _ _ hmem] at hc
      cases hc
  simp only [hbad]
  rfl

theorem flatten_blocks_cons (states : List (PyStr × List SRule)) :
    [] :: (((states.map (fun (p : PyStr × List SRule) =>
        [] :: p.1 :: p.2.map serializeRule)).flatten ++ [[]]) : List PyStr).tail =
    (states.map (fun (p : PyStr × List SRule) =>
      [] :: p.1 :: p.2.map serializeRule)).flatten ++ [[]] := by
  cases states with
  | nil => rfl
  | cons p ps => rfl

theorem parseStates_blank_none (reOk : PyStr → Bool) (m : Nat)
    (vmap : List (PyStr × PyStr)) (states : List (PyStr × List SRule))
    (slist : List PyStr) (rest : List PyStr) :
    parseStates reOk m vmap none states slist ([] :: rest) =
      parseStates reOk m vmap none states slist rest := rfl

theorem serializeFSM_roundtrip (reOk : PyStr → Bool) (f : FSMStruct) (hwf : WFFSM reOk f) :
    compileStr reOk (serializeFSM f) = .ok f := by
  have hwf2 := hwf
  obtain ⟨hvals, hvnd, hvmap, hfst, hsnd, hsprops, hstart, hend, heof, hrules⟩ := hwf2
  unfold compileStr
  rw [serialFSM_split reOk f hwf]
  unfold serialLines
  have hblocks : f.state_list.map (fun s =>
      [] :: s :: ((lookupState f.states s).getD []).map serializeRule) =
      f.states.map (fun p => [] :: p.1 :: p.2.map serializeRule) := by
    rw [← hfst, List.map_map]
    refine List.map_congr_left ?_
    intro p hp
    have hlk := lookupState_self f.states (by rw [hfst]; exact hsnd) p hp
    show [] :: p.1 :: ((lookupState f.states p.1).getD []).map serializeRule =
      [] :: p.1 :: p.2.map serializeRule
    rw [hlk]
    rfl
  rw [hblocks, List.append_assoc]
  have hndf : (f.states.map Prod.fst).Nodup := by rw [hfst]; exact hsnd
  have hps : parseStates reOk 48 f.value_map none [] []
      ((f.states.map (fun p => [] :: p.1 :: p.2.map serializeRule)).flatten ++ [[]]) =
      .ok (f.states, f.state_list) := by
    have hps0 := parseStates_serial reOk f.value_map f.states [] none
      (fun p hp r hr => (hrules p hp r hr).1)
      (fun p hp => hsprops p.1 (by rw [← hfst]; exact List.mem_map.mpr ⟨p, hp, rfl⟩))
      (by simpa using hndf)
    simpa [hfst] using hps0
  have hcons := flatten_blocks_cons f.states
  by_cases hve : f.values.isEmpty
  · have hv0 : f.values = [] := by
      cases hv : f.values with
      | nil => rfl
      | cons a t => rw [hv] at hve; cases hve
    have hvm0 : f.value_map = [] := by rw [hvmap, hv0]; rfl
    rw [if_pos hve]
    rw [← hcons]
    unfold compileLines
    rw [List.singleton_append]
    rw [parseVariables_blank 48 [] []]
    have hps2 : parseStates reOk 48 ([] : List (PyStr × PyStr)) none [] []
        ([] :: (((f.states.map (fun (p : PyStr × List SRule) =>
          [] :: p.1 :: p.2.map serializeRule)).flatten ++ [[]]) : List PyStr).tail) =
        .ok (f.states, f.state_list) := by
      rw [hcons, ← hvm0]
      exact hps
    simp only [hps2]
    rw [← hv0, ← hvm0]
    exact validateFSM_id reOk f hwf
  · rw [if_neg hve]
    rw [← hcons]
    unfold compileLines
    rw [parseVariables_serial f.values [] [] _ hvals (by simpa using hvnd)]
    have hpsT : parseStates reOk 48 (f.values.map (fun v => (v.name, v.template))) none [] []
        ((((f.states.map (fun (p : PyStr × List SRule) =>
          [] :: p.1 :: p.2.map serializeRule)).flatten ++ [[]]) : List PyStr).tail) =
        .ok (f.states, f.state_list) := by
      rw [← hvmap]
      rw [← parseStates_blank_none reOk 48 f.value_map [] []]
      rw [hcons]
      exact hps
    simp only [List.nil_append, hpsT]
    rw [← hvmap]
    exact validateFSM_id reOk f hwf

/-- C8: counterexample to idempotence of the canonical serialization.  The
template source `Value v (.*)\n\nStart\n  ^a -> b ->\n` compiles successfully
(the trailing `->` with empty action makes the whole of `^a -> b` the match of
an action-free rule), its string form is `Value v (.*)\n\nStart\n  ^a -> b\n`,
and recompiling that string form fails: the serialized rule line now contains
a parsable ` -> b` action whose target state `b` does not exist.  So
`str(compile(str(compile(src))))` is not defined for this compiling source,
refuting the claim. -/
theorem c8_counterexample :
    (compileStr reAllOk exC8src).isOk = true ∧
    (compileStr reAllOk exC8src).map serializeFSM =
      Except.ok (pyStr "Value v (.*)\n\nStart\n  ^a -> b\n") ∧
    ((compileStr reAllOk exC8src).bind
      (fun f => compileStr reAllOk (serializeFSM f))).isOk = false :=
  ⟨rfl, rfl, rfl⟩

/-- C8 (amended): for a source whose compiled form is well formed — every
value satisfies the `Value` line invariants, states are distinct word names
with `Start` present and `End` absent, and every rule is canonical (match
starting with `^`, no embedded newline, default rules free of whitespace-arrow
occurrences and trailing whitespace, operators drawn from the documented sets,
new state a word name or a quoted `Error` message) — the canonical
serialization round-trips: compiling `str(compile(src))` yields the same
structure, and hence `str(compile(str(compile(src)))) = str(compile(src))`. -/
theorem c8_amended (reOk : PyStr → Bool) (src : PyStr) (f : FSMStruct)
    (hc : compileStr reOk src = .ok f) (hwf : WFFSM reOk f) :
    (compileStr reOk src).map serializeFSM = .ok (serializeFSM f) ∧
    compileStr reOk (serializeFSM f) = .ok f ∧
    (compileStr reOk (serializeFSM f)).map serializeFSM = .ok (serializeFSM f) := by
  have h1 := serializeFSM_roundtrip reOk f hwf
  refine ⟨by rw [hc]; rfl, h1, by rw [h1]; rfl⟩

set_option synthInstance.maxSize 4096 in
/-- Witness for the amended C8 on the concrete template
`Value Required boo (\d+)\n\nStart\n  ^$boo -> Next.Record End\n\nEnd\n`:
it compiles to a well-formed structure and serialization round-trips. -/
theorem c8_amended_witness :
    compileStr reAllOk exC8good = .ok exC8fsm ∧
    ((compileStr reAllOk exC8good).map serializeFSM = .ok (serializeFSM exC8fsm) ∧
     compileStr reAllOk (serializeFSM exC8fsm) = .ok exC8fsm ∧
     (compileStr reAllOk (serializeFSM exC8fsm)).map serializeFSM =
       .ok (serializeFSM exC8fsm)) :=
  ⟨rfl, c8_amended reAllOk exC8good exC8fsm rfl (by unfold WFFSM WFRule WFValue; decide)⟩

end TextFSM
